import Mathlib

/-! Order placement across the product service and the order service.

A shallow embedding of two Express services of the repository:

* `src/microservices/product-service/index.js`, the catalog, which owns the
  per-product stock counter (the "Stock Ledger" of the specification);
* `src/microservices/order-service/index.js`, the order orchestrator and its
  PostgreSQL tables `orders` and `order_items` (the "Order Store").

Handlers become pure functions from the state of the stores to the HTTP
response and the new state.

Conventions of the model.

* JavaScript numbers are doubles.  `stock`, `quantity` and `user_id` are
  integers, and the handlers compute with them exactly: this is the arithmetic
  of doubles as long as every value lies within ±2^53.  The stock handler is
  given a second time with the rounding of doubles (`patchProductStockDouble`).
* A `price` is the decimal number that prints the double, which is what travels
  in JSON and what the PostgreSQL driver sends.  Products and sums of prices are
  exact; what is stated of a computed `total_amount` is stated for prices of at
  most two decimals, and for a sum over several items with no negative price or
  quantity, where the exact value and the double are stored as the same
  `DECIMAL(10,2)`.
* Product identifiers are texts that travel as one segment of a URL path.
  Mongoose casts them to `ObjectId` (`castsToId`); the keys of the model's
  collection stand for such identifiers.
* The path parameter `:id` of the order routes is the decimal text of an
  integer of any size, which PostgreSQL reads as an `integer` (`acceptsId`).
* Time stamps (`created_at`, `updated_at`, `createdAt`) are left out.
* The product collection is a finite map from `_id` to document.  A table is the
  list of its rows in insertion order, and a `SELECT` returns rows in that order.
* The column types of `initDB` act on what is inserted: `DECIMAL(10,2)` rounds
  to two decimals and overflows at eight integer digits, `INTEGER` has its
  32-bit range, `VARCHAR(255)` its length, a primary key admits no duplicate.
  A `SERIAL` sequence is not reset by `ROLLBACK`.
* What lies outside the two files is an input of the model (`Env`): whether a
  call to the product service gets through, whether a statement finds the
  database unavailable, and the text of PostgreSQL errors.  `pool.connect`,
  `ROLLBACK` and `product.save()` do not throw; `findById` throws for a text
  that does not cast.
-/

namespace Shop

deriving instance DecidableEq for Except

/-! ## HTTP responses -/

/-- The JSON body every handler sends: `success: true` with `data`, or
`success: false` with an `error` text. -/
inductive Body (α : Type) where
  | data (d : α)
  | error (msg : String)
  deriving DecidableEq

/-- An HTTP response: status code and body. -/
structure HttpResponse (α : Type) where
  status : Nat
  body : Body α
  deriving DecidableEq

/-! ## Product service (`product-service/index.js`) -/

/-- A document of the `Product` collection (`productSchema`, lines 23-31),
without its `_id` (the key of the collection), `imageUrl` and `createdAt`. -/
structure Product where
  name : String
  description : String
  price : ℚ
  category : String
  stock : Int
  deriving DecidableEq

/-- The `Product` collection: at most one document per `_id`. -/
abbrev Ledger := String → Option Product

/-- A hexadecimal digit. -/
def isHexDigit (c : Char) : Bool :=
  ('0' ≤ c && c ≤ '9') || ('a' ≤ c && c ≤ 'f') || ('A' ≤ c && c ≤ 'F')

/-- The hexadecimal form of an `ObjectId`: 24 hexadecimal digits.  Every
version of Mongoose casts such a text to an `ObjectId`; versions built on an
older `bson` also cast any text of 12 bytes. -/
def isObjectIdText (id : String) : Bool :=
  id.data.length == 24 && id.data.all isHexDigit

/-- A non-empty text of letters and digits: as a segment of a URL path it
reaches the route `/api/products/:id` as it is. -/
def isPlainText (id : String) : Bool :=
  !id.data.isEmpty && id.data.all (fun c => c.isAlphanum)

/-- Whether Mongoose casts the text `id` to the type of `_id`.  The schema
declares no `_id`, so the keys are `ObjectId`s and a text casts when it has
their hexadecimal form.  The keys of the model's collection stand for such
identifiers: a key the collection holds casts as well. -/
def castsToId (L : Ledger) (id : String) : Bool :=
  (L id).isSome || isObjectIdText id

/-- The `message` of the `CastError` Mongoose throws for a text that does not cast. -/
def castErrorMessage (id : String) : String :=
  "Cast to ObjectId failed for value \"" ++ id ++ "\" (type string) at path \"_id\" for model \"Product\""

/-- Mongoose `Product.findById(id)`: the document, `none` for JavaScript `null`,
or the message of the `CastError` thrown for a text that does not cast. -/
def findById (L : Ledger) (id : String) : Except String (Option Product) :=
  if castsToId L id then .ok (L id) else .error (castErrorMessage id)

/-- Mongoose `product.save()` for the document with key `id`. -/
def save (L : Ledger) (id : String) (product : Product) : Ledger :=
  fun k => if k = id then some product else L k

/-- Handler of `GET /api/products/:id` (lines 76-86); an error thrown by
`findById` is answered 500 (lines 83-85). -/
def getProduct (L : Ledger) (id : String) : HttpResponse Product :=
  match findById L id with
  | .error message => ⟨500, .error message⟩
  | .ok none => ⟨404, .error "Product not found"⟩
  | .ok (some product) => ⟨200, .data product⟩

/-- What the stock handler does between its two awaits, `findById` and `save`. -/
inductive StockDecision where
  | reply (r : HttpResponse Product)
  | saveThenReply (product : Product)
  deriving DecidableEq

/-- The synchronous middle of `PATCH /api/products/:id/stock` (lines 135-142):
given what `findById` returned, add `quantity` to the stock and refuse a
negative result. -/
def decideStock (found : Option Product) (quantity : Int) : StockDecision :=
  match found with
  | none => .reply ⟨404, .error "Product not found"⟩
  | some product =>
    let product := { product with stock := product.stock + quantity }
    if product.stock < 0 then .reply ⟨400, .error "Insufficient stock"⟩
    else .saveThenReply product

/-- The stock handler up to its `save`: `findById`, whose error is answered 400
(lines 146-148), then the check. -/
def findAndDecide (L : Ledger) (id : String) (quantity : Int) : StockDecision :=
  match findById L id with
  | .error message => .reply ⟨400, .error message⟩
  | .ok found => decideStock found quantity

/-- Handler of `PATCH /api/products/:id/stock` (lines 130-149), run without
another request in between: `findById`, the check, `save`. -/
def patchProductStock (L : Ledger) (id : String) (quantity : Int) :
    HttpResponse Product × Ledger :=
  match findAndDecide L id quantity with
  | .reply r => (r, L)
  | .saveThenReply product => (⟨200, .data product⟩, save L id product)

/-- A sequence of stock adjustments `(id, quantity)` applied one after the other. -/
def adjustAll (L : Ledger) : List (String × Int) → Ledger
  | [] => L
  | (id, quantity) :: rest => adjustAll (patchProductStock L id quantity).2 rest

/-! ### The stock handler beyond 2^53

`stock` and `quantity` are JavaScript numbers, that is doubles.  Sums of
integers are exact as long as every value lies within ±2^53 (9007199254740992),
which is where `decideStock` and `patchProductStock` above stand for the code.
The definitions below keep the rounding of line 139 for integers of any size
below the largest double. -/

/-- The number of binary digits of `m` beyond 53, found by halving at most
`fuel` times (`fuel = m` is enough). -/
def excessBits : Nat → Nat → Nat
  | 0, _ => 0
  | fuel + 1, m => if m < 2 ^ 53 then 0 else excessBits fuel (m / 2) + 1

/-- The double nearest to an integer, ties to the even significand: what
`JSON.parse` makes of an integer literal and what `+` makes of the exact sum of
two doubles that hold integers. -/
def toDouble (n : Int) : Int :=
  if -9007199254740992 ≤ n ∧ n ≤ 9007199254740992 then n
  else
    let m := n.natAbs
    let e := excessBits m m
    let q := m / 2 ^ e
    let r := m % 2 ^ e
    let half := 2 ^ (e - 1)
    let q := if half < r ∨ (r = half ∧ q % 2 = 1) then q + 1 else q
    n.sign * ((q * 2 ^ e : Nat) : Int)

/-- The synchronous middle of `PATCH /api/products/:id/stock` (lines 135-142)
on doubles: `quantity` is the number written in the request body, and
`product.stock += quantity` rounds the sum. -/
def decideStockDouble (found : Option Product) (quantity : Int) : StockDecision :=
  match found with
  | none => .reply ⟨404, .error "Product not found"⟩
  | some product =>
    let product := { product with stock := toDouble (product.stock + toDouble quantity) }
    if product.stock < 0 then .reply ⟨400, .error "Insufficient stock"⟩
    else .saveThenReply product

/-- Handler of `PATCH /api/products/:id/stock` (lines 130-149) on doubles, run
without another request in between. -/
def patchProductStockDouble (L : Ledger) (id : String) (quantity : Int) :
    HttpResponse Product × Ledger :=
  match findById L id with
  | .error message => (⟨400, .error message⟩, L)
  | .ok found =>
    match decideStockDouble found quantity with
    | .reply r => (r, L)
    | .saveThenReply product => (⟨200, .data product⟩, save L id product)

/-- A sequence of stock adjustments `(id, quantity)` on doubles, applied one
after the other. -/
def adjustAllDouble (L : Ledger) : List (String × Int) → Ledger
  | [] => L
  | (id, quantity) :: rest => adjustAllDouble (patchProductStockDouble L id quantity).2 rest

/-! ## Order store (`order-service/index.js`, tables of `initDB`, lines 28-49) -/

/-- A row of table `orders`. -/
structure OrderRow where
  id : Int
  user_id : Int
  total_amount : ℚ
  status : String
  deriving DecidableEq

/-- A row of table `order_items`. -/
structure OrderItemRow where
  id : Int
  order_id : Int
  product_id : String
  product_name : String
  quantity : Int
  price : ℚ
  deriving DecidableEq

/-- The committed state of the order database: both tables in insertion order
and the last value drawn from each `SERIAL` sequence. -/
structure OrderDB where
  orders : List OrderRow
  order_items : List OrderItemRow
  orders_id_seq : Int
  order_items_id_seq : Int
  deriving DecidableEq

/-- The ways a statement sent to PostgreSQL errors in this model. -/
inductive PgError where
  | unavailable
  | numericOverflow
  | integerOutOfRange
  | valueTooLong
  | uniqueViolation
  deriving DecidableEq

/-- The statements the order service sends. -/
inductive DbStep where
  | begin
  | insertOrder
  | insertItem (k : Nat)
  | commit
  | selectOrder
  | selectItems
  | updateStatus
  deriving DecidableEq

/-- How a call to the product service fares on the wire. -/
inductive Transport where
  | delivered
  | requestLost (msg : String)
  | replyLost (msg : String)
  deriving DecidableEq

/-- What the surroundings of one request do: for the `k`-th item (from 0)
whether the `axios.get` and the `axios.patch` get through, which statements
find the database unavailable, and the `message` of each PostgreSQL error. -/
structure Env where
  get : Nat → Transport
  patch : Nat → Transport
  db : DbStep → Bool
  pgMessage : PgError → String

/-- Surroundings in which every call gets through and the database is available. -/
def Env.healthy (pgMessage : PgError → String) : Env :=
  ⟨fun _ => .delivered, fun _ => .delivered, fun _ => false, pgMessage⟩

/-- Rounding to two decimal places, halves away from zero (a `numeric` of scale 2). -/
def roundScale2 (x : ℚ) : ℚ :=
  if 0 ≤ x then (⌊x * 100 + 1 / 2⌋ : ℚ) / 100 else -((⌊-x * 100 + 1 / 2⌋ : ℚ) / 100)

/-- Storing a number in a `DECIMAL(10,2)` column. -/
def toDecimal10_2 (x : ℚ) : Except PgError ℚ :=
  if |roundScale2 x| < 100000000 then .ok (roundScale2 x) else .error .numericOverflow

/-- Storing a number in an `INTEGER` column. -/
def toInteger (n : Int) : Except PgError Int :=
  if -2147483648 ≤ n ∧ n ≤ 2147483647 then .ok n else .error .integerOutOfRange

/-- Storing a text in a `VARCHAR(255)` column. -/
def toVarchar255 (s : String) : Except PgError String :=
  if s.length ≤ 255 then .ok s else .error .valueTooLong

/-- What `getOrderById` returns for an existing order: the row with its `items`. -/
structure OrderView where
  order : OrderRow
  items : List OrderItemRow
  deriving DecidableEq

/-- A request the order service sent to the product service. -/
inductive LedgerCall where
  | get (id : String)
  | patch (id : String) (quantity : Int)
  deriving DecidableEq

/-- PostgreSQL reads the parameter it compares with `orders.id` or
`order_items.order_id` as an `integer`: a number outside the 32-bit range makes
the statement fail.  The identifiers a table holds are `integer`s, so in the
model a number that some order row carries is accepted whatever its size. -/
def acceptsId (db : OrderDB) (id : Int) : Bool :=
  decide (-2147483648 ≤ id ∧ id ≤ 2147483647) || db.orders.any (fun o => o.id = id)

/-- Statement `SELECT * FROM orders WHERE id = $1` (line 242): the rows or the
error, and the database as the statement leaves it. -/
def selectOrder (db : OrderDB) (id : Int) : Except PgError (List OrderRow) × OrderDB :=
  if acceptsId db id then (.ok (db.orders.filter (fun o => o.id = id)), db)
  else (.error .integerOutOfRange, db)

/-- Statement `SELECT * FROM order_items WHERE order_id = $1` (lines 250-253). -/
def selectItems (db : OrderDB) (order_id : Int) :
    Except PgError (List OrderItemRow) × OrderDB :=
  if acceptsId db order_id then
    (.ok (db.order_items.filter (fun r => r.order_id = order_id)), db)
  else (.error .integerOutOfRange, db)

/-- What a function that talks to PostgreSQL through the pool leaves behind: its
result, the database after the statements it sent, these statements in order,
and the requests it sent to the product service. -/
structure Session (α : Type) where
  result : α
  db : OrderDB
  sent : List DbStep
  calls : List LedgerCall

/-- Function `getOrderById` (lines 241-257) as a run against the database;
`none` is JavaScript `null`.  A statement that finds the database unavailable
does nothing to it. -/
def getOrderByIdSession (env : Env) (db : OrderDB) (orderId : Int) :
    Session (Except PgError (Option OrderView)) :=
  if env.db .selectOrder then ⟨.error .unavailable, db, [.selectOrder], []⟩
  else
    match selectOrder db orderId with
    | (.error e, db1) => ⟨.error e, db1, [.selectOrder], []⟩
    | (.ok [], db1) => ⟨.ok none, db1, [.selectOrder], []⟩
    | (.ok (order :: _), db1) =>
      if env.db .selectItems then ⟨.error .unavailable, db1, [.selectOrder, .selectItems], []⟩
      else
        match selectItems db1 orderId with
        | (.error e, db2) => ⟨.error e, db2, [.selectOrder, .selectItems], []⟩
        | (.ok items, db2) =>
          ⟨.ok (some ⟨order, items⟩), db2, [.selectOrder, .selectItems], []⟩

/-- What `getOrderById` (lines 241-257) returns or throws. -/
def getOrderById (env : Env) (db : OrderDB) (orderId : Int) :
    Except PgError (Option OrderView) :=
  (getOrderByIdSession env db orderId).result

/-- Statement `INSERT INTO orders (user_id, total_amount) VALUES ($1, $2)
RETURNING *` (lines 137-140) on the rows seen by the open transaction.  The
result carries the database as the statement leaves it; a sequence value once
drawn stays drawn. -/
def insertOrder (env : Env) (tx : OrderDB) (user_id : Int) (totalAmount : ℚ) :
    Except PgError OrderRow × OrderDB :=
  if env.db .insertOrder then (.error .unavailable, tx)
  else
    let id := tx.orders_id_seq + 1
    let tx := { tx with orders_id_seq := id }
    match toInteger user_id, toDecimal10_2 totalAmount with
    | .error e, _ => (.error e, tx)
    | .ok _, .error e => (.error e, tx)
    | .ok u, .ok t =>
      if tx.orders.any (fun o => o.id = id) then (.error .uniqueViolation, tx)
      else
        let order : OrderRow := ⟨id, u, t, "pending"⟩
        (.ok order, { tx with orders := tx.orders ++ [order] })

/-- An entry of the array `orderItems` (lines 120-125). -/
structure LineItem where
  product_id : String
  product_name : String
  quantity : Int
  price : ℚ
  deriving DecidableEq

/-- Statement `INSERT INTO order_items (order_id, product_id, product_name,
quantity, price) VALUES ($1, $2, $3, $4, $5)` (lines 146-149), the `k`-th of
the request. -/
def insertItem (env : Env) (k : Nat) (tx : OrderDB) (order_id : Int) (item : LineItem) :
    Except PgError Unit × OrderDB :=
  if env.db (.insertItem k) then (.error .unavailable, tx)
  else
    let id := tx.order_items_id_seq + 1
    let tx := { tx with order_items_id_seq := id }
    match toVarchar255 item.product_id, toVarchar255 item.product_name,
        toInteger item.quantity, toDecimal10_2 item.price with
    | .error e, _, _, _ => (.error e, tx)
    | .ok _, .error e, _, _ => (.error e, tx)
    | .ok _, .ok _, .error e, _ => (.error e, tx)
    | .ok _, .ok _, .ok _, .error e => (.error e, tx)
    | .ok pid, .ok pname, .ok q, .ok p =>
      if tx.order_items.any (fun r => r.id = id) then (.error .uniqueViolation, tx)
      else (.ok (), { tx with order_items := tx.order_items ++ [⟨id, order_id, pid, pname, q, p⟩] })

/-- The loop `for (const item of orderItems)` (lines 145-150), from item `k` on. -/
def insertItems (env : Env) (order_id : Int) :
    Nat → List LineItem → OrderDB → Except PgError Unit × OrderDB
  | _, [], tx => (.ok (), tx)
  | k, item :: rest, tx =>
    match insertItem env k tx order_id item with
    | (.error e, tx1) => (.error e, tx1)
    | (.ok _, tx1) => insertItems env order_id (k + 1) rest tx1

/-- Statement `ROLLBACK`: the rows go back to the committed ones, the sequences
keep the values drawn meanwhile. -/
def rollback (committed tx : OrderDB) : OrderDB :=
  { committed with orders_id_seq := tx.orders_id_seq,
                   order_items_id_seq := tx.order_items_id_seq }

/-! ## Order orchestrator (`POST /api/orders`, lines 92-164) -/

/-- An element of `req.body.items`. -/
structure OrderItemInput where
  product_id : String
  quantity : Int
  deriving DecidableEq

/-- The body of `POST /api/orders`; `none` is an absent field. -/
structure OrderRequest where
  user_id : Option Int
  items : Option (List OrderItemInput)
  deriving DecidableEq

/-- The product service as the order service meets it: the collection and the
requests sent so far. -/
structure World where
  ledger : Ledger
  calls : List LedgerCall

/-- The `message` of the error axios throws for a response outside 2xx. -/
def axiosStatusMessage (status : Nat) : String :=
  "Request failed with status code " ++ toString status

/-- Axios default `validateStatus`. -/
def validateStatus (status : Nat) : Bool := 200 ≤ status && status < 300

/-- Call `axios.get(PRODUCT_SERVICE_URL/api/products/id)` (line 110) for item `k`:
the response body, or the message of the error thrown. -/
def axiosGet (env : Env) (k : Nat) (w : World) (id : String) :
    Except String (Body Product) × World :=
  let w1 : World := ⟨w.ledger, w.calls ++ [.get id]⟩
  match env.get k with
  | .requestLost msg => (.error msg, w1)
  | .replyLost msg => (.error msg, w1)
  | .delivered =>
    let r := getProduct w.ledger id
    if validateStatus r.status then (.ok r.body, w1)
    else (.error (axiosStatusMessage r.status), w1)

/-- Call `axios.patch(PRODUCT_SERVICE_URL/api/products/id/stock, quantity)`
(lines 128-130) for item `k`. -/
def axiosPatch (env : Env) (k : Nat) (w : World) (id : String) (quantity : Int) :
    Except String (Body Product) × World :=
  let calls := w.calls ++ [.patch id quantity]
  match env.patch k with
  | .requestLost msg => (.error msg, ⟨w.ledger, calls⟩)
  | .replyLost msg => (.error msg, ⟨(patchProductStock w.ledger id quantity).2, calls⟩)
  | .delivered =>
    let r := patchProductStock w.ledger id quantity
    if validateStatus r.1.status then (.ok r.1.body, ⟨r.2, calls⟩)
    else (.error (axiosStatusMessage r.1.status), ⟨r.2, calls⟩)

/-- The rethrow of line 132. -/
def processingError (product_id message : String) : String :=
  "Error processing product " ++ product_id ++ ": " ++ message

/-- The throw of line 114. -/
def insufficientStockMessage (productName : String) : String :=
  "Insufficient stock for product: " ++ productName

/-- The loop `for (const item of items)` (lines 108-134), from item `k` on, with
the running `totalAmount` and `orderItems`: the final pair, or the message of
the error thrown, and the product service as the loop leaves it. -/
def processItems (env : Env) :
    Nat → List OrderItemInput → ℚ → List LineItem → World →
      Except String (ℚ × List LineItem) × World
  | _, [], totalAmount, orderItems, w => (.ok (totalAmount, orderItems), w)
  | k, item :: rest, totalAmount, orderItems, w =>
    match axiosGet env k w item.product_id with
    | (.error msg, w1) => (.error (processingError item.product_id msg), w1)
    | (.ok (.error _), w1) =>
      (.error (processingError item.product_id
        "Cannot read properties of undefined (reading 'stock')"), w1)
    | (.ok (.data product), w1) =>
      if product.stock < item.quantity then
        (.error (processingError item.product_id (insufficientStockMessage product.name)), w1)
      else
        let itemTotal := product.price * item.quantity
        let totalAmount := totalAmount + itemTotal
        let orderItems := orderItems ++
          [⟨item.product_id, product.name, item.quantity, product.price⟩]
        match axiosPatch env k w1 item.product_id (-item.quantity) with
        | (.error msg, w2) => (.error (processingError item.product_id msg), w2)
        | (.ok _, w2) => processItems env (k + 1) rest totalAmount orderItems w2

/-- The statements between the item loop and the response (lines 137-152):
insert the order, insert its items, `COMMIT`.  Returns the inserted order row
or the error, and the database as the transaction leaves it when it commits. -/
def persistOrder (env : Env) (db : OrderDB) (user_id : Int) (totalAmount : ℚ)
    (orderItems : List LineItem) : Except PgError OrderRow × OrderDB :=
  match insertOrder env db user_id totalAmount with
  | (.error e, tx) => (.error e, tx)
  | (.ok order, tx) =>
    match insertItems env order.id 0 orderItems tx with
    | (.error e, tx1) => (.error e, tx1)
    | (.ok _, tx1) =>
      if env.db .commit then (.error .unavailable, tx1)
      else (.ok order, tx1)

/-- Everything one `POST /api/orders` leaves behind. -/
structure PostOrderResult where
  response : HttpResponse (Option OrderView)
  ledger : Ledger
  db : OrderDB
  calls : List LedgerCall

/-- JavaScript `!user_id` for an integer or absent `user_id`. -/
def userIdMissing (user_id : Option Int) : Bool :=
  match user_id with
  | none => true
  | some n => n == 0

/-- JavaScript `!items || items.length === 0` for an array or absent `items`. -/
def itemsMissing (items : Option (List OrderItemInput)) : Bool :=
  match items with
  | none => true
  | some l => l.length == 0

/-- Handler of `POST /api/orders` (lines 92-164). -/
def postOrder (env : Env) (L : Ledger) (db : OrderDB) (body : OrderRequest) :
    PostOrderResult :=
  if userIdMissing body.user_id || itemsMissing body.items then
    ⟨⟨400, .error "User ID and items required"⟩, L, db, []⟩
  else if env.db .begin then
    ⟨⟨500, .error (env.pgMessage .unavailable)⟩, L, db, []⟩
  else
    match processItems env 0 (body.items.getD []) 0 [] ⟨L, []⟩ with
    | (.error msg, w) => ⟨⟨500, .error msg⟩, w.ledger, db, w.calls⟩
    | (.ok (totalAmount, orderItems), w) =>
      match persistOrder env db (body.user_id.getD 0) totalAmount orderItems with
      | (.error e, tx) =>
        ⟨⟨500, .error (env.pgMessage e)⟩, w.ledger, rollback db tx, w.calls⟩
      | (.ok order, tx) =>
        match getOrderById env tx order.id with
        | .error e => ⟨⟨500, .error (env.pgMessage e)⟩, w.ledger, tx, w.calls⟩
        | .ok completeOrder => ⟨⟨201, .data completeOrder⟩, w.ledger, tx, w.calls⟩

/-! ## Status update (`PATCH /api/orders/:id/status`, lines 200-223) -/

/-- The array `validStatuses` (line 202). -/
def validStatuses : List String :=
  ["pending", "processing", "shipped", "delivered", "cancelled"]

/-- Statement `UPDATE orders SET status = $1, updated_at = CURRENT_TIMESTAMP
WHERE id = $2 RETURNING *` (lines 209-212): the rows returned or the error, and
the database as the statement leaves it. -/
def updateStatus (db : OrderDB) (status : String) (id : Int) :
    Except PgError (List OrderRow) × OrderDB :=
  if acceptsId db id then
    (.ok ((db.orders.filter (fun o => o.id = id)).map (fun o => { o with status := status })),
     { db with orders :=
        db.orders.map (fun o => if o.id = id then { o with status := status } else o) })
  else (.error .integerOutOfRange, db)

/-- Handler of `PATCH /api/orders/:id/status` (lines 200-223).  The path
parameter `id` is the decimal text of an integer, of any size. -/
def patchOrderStatus (env : Env) (db : OrderDB) (id : Int) (status : String) :
    HttpResponse (Option OrderView) × OrderDB :=
  if !validStatuses.contains status then (⟨400, .error "Invalid status"⟩, db)
  else if env.db .updateStatus then (⟨500, .error (env.pgMessage .unavailable)⟩, db)
  else
    match updateStatus db status id with
    | (.error e, db1) => (⟨500, .error (env.pgMessage e)⟩, db1)
    | (.ok rows, db1) =>
      if rows.length == 0 then (⟨404, .error "Order not found"⟩, db1)
      else
        match getOrderById env db1 id with
        | .error e => (⟨500, .error (env.pgMessage e)⟩, db1)
        | .ok order => (⟨200, .data order⟩, db1)

/-! ## Order lookup (`GET /api/orders/:id`, lines 185-197) -/

/-- Handler of `GET /api/orders/:id` (lines 185-197) as a run against the
database: the response, and what the call of `getOrderById` leaves.  The path
parameter `id` is the decimal text of an integer, of any size. -/
def getOrderSession (env : Env) (db : OrderDB) (id : Int) : Session (HttpResponse OrderView) :=
  let run := getOrderByIdSession env db id
  match run.result with
  | .error e => ⟨⟨500, .error (env.pgMessage e)⟩, run.db, run.sent, run.calls⟩
  | .ok none => ⟨⟨404, .error "Order not found"⟩, run.db, run.sent, run.calls⟩
  | .ok (some order) => ⟨⟨200, .data order⟩, run.db, run.sent, run.calls⟩

/-- The response of `GET /api/orders/:id` (lines 185-197). -/
def getOrder (env : Env) (db : OrderDB) (id : Int) : HttpResponse OrderView :=
  (getOrderSession env db id).result

/-! ## The two services over time -/

/-- The stock adjustments among the requests sent to the product service. -/
def patchCalls : List LedgerCall → List (String × Int)
  | [] => []
  | .get _ :: rest => patchCalls rest
  | .patch id quantity :: rest => (id, quantity) :: patchCalls rest

/-- What the two services hold between two requests. -/
structure System where
  ledger : Ledger
  db : OrderDB

/-- A request to one of the services, run without another request in between. -/
inductive Event where
  /-- Request `POST /api/orders`. -/
  | placeOrder (env : Env) (body : OrderRequest)
  /-- Request `PATCH /api/orders/:id/status`. -/
  | setStatus (env : Env) (id : Int) (status : String)
  /-- Request `GET /api/orders/:id`. -/
  | getOrder (env : Env) (id : Int)
  /-- Request `PATCH /api/products/:id/stock`. -/
  | adjustStock (id : String) (quantity : Int)
  /-- Any of `POST /api/products`, `PUT /api/products/:id` and
  `DELETE /api/products/:id`: it leaves some product collection. -/
  | changeCatalog (L : Ledger)

/-- The state a request leaves.  The requests to the order service other than
a placement reach the ledger only through calls to the product service; the
status update sends none. -/
def applyEvent (s : System) : Event → System
  | .placeOrder env body =>
    ⟨(postOrder env s.ledger s.db body).ledger, (postOrder env s.ledger s.db body).db⟩
  | .setStatus env id status => ⟨s.ledger, (patchOrderStatus env s.db id status).2⟩
  | .getOrder env id =>
    ⟨adjustAll s.ledger (patchCalls (getOrderSession env s.db id).calls),
      (getOrderSession env s.db id).db⟩
  | .adjustStock id quantity => ⟨(patchProductStock s.ledger id quantity).2, s.db⟩
  | .changeCatalog L => ⟨L, s.db⟩

/-- The state after a sequence of requests. -/
def runEvents (s : System) (events : List Event) : System :=
  events.foldl applyEvent s

/-- The event is a `GET /api/orders/:id`. -/
def Event.isGetOrder : Event → Bool
  | .getOrder _ _ => true
  | _ => false

/-! ## Vocabulary of the statements -/

/-- The total quantity a list of items asks of product `id`. -/
def requestedQty (items : List OrderItemInput) (id : String) : Int :=
  ((items.filter (fun it => it.product_id = id)).map (fun it => it.quantity)).sum

/-- Ledger `L2` is ledger `L1` with the stock of every product `id` raised by
`d id` and nothing else changed. -/
def StockShift (L1 L2 : Ledger) (d : String → Int) : Prop :=
  ∀ id, L2 id = (L1 id).map (fun p => { p with stock := p.stock + d id })

/-- The foreign key of `order_items.order_id`: every item row belongs to an
order row. -/
def ForeignKeyValid (db : OrderDB) : Prop :=
  ∀ r ∈ db.order_items, ∃ o ∈ db.orders, o.id = r.order_id

/-- A number with at most two decimal places. -/
def TwoDecimals (x : ℚ) : Prop := ∃ n : Int, x = (n : ℚ) / 100

/-- The snapshot line the loop builds for `item` from the product document. -/
def snapshot (item : OrderItemInput) (product : Product) : LineItem :=
  ⟨item.product_id, product.name, item.quantity, product.price⟩

/-- Line `l` is the snapshot of `item` taken from ledger `L`. -/
def SnapshotOf (L : Ledger) (item : OrderItemInput) (l : LineItem) : Prop :=
  ∃ p, L item.product_id = some p ∧ l = snapshot item p

/-- Sum of unit price times quantity over snapshot lines. -/
def linesTotal (lines : List LineItem) : ℚ :=
  (lines.map (fun l => l.price * (l.quantity : ℚ))).sum

/-- Sum of unit price times quantity over item rows. -/
def rowsTotal (rows : List OrderItemRow) : ℚ :=
  (rows.map (fun r => r.price * (r.quantity : ℚ))).sum

/-- Row `r` stores snapshot line `l` for order `order_id`: the same product,
name and quantity, the price rounded to the scale of its column. -/
def RowOf (order_id : Int) (l : LineItem) (r : OrderItemRow) : Prop :=
  r.order_id = order_id ∧ r.product_id = l.product_id ∧ r.product_name = l.product_name ∧
    r.quantity = l.quantity ∧ r.price = roundScale2 l.price

/-- Every item of the second list finds enough stock in ledger `L` when its
turn comes, the items of the first list having been deducted before it. -/
def InStock (L : Ledger) : List OrderItemInput → List OrderItemInput → Prop
  | _, [] => True
  | done, item :: rest =>
    (∃ p, L item.product_id = some p ∧
      item.quantity ≤ p.stock - requestedQty done item.product_id) ∧
    InStock L (done ++ [item]) rest

/-- The range of an `INTEGER` column. -/
def InIntegerRange (n : Int) : Prop := -2147483648 ≤ n ∧ n ≤ 2147483647

/-- No order or item row has an identifier beyond the last one its sequence
gave out: the state of tables that received their identifiers from the sequences. -/
def SequencesAhead (db : OrderDB) : Prop :=
  (∀ o ∈ db.orders, o.id ≤ db.orders_id_seq) ∧
  (∀ r ∈ db.order_items, r.id ≤ db.order_items_id_seq)

/-- A placement of the single item `(product_id, quantity)` by `user_id`. -/
def placeOne (env : Env) (L : Ledger) (db : OrderDB) (user_id : Int) (product_id : String)
    (quantity : Int) : PostOrderResult :=
  postOrder env L db ⟨some user_id, some [⟨product_id, quantity⟩]⟩

/-- What `getOrderById` returns for `id` when both its statements go through. -/
def readOrder (db : OrderDB) (id : Int) : Option OrderView :=
  match db.orders.filter (fun o => o.id = id) with
  | [] => none
  | order :: _ => some ⟨order, db.order_items.filter (fun r => r.order_id = id)⟩

/-- Every order row has at least one item row. -/
def EveryOrderHasItem (db : OrderDB) : Prop :=
  ∀ o ∈ db.orders, ∃ r ∈ db.order_items, r.order_id = o.id

/-- What `getOrderById` reads of order `id` is the same in both databases, the
status apart: the identifier, owner and total of the rows of `orders`, and the
rows of `order_items`. -/
def OrderKept (id : Int) (db1 db2 : OrderDB) : Prop :=
  (db2.orders.filter (fun o => o.id = id)).map (fun o => (o.id, o.user_id, o.total_amount)) =
      (db1.orders.filter (fun o => o.id = id)).map (fun o => (o.id, o.user_id, o.total_amount)) ∧
    db2.order_items.filter (fun r => r.order_id = id) =
      db1.order_items.filter (fun r => r.order_id = id)

/-- No stock of ledger `L2` is above the stock of the same product in `L1`,
and nothing but stocks differs. -/
def NotRaised (L1 L2 : Ledger) : Prop :=
  ∀ id, ∃ d : Int, 0 ≤ d ∧ L2 id = (L1 id).map (fun p => { p with stock := p.stock - d })

/-! ## Two placements at once

Each handler runs alone between two of its awaits, and another request may run
at every await.  A single-item placement touches the ledger at three awaits:
the `findById` of `GET /api/products/:id`, and the `findById` and the `save` of
`PATCH /api/products/:id/stock`.  The model below advances one single-item
placement from one of these points to the next; the statements on the order
database, which touch no row of another request, are taken as the last step.
Calls get through and the database is available. -/

/-- Where a single-item placement stands. -/
inductive Stage where
  /-- Nothing has run yet. -/
  | start
  /-- The product was fetched and its stock sufficed; `axios.patch` is sent. -/
  | gotProduct (product : Product)
  /-- The stock handler has read the document and accepted; it awaits `save`. -/
  | adjusting (product updated : Product)
  /-- The stock handler has answered 200. -/
  | adjusted (product : Product)
  /-- The response is sent. -/
  | finished (response : HttpResponse (Option OrderView))
  deriving DecidableEq

/-- The state the two services hold. -/
structure Shared where
  ledger : Ledger
  db : OrderDB

/-- A single-item placement: who asks, for which product, how many. -/
structure Placement where
  user_id : Int
  product_id : String
  quantity : Int
  deriving DecidableEq

/-- One step of a single-item placement, from one await on the ledger to the
next (lines 95-156 of the order service, 76-86 and 130-149 of the product
service). -/
def stepPlacement (pgMessage : PgError → String) (r : Placement) :
    Stage → Shared → Stage × Shared
  | .start, s =>
    if userIdMissing (some r.user_id) then
      (.finished ⟨400, .error "User ID and items required"⟩, s)
    else
      let reply := getProduct s.ledger r.product_id
      if validateStatus reply.status then
        match reply.body with
        | .error _ =>
          (.finished ⟨500, .error (processingError r.product_id
            "Cannot read properties of undefined (reading 'stock')")⟩, s)
        | .data product =>
          if product.stock < r.quantity then
            (.finished ⟨500, .error (processingError r.product_id
              (insufficientStockMessage product.name))⟩, s)
          else (.gotProduct product, s)
      else
        (.finished ⟨500, .error (processingError r.product_id
          (axiosStatusMessage reply.status))⟩, s)
  | .gotProduct product, s =>
    match findAndDecide s.ledger r.product_id (-r.quantity) with
    | .reply reply =>
      if validateStatus reply.status then (.adjusted product, s)
      else
        (.finished ⟨500, .error (processingError r.product_id
          (axiosStatusMessage reply.status))⟩, s)
    | .saveThenReply updated => (.adjusting product updated, s)
  | .adjusting product updated, s =>
    (.adjusted product, ⟨save s.ledger r.product_id updated, s.db⟩)
  | .adjusted product, s =>
    match persistOrder (Env.healthy pgMessage) s.db r.user_id
        (0 + product.price * r.quantity)
        ([] ++ [⟨r.product_id, product.name, r.quantity, product.price⟩]) with
    | (.error e, tx) => (.finished ⟨500, .error (pgMessage e)⟩, ⟨s.ledger, rollback s.db tx⟩)
    | (.ok order, tx) =>
      match getOrderById (Env.healthy pgMessage) tx order.id with
      | .error e => (.finished ⟨500, .error (pgMessage e)⟩, ⟨s.ledger, tx⟩)
      | .ok completeOrder => (.finished ⟨201, .data completeOrder⟩, ⟨s.ledger, tx⟩)
  | .finished response, s => (.finished response, s)

/-- Two placements in flight and the state they share. -/
structure InFlight where
  first : Stage
  second : Stage
  shared : Shared

/-- The placement chosen by `who` (`false` the first, `true` the second) takes
one step. -/
def stepInFlight (pgMessage : PgError → String) (r1 r2 : Placement) (who : Bool)
    (st : InFlight) : InFlight :=
  if who then
    let next := stepPlacement pgMessage r2 st.second st.shared
    ⟨st.first, next.1, next.2⟩
  else
    let next := stepPlacement pgMessage r1 st.first st.shared
    ⟨next.1, st.second, next.2⟩

/-- The two placements run from the start under a schedule: the list says whose
turn each step is. -/
def runInFlight (pgMessage : PgError → String) (r1 r2 : Placement) (L : Ledger)
    (db : OrderDB) (schedule : List Bool) : InFlight :=
  schedule.foldl (fun st who => stepInFlight pgMessage r1 r2 who st) ⟨.start, .start, ⟨L, db⟩⟩

/-- The schedule without interleaving: the four steps of one placement, then
the four steps of the other. -/
def oneAfterTheOther (secondFirst : Bool) : List Bool :=
  List.replicate 4 secondFirst ++ List.replicate 4 (!secondFirst)

/-- A placement takes `n` steps with no other request in between. -/
def runAlone (pgMessage : PgError → String) (r : Placement) : Nat → Stage × Shared → Stage × Shared
  | 0, x => x
  | n + 1, x => runAlone pgMessage r n (stepPlacement pgMessage r x.1 x.2)

/-- Placement `r` of product `p` fits the columns of the order tables. -/
def FitsColumns (r : Placement) (p : Product) : Prop :=
  r.user_id ≠ 0 ∧ (InIntegerRange r.user_id ∧ InIntegerRange r.quantity) ∧
    (r.product_id.length ≤ 255 ∧ p.name.length ≤ 255) ∧ TwoDecimals p.price ∧
    (|p.price| < 100000000 ∧ |p.price * r.quantity| < 100000000)

/-- The stock adjustment of the placement has been saved: its stock handler
has answered 200. -/
def Stage.saved : Stage → Bool
  | .adjusted _ => true
  | .finished response => response.status == 201
  | _ => false

/-- How far a placement has come: the number of steps behind it when none of
them failed, 4 once the response is sent. -/
def Stage.rank : Stage → Nat
  | .start => 0
  | .gotProduct _ => 1
  | .adjusting _ _ => 2
  | .adjusted _ => 3
  | .finished _ => 4

/-- What holds of the stage of placement `r` of product `p` while another
placement of `p` is in flight, `otherSaved` telling whether the adjustment of
that one has been saved: the product it carries has the name and price of `p`,
the document it is about to save is `p` with the stock lowered by its quantity,
and a failure is one of the two refusals for lack of stock and comes after the
other placement's adjustment. -/
def StageOk (r : Placement) (p : Product) (otherSaved : Bool) : Stage → Prop
  | .start => True
  | .gotProduct product => product.name = p.name ∧ product.price = p.price
  | .adjusting product updated =>
    (product.name = p.name ∧ product.price = p.price) ∧
      updated = { p with stock := p.stock - r.quantity }
  | .adjusted product => product.name = p.name ∧ product.price = p.price
  | .finished response =>
    (∃ view, response = ⟨201, .data (some view)⟩) ∨
      (otherSaved = true ∧
        (response = ⟨500, .error (processingError r.product_id
            (insufficientStockMessage p.name))⟩ ∨
          response = ⟨500, .error (processingError r.product_id (axiosStatusMessage 400))⟩))

/-- What holds of the ledger while two placements of product `p` under key
`pid`, of quantities `q1` and `q2`, are in flight: the other products are those
of `L0`, and `p` has its first stock while no adjustment is saved, and else its
first stock lowered by the quantity of a placement whose adjustment is saved. -/
def LedgerOk (L0 : Ledger) (pid : String) (p : Product) (q1 q2 : Int) (saved1 saved2 : Bool)
    (L : Ledger) : Prop :=
  (∀ k, k ≠ pid → L k = L0 k) ∧
    ((L pid = some p ∧ saved1 = false ∧ saved2 = false) ∨
      (L pid = some { p with stock := p.stock - q1 } ∧ saved1 = true) ∨
      (L pid = some { p with stock := p.stock - q2 } ∧ saved2 = true))

/-- The invariant of two placements `r1`, `r2` of the product `p`, started on
ledger `L0`, under every schedule. -/
def InFlightOk (L0 : Ledger) (r1 r2 : Placement) (p : Product) (st : InFlight) : Prop :=
  StageOk r1 p st.second.saved st.first ∧ StageOk r2 p st.first.saved st.second ∧
    (ForeignKeyValid st.shared.db ∧ SequencesAhead st.shared.db) ∧
    LedgerOk L0 r1.product_id p r1.quantity r2.quantity st.first.saved st.second.saved
      st.shared.ledger

/-! ## Concrete states used by the examples -/

/-- Surroundings without faults; PostgreSQL errors are reported by their kind. -/
def quietEnv : Env :=
  Env.healthy (fun e =>
    match e with
    | .unavailable => "connection terminated"
    | .numericOverflow => "numeric field overflow"
    | .integerOutOfRange => "integer out of range"
    | .valueTooLong => "value too long for type character varying(255)"
    | .uniqueViolation => "duplicate key value violates unique constraint")

/-- An order database with no rows and fresh sequences. -/
def emptyDB : OrderDB := ⟨[], [], 0, 0⟩

/-- A catalog with one product `P1` of the given price and stock. -/
def oneProduct (price : ℚ) (stock : Int) : Ledger :=
  fun k => if k = "P1" then some ⟨"Widget", "A widget", price, "tools", stock⟩ else none

/-- A catalog with two products, `P1` and `P2`, of the given stocks. -/
def twoProducts (stock1 stock2 : Int) : Ledger :=
  fun k =>
    if k = "P1" then some ⟨"Widget", "A widget", 1999 / 100, "tools", stock1⟩
    else if k = "P2" then some ⟨"Gadget", "A gadget", 5, "tools", stock2⟩
    else none

/-- Surroundings in which only the given statement finds the database unavailable. -/
def failingAt (step : DbStep) : Env :=
  { quietEnv with db := fun s => decide (s = step) }

/-! ## The product service -/

theorem findById_found {L : Ledger} {id : String} {p : Product} (h : L id = some p) :
    findById L id = .ok (some p) := by
  simp [findById, castsToId, h]

theorem findById_missing {L : Ledger} {id : String} (h : L id = none) :
    findById L id =
      if isObjectIdText id then .ok none else .error (castErrorMessage id) := by
  simp [findById, castsToId, h]

theorem getProduct_found {L : Ledger} {id : String} {p : Product} (h : L id = some p) :
    getProduct L id = ⟨200, .data p⟩ := by
  simp [getProduct, findById_found h]

theorem getProduct_missing {L : Ledger} {id : String} (h : L id = none) :
    getProduct L id =
      if isObjectIdText id then ⟨404, .error "Product not found"⟩
      else ⟨500, .error (castErrorMessage id)⟩ := by
  rw [getProduct, findById_missing h]
  by_cases hx : isObjectIdText id = true <;> simp [hx]

theorem findAndDecide_found {L : Ledger} {id : String} {p : Product} (q : Int)
    (h : L id = some p) :
    findAndDecide L id q =
      if p.stock + q < 0 then .reply ⟨400, .error "Insufficient stock"⟩
      else .saveThenReply { p with stock := p.stock + q } := by
  simp [findAndDecide, findById_found h, decideStock]

theorem findAndDecide_missing {L : Ledger} {id : String} (q : Int) (h : L id = none) :
    findAndDecide L id q =
      .reply (if isObjectIdText id then ⟨404, .error "Product not found"⟩
        else ⟨400, .error (castErrorMessage id)⟩) := by
  rw [findAndDecide, findById_missing h]
  by_cases hx : isObjectIdText id = true <;> simp [hx, decideStock]

theorem patchProductStock_found (L : Ledger) (id : String) (q : Int) (p : Product)
    (h : L id = some p) :
    patchProductStock L id q =
      if p.stock + q < 0 then (⟨400, .error "Insufficient stock"⟩, L)
      else (⟨200, .data { p with stock := p.stock + q }⟩,
            save L id { p with stock := p.stock + q }) := by
  rw [patchProductStock, findAndDecide_found q h]
  by_cases hneg : p.stock + q < 0 <;> simp [hneg]

theorem patchProductStock_missing (L : Ledger) (id : String) (q : Int) (h : L id = none) :
    patchProductStock L id q =
      (if isObjectIdText id then ⟨404, .error "Product not found"⟩
        else ⟨400, .error (castErrorMessage id)⟩, L) := by
  rw [patchProductStock, findAndDecide_missing q h]

theorem toDouble_of_safe {n : Int} (h : |n| ≤ 9007199254740992) : toDouble n = n := by
  have := abs_le.mp h
  simp [toDouble, this]

theorem patchProductStockDouble_found (L : Ledger) (id : String) (q : Int) (p : Product)
    (h : L id = some p) :
    patchProductStockDouble L id q =
      if toDouble (p.stock + toDouble q) < 0 then (⟨400, .error "Insufficient stock"⟩, L)
      else (⟨200, .data { p with stock := toDouble (p.stock + toDouble q) }⟩,
            save L id { p with stock := toDouble (p.stock + toDouble q) }) := by
  rw [patchProductStockDouble, findById_found h]
  by_cases hneg : toDouble (p.stock + toDouble q) < 0 <;> simp [decideStockDouble, hneg]

theorem patchProductStockDouble_missing (L : Ledger) (id : String) (q : Int)
    (h : L id = none) : (patchProductStockDouble L id q).2 = L := by
  rw [patchProductStockDouble, findById_missing h]
  by_cases hx : isObjectIdText id = true <;> simp [hx, decideStockDouble]

theorem patchProductStockDouble_keeps_nonneg (L : Ledger) (id k : String) (q : Int)
    (p : Product) (h : L id = some p) (hp : 0 ≤ p.stock) :
    ∃ p2, (patchProductStockDouble L k q).2 id = some p2 ∧ 0 ≤ p2.stock := by
  cases hk : L k with
  | none => rw [patchProductStockDouble_missing L k q hk]; exact ⟨p, h, hp⟩
  | some pk =>
    rw [patchProductStockDouble_found L k q pk hk]
    by_cases hneg : toDouble (pk.stock + toDouble q) < 0
    · simp only [hneg, if_true]; exact ⟨p, h, hp⟩
    · simp only [hneg, if_false, save]
      by_cases hid : id = k
      · subst hid
        exact ⟨{ pk with stock := toDouble (pk.stock + toDouble q) }, by simp,
          by simpa using hneg⟩
      · exact ⟨p, by simp [hid, h], hp⟩

theorem adjustAllDouble_keeps_nonneg (adjustments : List (String × Int)) :
    ∀ (L : Ledger) (id : String) (p : Product), L id = some p → 0 ≤ p.stock →
      ∃ p2, adjustAllDouble L adjustments id = some p2 ∧ 0 ≤ p2.stock := by
  induction adjustments with
  | nil => intro L id p h hp; exact ⟨p, h, hp⟩
  | cons a rest ih =>
    intro L id p h hp
    obtain ⟨k, q⟩ := a
    obtain ⟨p2, h2, hp2⟩ := patchProductStockDouble_keeps_nonneg L id k q p h hp
    exact ih _ id p2 h2 hp2

/-- C6 (amended): take an existing product with stock `s` and an adjustment
`d`.  When `s`, `d` and `s + d` lie within ±2^53, the stock handler refuses
(status 400, `Insufficient stock`, collection unchanged) exactly when
`s + d < 0`, and otherwise answers 200 with stock `s + d` and stores `s + d`,
no other product changing; there the handler on doubles is the handler on exact
integers.  For values of any size the handler either answers 400 and changes
nothing, or answers 200 with the product it stored, whose stock is not
negative.  Hence a product whose stock is non-negative keeps a non-negative
stock through any sequence of adjustments to any products. -/
theorem patchProductStockDouble_rejects_iff_negative (L : Ledger) (id : String) (d : Int)
    (p : Product) (h : L id = some p) :
    (|p.stock| ≤ 9007199254740992 → |d| ≤ 9007199254740992 →
      |p.stock + d| ≤ 9007199254740992 →
        patchProductStockDouble L id d = patchProductStock L id d ∧
        ((patchProductStockDouble L id d).1.status ≠ 200 ↔ p.stock + d < 0) ∧
        (p.stock + d < 0 →
          patchProductStockDouble L id d = (⟨400, .error "Insufficient stock"⟩, L)) ∧
        (¬ p.stock + d < 0 →
          (patchProductStockDouble L id d).1 = ⟨200, .data { p with stock := p.stock + d }⟩ ∧
          (patchProductStockDouble L id d).2 id = some { p with stock := p.stock + d } ∧
          ∀ k, k ≠ id → (patchProductStockDouble L id d).2 k = L k)) ∧
    (patchProductStockDouble L id d = (⟨400, .error "Insufficient stock"⟩, L) ∨
      ∃ p2, 0 ≤ p2.stock ∧ (patchProductStockDouble L id d).1 = ⟨200, .data p2⟩ ∧
        (patchProductStockDouble L id d).2 id = some p2 ∧
        ∀ k, k ≠ id → (patchProductStockDouble L id d).2 k = L k) ∧
    (0 ≤ p.stock → ∀ adjustments : List (String × Int),
      ∃ p2, adjustAllDouble L adjustments id = some p2 ∧ 0 ≤ p2.stock) := by
  refine ⟨?_, ?_, ?_⟩
  · intro _ hd hsum
    rw [patchProductStockDouble_found L id d p h, patchProductStock_found L id d p h,
      toDouble_of_safe hd, toDouble_of_safe hsum]
    refine ⟨rfl, ?_, ?_, ?_⟩
    · by_cases hneg : p.stock + d < 0 <;> simp [hneg]
    · intro hneg; simp [hneg]
    · intro hneg
      rw [if_neg hneg]
      refine ⟨rfl, by simp [save], ?_⟩
      intro k hk; simp [save, hk]
  · rw [patchProductStockDouble_found L id d p h]
    by_cases hneg : toDouble (p.stock + toDouble d) < 0
    · left; simp [hneg]
    · right
      rw [if_neg hneg]
      refine ⟨_, by simpa using hneg, rfl, by simp [save], ?_⟩
      intro k hk; simp [save, hk]
  · intro hp adjustments
    exact adjustAllDouble_keeps_nonneg adjustments L id p h hp

/-- Witness of C6 (amended): a stock of 5 adjusted by -3 is accepted and becomes 2. -/
theorem patchProductStockDouble_rejects_iff_negative_witness :
    (patchProductStockDouble (oneProduct 4 5) "P1" (-3)).1 =
        ⟨200, .data ⟨"Widget", "A widget", 4, "tools", 2⟩⟩ ∧
      (patchProductStockDouble (oneProduct 4 5) "P1" (-3)).2 "P1" =
        some ⟨"Widget", "A widget", 4, "tools", 2⟩ :=
  have h := ((patchProductStockDouble_rejects_iff_negative (oneProduct 4 5) "P1" (-3)
    ⟨"Widget", "A widget", 4, "tools", 5⟩ rfl).1 (by decide) (by decide) (by decide)).2.2.2
      (by decide)
  ⟨h.1, h.2.1⟩

/-- Counterexample to C6 as stated: with stock 2^53 = 9007199254740992 and the
adjustment 1 the sum is not negative and the handler answers 200, but the stock
it returns and stores is still 9007199254740992, not `s + d`; with stock 5 and
the adjustment 2^53 it stores 9007199254740996, not 9007199254740997. -/
theorem patchProductStockDouble_rounds :
    (patchProductStockDouble (oneProduct 4 9007199254740992) "P1" 1).1 =
        ⟨200, .data ⟨"Widget", "A widget", 4, "tools", 9007199254740992⟩⟩ ∧
      (patchProductStockDouble (oneProduct 4 9007199254740992) "P1" 1).2 "P1" =
        some ⟨"Widget", "A widget", 4, "tools", 9007199254740992⟩ ∧
      (9007199254740992 : Int) + 1 ≠ 9007199254740992 ∧
      (patchProductStockDouble (oneProduct 4 5) "P1" 9007199254740992).2 "P1" =
        some ⟨"Widget", "A widget", 4, "tools", 9007199254740996⟩ ∧
      (5 : Int) + 9007199254740992 ≠ 9007199254740996 := by
  refine ⟨by decide!, by decide!, by decide, by decide!, by decide⟩

/-- C5: a request without `user_id`, without `items` or with an empty `items`
is answered 400 `User ID and items required`; the product service receives no
request, and neither the ledger nor the order database changes. -/
theorem postOrder_invalid_request (env : Env) (L : Ledger) (db : OrderDB)
    (body : OrderRequest)
    (h : body.user_id = none ∨ body.items = none ∨ body.items = some []) :
    postOrder env L db body =
      ⟨⟨400, .error "User ID and items required"⟩, L, db, []⟩ := by
  unfold postOrder
  have hguard : (userIdMissing body.user_id || itemsMissing body.items) = true := by
    rcases h with h | h | h
    · simp [h, userIdMissing]
    · simp [h, itemsMissing]
    · simp [h, itemsMissing]
  rw [if_pos hguard]

/-- Witness of C5: a request with an empty item list. -/
theorem postOrder_invalid_request_witness :
    postOrder (Env.healthy (fun _ => "db")) (fun _ => none) ⟨[], [], 0, 0⟩ ⟨some 7, some []⟩ =
      ⟨⟨400, .error "User ID and items required"⟩, fun _ => none, ⟨[], [], 0, 0⟩, []⟩ :=
  postOrder_invalid_request _ _ _ _ (Or.inr (Or.inr rfl))

/-! ## The item loop -/

theorem StockShift.refl (L : Ledger) : StockShift L L (fun _ => 0) := by
  intro id
  cases h : L id <;> simp

theorem StockShift.trans {L1 L2 L3 : Ledger} {d1 d2 : String → Int}
    (h12 : StockShift L1 L2 d1) (h23 : StockShift L2 L3 d2) :
    StockShift L1 L3 (fun id => d1 id + d2 id) := by
  intro id
  rw [h23 id, h12 id]
  cases h : L1 id <;> simp [add_assoc]

theorem StockShift.congr {L1 L2 : Ledger} {d1 d2 : String → Int}
    (h : StockShift L1 L2 d1) (hd : ∀ id, d1 id = d2 id) : StockShift L1 L2 d2 := by
  intro id
  rw [h id, hd id]

theorem StockShift.save {L : Ledger} {id : String} {p : Product} (h : L id = some p)
    (q : Int) :
    StockShift L (save L id { p with stock := p.stock + q })
      (fun k => if k = id then q else 0) := by
  intro k
  by_cases hk : k = id
  · subst hk; simp [Shop.save, h]
  · simp only [Shop.save, hk, if_false]
    cases hL : L k <;> simp

theorem SnapshotOf.of_shift {L1 L2 : Ledger} {d : String → Int} (h : StockShift L1 L2 d)
    {item : OrderItemInput} {l : LineItem} (hl : SnapshotOf L2 item l) :
    SnapshotOf L1 item l := by
  obtain ⟨p2, hp2, rfl⟩ := hl
  rw [h item.product_id] at hp2
  cases hL : L1 item.product_id with
  | none => simp [hL] at hp2
  | some p1 =>
    simp only [hL, Option.map_some', Option.some.injEq] at hp2
    exact ⟨p1, hL, by subst hp2; rfl⟩

theorem requestedQty_cons (item : OrderItemInput) (rest : List OrderItemInput) (id : String) :
    requestedQty (item :: rest) id =
      (if item.product_id = id then item.quantity else 0) + requestedQty rest id := by
  unfold requestedQty
  by_cases h : item.product_id = id <;> simp [List.filter_cons, h]

theorem axiosGet_ok {env : Env} {k : Nat} {w w1 : World} {id : String} {b : Body Product}
    (h : axiosGet env k w id = (.ok b, w1)) :
    env.get k = .delivered ∧ w1 = ⟨w.ledger, w.calls ++ [.get id]⟩ ∧
      ∃ p, w.ledger id = some p ∧ b = .data p := by
  unfold axiosGet at h
  cases hg : env.get k with
  | requestLost msg => simp [hg] at h
  | replyLost msg => simp [hg] at h
  | delivered =>
    simp only [hg] at h
    cases hL : w.ledger id with
    | none =>
      rw [getProduct_missing hL] at h
      by_cases hx : isObjectIdText id = true <;> simp [hx, validateStatus] at h
    | some p =>
      rw [getProduct_found hL] at h
      simp only [validateStatus] at h
      simp at h
      exact ⟨rfl, h.2.symm, p, rfl, h.1.symm⟩

theorem axiosPatch_ok {env : Env} {k : Nat} {w w2 : World} {id : String} {q : Int}
    {b : Body Product} (h : axiosPatch env k w id q = (.ok b, w2)) :
    env.patch k = .delivered ∧
      ∃ p, w.ledger id = some p ∧ ¬ p.stock + q < 0 ∧
        w2 = ⟨save w.ledger id { p with stock := p.stock + q }, w.calls ++ [.patch id q]⟩ := by
  unfold axiosPatch at h
  cases hg : env.patch k with
  | requestLost msg => simp [hg] at h
  | replyLost msg => simp [hg] at h
  | delivered =>
    simp only [hg] at h
    cases hL : w.ledger id with
    | none =>
      rw [patchProductStock_missing _ _ _ hL] at h
      by_cases hx : isObjectIdText id = true <;> simp [hx, validateStatus] at h
    | some p =>
      rw [patchProductStock_found _ _ _ p hL] at h
      by_cases hneg : p.stock + q < 0
      · simp [hneg, validateStatus] at h
      · simp only [hneg, if_false, validateStatus] at h
        simp at h
        exact ⟨rfl, p, rfl, hneg, h.2.symm⟩

theorem processItems_ok (env : Env) (items : List OrderItemInput) :
    ∀ (k : Nat) (total : ℚ) (acc : List LineItem) (w : World) (total2 : ℚ)
      (acc2 : List LineItem) (w2 : World),
      processItems env k items total acc w = (.ok (total2, acc2), w2) →
      ∃ lines, acc2 = acc ++ lines ∧ total2 = total + linesTotal lines ∧
        List.Forall₂ (SnapshotOf w.ledger) items lines ∧
        StockShift w.ledger w2.ledger (fun id => -requestedQty items id) := by
  induction items with
  | nil =>
    intro k total acc w total2 acc2 w2 h
    simp only [processItems, Prod.mk.injEq, Except.ok.injEq] at h
    obtain ⟨⟨rfl, rfl⟩, rfl⟩ := h
    exact ⟨[], by simp, by simp [linesTotal], List.Forall₂.nil,
      (StockShift.refl _).congr (by intro id; simp [requestedQty])⟩
  | cons item rest ih =>
    intro k total acc w total2 acc2 w2 h
    rw [processItems] at h
    split at h
    · simp at h
    · simp at h
    · rename_i product w1 hget
      obtain ⟨-, rfl, p, hp, hb⟩ := axiosGet_ok hget
      simp only [Body.data.injEq] at hb
      subst hb
      split at h
      · simp at h
      · rename_i hstock
        split at h
        · simp at h
        · rename_i b w3 hpatch
          obtain ⟨-, p2, hp2, hneg, rfl⟩ := axiosPatch_ok hpatch
          simp only at hp2
          rw [hp] at hp2
          simp only [Option.some.injEq] at hp2
          subst hp2
          obtain ⟨lines, hacc, htot, hsnap, hshift⟩ := ih _ _ _ _ _ _ _ h
          have hstep := StockShift.save hp (-item.quantity)
          refine ⟨snapshot item product :: lines, ?_, ?_, ?_, ?_⟩
          · simp [hacc, snapshot]
          · rw [htot]; simp [linesTotal, snapshot]; ring
          · exact List.Forall₂.cons ⟨product, hp, rfl⟩
              (hsnap.imp (fun _ _ hl => SnapshotOf.of_shift hstep hl))
          · refine (hstep.trans hshift).congr ?_
            intro id
            rw [requestedQty_cons]
            by_cases hid : id = item.product_id
            · subst hid; simp; ring
            · have hid2 : ¬ item.product_id = id := fun e => hid e.symm
              simp [hid, hid2]

/-! ## The transaction -/

theorem toInteger_ok {n m : Int} (h : toInteger n = .ok m) : m = n := by
  unfold toInteger at h
  split at h
  · simpa using h.symm
  · simp at h

theorem toDecimal10_2_ok {x t : ℚ} (h : toDecimal10_2 x = .ok t) : t = roundScale2 x := by
  unfold toDecimal10_2 at h
  split at h
  · simpa using h.symm
  · simp at h

theorem toVarchar255_ok {s t : String} (h : toVarchar255 s = .ok t) : t = s := by
  unfold toVarchar255 at h
  split at h
  · simpa using h.symm
  · simp at h

theorem insertOrder_ok {env : Env} {tx tx2 : OrderDB} {user_id : Int} {total : ℚ}
    {order : OrderRow} (h : insertOrder env tx user_id total = (.ok order, tx2)) :
    order = ⟨tx.orders_id_seq + 1, user_id, roundScale2 total, "pending"⟩ ∧
      (∀ o ∈ tx.orders, o.id ≠ order.id) ∧
      tx2 = { tx with orders_id_seq := tx.orders_id_seq + 1, orders := tx.orders ++ [order] } := by
  unfold insertOrder at h
  split at h
  · simp at h
  · simp only at h
    split at h
    · simp at h
    · simp at h
    · rename_i u t hu ht
      have hu2 := toInteger_ok hu
      have ht2 := toDecimal10_2_ok ht
      subst hu2 ht2
      split at h
      · simp at h
      · rename_i hfresh
        simp only [Prod.mk.injEq, Except.ok.injEq] at h
        obtain ⟨rfl, rfl⟩ := h
        refine ⟨rfl, ?_, rfl⟩
        intro o ho heq
        apply hfresh
        simp only [List.any_eq_true, decide_eq_true_eq]
        exact ⟨o, ho, heq⟩

theorem insertItem_ok {env : Env} {k : Nat} {tx tx2 : OrderDB} {order_id : Int}
    {item : LineItem} {u : Unit} (h : insertItem env k tx order_id item = (.ok u, tx2)) :
    ∃ r, RowOf order_id item r ∧
      tx2 = { tx with order_items_id_seq := tx.order_items_id_seq + 1,
                      order_items := tx.order_items ++ [r] } := by
  unfold insertItem at h
  split at h
  · simp at h
  · simp only at h
    split at h
    · simp at h
    · simp at h
    · simp at h
    · simp at h
    · rename_i pid pname q p h1 h2 h3 h4
      have e1 := toVarchar255_ok h1
      have e2 := toVarchar255_ok h2
      have e3 := toInteger_ok h3
      have e4 := toDecimal10_2_ok h4
      subst e1 e2 e3 e4
      split at h
      · simp at h
      · simp only [Prod.mk.injEq, Except.ok.injEq] at h
        exact ⟨_, ⟨rfl, rfl, rfl, rfl, rfl⟩, h.2.symm⟩

theorem insertItems_ok (env : Env) (order_id : Int) (lines : List LineItem) :
    ∀ (k : Nat) (tx tx2 : OrderDB) (u : Unit),
      insertItems env order_id k lines tx = (.ok u, tx2) →
      ∃ rows, List.Forall₂ (RowOf order_id) lines rows ∧
        tx2.orders = tx.orders ∧ tx2.orders_id_seq = tx.orders_id_seq ∧
        tx2.order_items = tx.order_items ++ rows := by
  induction lines with
  | nil =>
    intro k tx tx2 u h
    simp only [insertItems, Prod.mk.injEq] at h
    obtain ⟨-, rfl⟩ := h
    exact ⟨[], List.Forall₂.nil, rfl, rfl, by simp⟩
  | cons l rest ih =>
    intro k tx tx2 u h
    rw [insertItems] at h
    split at h
    · simp at h
    · rename_i u1 tx1 hone
      obtain ⟨r, hr, rfl⟩ := insertItem_ok hone
      obtain ⟨rows, hrows, ho, hs, hi⟩ := ih _ _ _ _ h
      exact ⟨r :: rows, List.Forall₂.cons hr hrows, ho, hs, by simp [hi]⟩

theorem persistOrder_ok {env : Env} {db tx : OrderDB} {user_id : Int} {total : ℚ}
    {lines : List LineItem} {order : OrderRow}
    (h : persistOrder env db user_id total lines = (.ok order, tx)) :
    order = ⟨db.orders_id_seq + 1, user_id, roundScale2 total, "pending"⟩ ∧
      (∀ o ∈ db.orders, o.id ≠ order.id) ∧ tx.orders = db.orders ++ [order] ∧
      ∃ rows, List.Forall₂ (RowOf order.id) lines rows ∧
        tx.order_items = db.order_items ++ rows := by
  unfold persistOrder at h
  split at h
  · simp at h
  · rename_i order1 tx1 hins
    obtain ⟨horder, hfresh, rfl⟩ := insertOrder_ok hins
    split at h
    · simp at h
    · rename_i u tx2 hitems
      obtain ⟨rows, hrows, ho, -, hi⟩ := insertItems_ok _ _ _ _ _ _ _ hitems
      split at h
      · simp at h
      · simp only [Prod.mk.injEq, Except.ok.injEq] at h
        obtain ⟨rfl, rfl⟩ := h
        exact ⟨horder, hfresh, ho, rows, hrows, hi⟩

theorem RowOf.order_id_eq {order_id : Int} {lines : List LineItem} {rows : List OrderItemRow}
    (h : List.Forall₂ (RowOf order_id) lines rows) : ∀ r ∈ rows, r.order_id = order_id := by
  induction h with
  | nil => simp
  | cons hr _ ih =>
    intro r hmem
    rcases List.mem_cons.mp hmem with rfl | hmem
    · exact hr.1
    · exact ih r hmem

theorem acceptsId_of_mem {db : OrderDB} {o : OrderRow} (h : o ∈ db.orders) :
    acceptsId db o.id = true := by
  unfold acceptsId
  rw [Bool.or_eq_true]
  right
  rw [List.any_eq_true]
  exact ⟨o, h, by simp⟩

theorem acceptsId_of_filter {db : OrderDB} {id : Int} {o : OrderRow} {rest : List OrderRow}
    (h : db.orders.filter (fun o => o.id = id) = o :: rest) : acceptsId db id = true := by
  have hmem : o ∈ db.orders.filter (fun o => o.id = id) := by
    rw [h]; exact List.mem_cons_self _ _
  obtain ⟨ho, hid⟩ := List.mem_filter.mp hmem
  have hid2 : o.id = id := by simpa using hid
  rw [← hid2]
  exact acceptsId_of_mem ho

theorem getOrderById_eq (env : Env) (db : OrderDB) (id : Int) :
    getOrderById env db id =
      if env.db .selectOrder then .error .unavailable
      else if acceptsId db id then
        match db.orders.filter (fun o => o.id = id) with
        | [] => .ok none
        | order :: _ =>
          if env.db .selectItems then .error .unavailable
          else .ok (some ⟨order, db.order_items.filter (fun r => r.order_id = id)⟩)
      else .error .integerOutOfRange := by
  unfold getOrderById getOrderByIdSession selectOrder selectItems
  by_cases h1 : env.db .selectOrder = true
  · simp [h1]
  · by_cases ha : acceptsId db id = true
    · simp only [h1, ha, if_true, if_false]
      cases hf : db.orders.filter (fun o => o.id = id) with
      | nil => rfl
      | cons o rest =>
        by_cases h2 : env.db .selectItems = true
        · simp [h2]
        · simp [h2, ha]
    · simp [h1, ha]

theorem getOrderByIdSession_effect (env : Env) (db : OrderDB) (id : Int) :
    (getOrderByIdSession env db id).db = db ∧ (getOrderByIdSession env db id).calls = [] ∧
      ∀ step ∈ (getOrderByIdSession env db id).sent, step = .selectOrder ∨ step = .selectItems := by
  unfold getOrderByIdSession selectOrder selectItems
  by_cases h1 : env.db .selectOrder = true
  · simp [h1]
  · by_cases ha : acceptsId db id = true
    · simp only [h1, ha, if_true, if_false]
      cases hf : db.orders.filter (fun o => o.id = id) with
      | nil => simp
      | cons o rest =>
        by_cases h2 : env.db .selectItems = true
        · simp [h2]
        · simp [h2, ha]
    · simp [h1, ha]

theorem getOrderSession_effect (env : Env) (db : OrderDB) (id : Int) :
    (getOrderSession env db id).db = db ∧ (getOrderSession env db id).calls = [] ∧
      ∀ step ∈ (getOrderSession env db id).sent, step = .selectOrder ∨ step = .selectItems := by
  obtain ⟨h1, h2, h3⟩ := getOrderByIdSession_effect env db id
  unfold getOrderSession
  simp only
  split <;> exact ⟨h1, h2, h3⟩

theorem getOrder_eq (env : Env) (db : OrderDB) (id : Int) :
    getOrder env db id =
      match getOrderById env db id with
      | .error e => ⟨500, .error (env.pgMessage e)⟩
      | .ok none => ⟨404, .error "Order not found"⟩
      | .ok (some order) => ⟨200, .data order⟩ := by
  unfold getOrder getOrderSession getOrderById
  simp only
  split <;> simp_all

theorem applyEvent_getOrder (s : System) (env : Env) (id : Int) :
    applyEvent s (.getOrder env id) = s := by
  obtain ⟨h1, h2, -⟩ := getOrderSession_effect env s.db id
  simp only [applyEvent, h1, h2, patchCalls, adjustAll]

theorem getOrderById_fresh {env : Env} {db tx : OrderDB} {order : OrderRow}
    {rows : List OrderItemRow} (hfk : ForeignKeyValid db)
    (hfresh : ∀ o ∈ db.orders, o.id ≠ order.id)
    (hrows : ∀ r ∈ rows, r.order_id = order.id)
    (ho : tx.orders = db.orders ++ [order]) (hi : tx.order_items = db.order_items ++ rows) :
    getOrderById env tx order.id =
      if env.db .selectOrder then .error .unavailable
      else if env.db .selectItems then .error .unavailable
      else .ok (some ⟨order, rows⟩) := by
  have h1 : tx.orders.filter (fun o => o.id = order.id) = [order] := by
    rw [ho, List.filter_append]
    have : db.orders.filter (fun o => o.id = order.id) = [] := by
      rw [List.filter_eq_nil_iff]
      intro o hmem
      simpa using hfresh o hmem
    simp [this]
  have h2 : tx.order_items.filter (fun r => r.order_id = order.id) = rows := by
    rw [hi, List.filter_append]
    have hold : db.order_items.filter (fun r => r.order_id = order.id) = [] := by
      rw [List.filter_eq_nil_iff]
      intro r hmem
      obtain ⟨o, homem, hoid⟩ := hfk r hmem
      have := hfresh o homem
      simpa [← hoid] using this
    have hnew : rows.filter (fun r => r.order_id = order.id) = rows := by
      rw [List.filter_eq_self]
      intro r hmem
      simpa using hrows r hmem
    simp [hold, hnew]
  have hacc : acceptsId tx order.id = true :=
    acceptsId_of_mem (by rw [ho]; exact List.mem_append_right _ (List.mem_singleton_self _))
  rw [getOrderById_eq, hacc, h1, h2]
  simp

/-! ## Rounding -/

theorem roundScale2_of_twoDecimals {x : ℚ} (h : TwoDecimals x) : roundScale2 x = x := by
  obtain ⟨n, rfl⟩ := h
  have hhalf : ⌊(1 / 2 : ℚ)⌋ = 0 := by
    rw [Int.floor_eq_iff]; norm_num
  unfold roundScale2
  split
  · have : (n : ℚ) / 100 * 100 + 1 / 2 = (n : ℚ) + 1 / 2 := by ring
    rw [this, Int.floor_int_add, hhalf]
    simp
  · have : -((n : ℚ) / 100) * 100 + 1 / 2 = ((-n : Int) : ℚ) + 1 / 2 := by
      push_cast; ring
    rw [this, Int.floor_int_add, hhalf]
    push_cast
    ring

theorem TwoDecimals.mul_int {x : ℚ} (h : TwoDecimals x) (q : Int) : TwoDecimals (x * q) := by
  obtain ⟨n, rfl⟩ := h
  exact ⟨n * q, by push_cast; ring⟩

theorem TwoDecimals.add {x y : ℚ} (hx : TwoDecimals x) (hy : TwoDecimals y) :
    TwoDecimals (x + y) := by
  obtain ⟨n, rfl⟩ := hx
  obtain ⟨m, rfl⟩ := hy
  exact ⟨n + m, by push_cast; ring⟩

theorem linesTotal_twoDecimals (lines : List LineItem)
    (h : ∀ l ∈ lines, TwoDecimals l.price) : TwoDecimals (linesTotal lines) := by
  induction lines with
  | nil => exact ⟨0, by simp [linesTotal]⟩
  | cons l rest ih =>
    have h1 := (h l (List.mem_cons_self _ _)).mul_int l.quantity
    have h2 := ih (fun l2 hl2 => h l2 (List.mem_cons_of_mem _ hl2))
    have := h1.add h2
    simpa [linesTotal] using this

theorem rowsTotal_eq_linesTotal {order_id : Int} {lines : List LineItem}
    {rows : List OrderItemRow} (hrows : List.Forall₂ (RowOf order_id) lines rows)
    (h : ∀ l ∈ lines, TwoDecimals l.price) :
    rowsTotal rows = linesTotal lines ∧ List.Forall₂ (fun l r => r.price = l.price) lines rows := by
  induction hrows with
  | nil => exact ⟨rfl, List.Forall₂.nil⟩
  | @cons l r lines2 rows2 hr _ ih =>
    obtain ⟨ih1, ih2⟩ := ih (fun l2 hl2 => h l2 (List.mem_cons_of_mem _ hl2))
    have hprice : r.price = l.price := by
      rw [hr.2.2.2.2, roundScale2_of_twoDecimals (h l (List.mem_cons_self _ _))]
    refine ⟨?_, List.Forall₂.cons hprice ih2⟩
    simp only [rowsTotal, linesTotal, List.map_cons, List.sum_cons] at ih1 ⊢
    rw [ih1, hprice, hr.2.2.2.1]

/-! ## Placement -/

theorem postOrder_created_inv {env : Env} {L : Ledger} {db : OrderDB} {body : OrderRequest}
    {completeOrder : Option OrderView}
    (h : (postOrder env L db body).response = ⟨201, .data completeOrder⟩) :
    ∃ user_id items total lines w order,
      body.user_id = some user_id ∧ body.items = some items ∧ items ≠ [] ∧
      processItems env 0 items 0 [] ⟨L, []⟩ = (.ok (total, lines), w) ∧
      persistOrder env db user_id total lines = (.ok order, (postOrder env L db body).db) ∧
      getOrderById env (postOrder env L db body).db order.id = .ok completeOrder ∧
      (postOrder env L db body).ledger = w.ledger ∧
      (postOrder env L db body).calls = w.calls := by
  unfold postOrder at h ⊢
  split at h
  · simp at h
  · rename_i hguard
    split at h
    · simp at h
    · rename_i hbegin
      simp only [hguard, hbegin, if_false, Bool.false_eq_true]
      obtain ⟨uid, items⟩ := body
      cases uid with
      | none => simp [userIdMissing] at hguard
      | some user_id =>
        cases items with
        | none => simp [itemsMissing] at hguard
        | some items =>
          have hne : items ≠ [] := by
            intro he; simp [itemsMissing, he] at hguard
          simp only [Option.getD_some] at h ⊢
          split at h
          · simp at h
          · rename_i total lines w hloop
            split at h
            · simp at h
            · rename_i order tx hpersist
              split at h
              · simp at h
              · rename_i v hread
                simp only [HttpResponse.mk.injEq, Body.data.injEq, true_and] at h
                subst h
                exact ⟨user_id, items, total, lines, w, order, rfl, rfl, hne, hloop, hpersist,
                  hread, rfl, rfl⟩

/-- C1 (amended): for every ledger, every order database that respects its
foreign key and every placement answered 201, the returned order is a row of the
database, and its items correspond one to one, in request order, to the
requested `(product_id, quantity)` pairs, each with the name the ledger held and
the ledger price rounded to two decimals (the `DECIMAL(10,2)` column).  When
the ledger prices have at most two decimals, the returned prices are the ledger
prices; when moreover no price and no quantity is negative, the recorded
`total_amount` is the sum over the returned items of price times quantity. -/
theorem postOrder_created_items_and_total (env : Env) (L : Ledger) (db : OrderDB)
    (body : OrderRequest) (completeOrder : Option OrderView) (hfk : ForeignKeyValid db)
    (h : (postOrder env L db body).response = ⟨201, .data completeOrder⟩) :
    ∃ items view lines, body.items = some items ∧ completeOrder = some view ∧
      view.order ∈ (postOrder env L db body).db.orders ∧
      List.Forall₂ (SnapshotOf L) items lines ∧
      List.Forall₂ (RowOf view.order.id) lines view.items ∧
      ((∀ l ∈ lines, TwoDecimals l.price) →
        List.Forall₂ (fun l r => r.price = l.price) lines view.items) ∧
      ((∀ l ∈ lines, TwoDecimals l.price ∧ 0 ≤ l.price ∧ 0 ≤ l.quantity) →
        view.order.total_amount = rowsTotal view.items) := by
  obtain ⟨user_id, items, total, lines, w, order, -, hitems, -, hloop, hpersist, hread, -, -⟩ :=
    postOrder_created_inv h
  obtain ⟨lines2, hacc, htot, hsnap, -⟩ := processItems_ok _ _ _ _ _ _ _ _ _ hloop
  simp only [List.nil_append, zero_add] at hacc htot
  subst hacc htot
  obtain ⟨horder, hfresh, ho, rows, hrows, hi⟩ := persistOrder_ok hpersist
  rw [getOrderById_fresh hfk hfresh (RowOf.order_id_eq hrows) ho hi] at hread
  split at hread
  · simp at hread
  · split at hread
    · simp at hread
    · simp only [Except.ok.injEq] at hread
      refine ⟨items, ⟨order, rows⟩, lines, hitems, hread.symm, ?_, hsnap, hrows, ?_, ?_⟩
      · rw [ho]; simp
      · intro htwo
        exact (rowsTotal_eq_linesTotal hrows htwo).2
      · intro hall
        have htwo : ∀ l ∈ lines, TwoDecimals l.price := fun l hl => (hall l hl).1
        rw [(rowsTotal_eq_linesTotal hrows htwo).1, horder]
        exact roundScale2_of_twoDecimals (linesTotal_twoDecimals lines htwo)

/-- Witness of C1 (amended): two units of a product priced 19.99. -/
theorem postOrder_created_items_and_total_witness :
    ∃ items view lines, (⟨some 1, some [⟨"P1", 2⟩]⟩ : OrderRequest).items = some items ∧
      some (⟨⟨1, 1, 3998 / 100, "pending"⟩, [⟨1, 1, "P1", "Widget", 2, 1999 / 100⟩]⟩ : OrderView)
        = some view ∧
      view.order ∈ (postOrder quietEnv (oneProduct (1999 / 100) 5) emptyDB
        ⟨some 1, some [⟨"P1", 2⟩]⟩).db.orders ∧
      List.Forall₂ (SnapshotOf (oneProduct (1999 / 100) 5)) items lines ∧
      List.Forall₂ (RowOf view.order.id) lines view.items ∧
      ((∀ l ∈ lines, TwoDecimals l.price) →
        List.Forall₂ (fun l r => r.price = l.price) lines view.items) ∧
      ((∀ l ∈ lines, TwoDecimals l.price ∧ 0 ≤ l.price ∧ 0 ≤ l.quantity) →
        view.order.total_amount = rowsTotal view.items) :=
  postOrder_created_items_and_total quietEnv (oneProduct (1999 / 100) 5) emptyDB
    ⟨some 1, some [⟨"P1", 2⟩]⟩ _ (by simp [ForeignKeyValid, emptyDB]) (by decide!)

/-- Counterexample to C1 as stated: two units of a product priced 0.004 are
placed successfully; the order records `total_amount` 0.01 while its one
returned item carries price 0.00, not the ledger price, so the sum over the
returned items is 0. -/
theorem postOrder_total_differs_from_item_sum :
    (postOrder quietEnv (oneProduct (1 / 250) 5) emptyDB ⟨some 1, some [⟨"P1", 2⟩]⟩).response =
        ⟨201, .data (some ⟨⟨1, 1, 1 / 100, "pending"⟩, [⟨1, 1, "P1", "Widget", 2, 0⟩]⟩)⟩ ∧
      (1 / 100 : ℚ) ≠ rowsTotal [⟨1, 1, "P1", "Widget", 2, 0⟩] ∧
      (oneProduct (1 / 250) 5 "P1").map (fun p => p.price) ≠ some 0 := by
  refine ⟨by decide!, by decide!, by decide!⟩

/-! ## One turn of the item loop -/

theorem axiosGet_delivered {env : Env} {k : Nat} (w : World) {id : String} {p : Product}
    (hg : env.get k = .delivered) (hp : w.ledger id = some p) :
    axiosGet env k w id = (.ok (.data p), ⟨w.ledger, w.calls ++ [.get id]⟩) := by
  unfold axiosGet
  simp [hg, getProduct_found hp, validateStatus]

theorem axiosGet_missing {env : Env} {k : Nat} (w : World) {id : String}
    (hg : env.get k = .delivered) (hp : w.ledger id = none) :
    axiosGet env k w id =
      (.error (axiosStatusMessage (if isObjectIdText id then 404 else 500)),
        ⟨w.ledger, w.calls ++ [.get id]⟩) := by
  unfold axiosGet
  by_cases hx : isObjectIdText id = true <;>
    simp [hg, getProduct_missing hp, hx, validateStatus]

theorem axiosPatch_delivered {env : Env} {k : Nat} (w : World) {id : String} {p : Product}
    {q : Int} (hg : env.patch k = .delivered) (hp : w.ledger id = some p)
    (hq : ¬ p.stock + q < 0) :
    axiosPatch env k w id q =
      (.ok (.data { p with stock := p.stock + q }),
        ⟨save w.ledger id { p with stock := p.stock + q }, w.calls ++ [.patch id q]⟩) := by
  unfold axiosPatch
  rw [patchProductStock_found _ _ _ p hp]
  simp [hg, hq, validateStatus]

theorem processItems_turn {env : Env} {k : Nat} {item : OrderItemInput}
    (rest : List OrderItemInput) (total : ℚ) (acc : List LineItem) {w : World} {p : Product}
    (hg : env.get k = .delivered) (hpt : env.patch k = .delivered)
    (hp : w.ledger item.product_id = some p) (hq : ¬ p.stock < item.quantity) :
    processItems env k (item :: rest) total acc w =
      processItems env (k + 1) rest (total + p.price * item.quantity)
        (acc ++ [snapshot item p])
        ⟨save w.ledger item.product_id { p with stock := p.stock + -item.quantity },
          w.calls ++ [.get item.product_id] ++ [.patch item.product_id (-item.quantity)]⟩ := by
  have hq2 : ¬ p.stock + -item.quantity < 0 := by omega
  rw [processItems, axiosGet_delivered w hg hp]
  simp only [hq, if_false]
  rw [axiosPatch_delivered ⟨w.ledger, w.calls ++ [LedgerCall.get item.product_id]⟩ hpt hp hq2]
  rfl

theorem processItems_insufficient {env : Env} {k : Nat} {item : OrderItemInput}
    (rest : List OrderItemInput) (total : ℚ) (acc : List LineItem) {w : World} {p : Product}
    (hg : env.get k = .delivered)
    (hp : w.ledger item.product_id = some p) (hq : p.stock < item.quantity) :
    processItems env k (item :: rest) total acc w =
      (.error (processingError item.product_id (insufficientStockMessage p.name)),
        ⟨w.ledger, w.calls ++ [.get item.product_id]⟩) := by
  rw [processItems, axiosGet_delivered w hg hp]
  simp only [hq, if_true]

theorem processItems_missing {env : Env} {k : Nat} {item : OrderItemInput}
    (rest : List OrderItemInput) (total : ℚ) (acc : List LineItem) {w : World}
    (hg : env.get k = .delivered) (hp : w.ledger item.product_id = none) :
    processItems env k (item :: rest) total acc w =
      (.error (processingError item.product_id
          (axiosStatusMessage (if isObjectIdText item.product_id then 404 else 500))),
        ⟨w.ledger, w.calls ++ [.get item.product_id]⟩) := by
  rw [processItems, axiosGet_missing w hg hp]

theorem requestedQty_append (a b : List OrderItemInput) (id : String) :
    requestedQty (a ++ b) id = requestedQty a id + requestedQty b id := by
  simp [requestedQty, List.filter_append]

theorem processItems_inStock (env : Env) (L : Ledger) (pre : List OrderItemInput) :
    ∀ (done rest : List OrderItemInput) (k : Nat) (total : ℚ) (acc : List LineItem) (w : World),
      (∀ i, i < pre.length → env.get (k + i) = .delivered ∧ env.patch (k + i) = .delivered) →
      StockShift L w.ledger (fun id => -requestedQty done id) → InStock L done pre →
      ∃ total2 acc2 w2,
        processItems env k (pre ++ rest) total acc w =
          processItems env (k + pre.length) rest total2 acc2 w2 ∧
        StockShift L w2.ledger (fun id => -requestedQty (done ++ pre) id) := by
  induction pre with
  | nil =>
    intro done rest k total acc w _ hshift _
    exact ⟨total, acc, w, rfl, by simpa using hshift⟩
  | cons item pre2 ih =>
    intro done rest k total acc w henv hshift hin
    obtain ⟨⟨p, hp, hq⟩, hin2⟩ := hin
    have hw : w.ledger item.product_id =
        some { p with stock := p.stock + -requestedQty done item.product_id } := by
      rw [hshift item.product_id, hp]; rfl
    have h0 := henv 0 (by simp)
    simp only [Nat.add_zero] at h0
    have hstep := processItems_turn (pre2 ++ rest) total acc h0.1 h0.2 hw
      (by simp only; omega)
    have hshift2 := hshift.trans (StockShift.save hw (-item.quantity))
    have hshift3 : StockShift L
        (save w.ledger item.product_id
          { p with stock := p.stock + -requestedQty done item.product_id + -item.quantity })
        (fun id => -requestedQty (done ++ [item]) id) := by
      refine hshift2.congr ?_
      intro id
      rw [requestedQty_append, requestedQty_cons]
      by_cases hid : id = item.product_id
      · subst hid; simp [requestedQty]; ring
      · have hid2 : ¬ item.product_id = id := fun e => hid e.symm
        simp [hid, hid2, requestedQty]
    have henv2 : ∀ i, i < pre2.length →
        env.get (k + 1 + i) = .delivered ∧ env.patch (k + 1 + i) = .delivered := by
      intro i hi
      have := henv (i + 1) (by simp; omega)
      rwa [show k + 1 + i = k + (i + 1) by omega]
    obtain ⟨total2, acc2, w2, hrun, hfinal⟩ := ih (done ++ [item]) rest (k + 1)
      (total + p.price * item.quantity)
      (acc ++ [snapshot item { p with stock := p.stock + -requestedQty done item.product_id }])
      ⟨save w.ledger item.product_id
          { p with stock := p.stock + -requestedQty done item.product_id + -item.quantity },
        w.calls ++ [.get item.product_id] ++ [.patch item.product_id (-item.quantity)]⟩
      henv2 hshift3 hin2
    refine ⟨total2, acc2, w2, ?_, ?_⟩
    · rw [List.cons_append, hstep, hrun]
      simp only [List.length_cons]
      rw [show k + 1 + pre2.length = k + (pre2.length + 1) by omega]
    · simpa using hfinal

theorem requestedQty_of_not_mem (items : List OrderItemInput) (id : String)
    (h : id ∉ items.map (fun it => it.product_id)) : requestedQty items id = 0 := by
  induction items with
  | nil => simp [requestedQty]
  | cons it rest ih =>
    simp only [List.map_cons, List.mem_cons, not_or] at h
    rw [requestedQty_cons, ih h.2]
    have : ¬ it.product_id = id := fun e => h.1 e.symm
    simp [this]

theorem requestedQty_of_mem_nodup (items : List OrderItemInput) (item : OrderItemInput)
    (hnd : (items.map (fun it => it.product_id)).Nodup) (hmem : item ∈ items) :
    requestedQty items item.product_id = item.quantity := by
  induction items with
  | nil => simp at hmem
  | cons it rest ih =>
    simp only [List.map_cons, List.nodup_cons] at hnd
    rw [requestedQty_cons]
    rcases List.mem_cons.mp hmem with rfl | hrest
    · rw [requestedQty_of_not_mem rest _ hnd.1]; simp
    · have hne : ¬ it.product_id = item.product_id := by
        intro e
        exact hnd.1 (e ▸ List.mem_map_of_mem (fun it => it.product_id) hrest)
      rw [ih hnd.2 hrest]; simp [hne]

theorem StockShift.zero_at {L1 L2 : Ledger} {d : String → Int} (h : StockShift L1 L2 d)
    {id : String} (hd : d id = 0) : L2 id = L1 id := by
  rw [h id, hd]
  cases L1 id <;> simp

theorem InStock.product_exists {L : Ledger} {pre : List OrderItemInput} :
    ∀ {done : List OrderItemInput}, InStock L done pre →
      ∀ {it : OrderItemInput}, it ∈ pre → ∃ q, L it.product_id = some q := by
  induction pre with
  | nil => intro done _ it hit; simp at hit
  | cons a rest ih =>
    intro done h it hit
    obtain ⟨⟨pa, hpa, -⟩, hrest⟩ := h
    rcases List.mem_cons.mp hit with rfl | hit2
    · exact ⟨pa, hpa⟩
    · exact ih hrest hit2

/-- C2 (amended): take a request whose items `pre` all find enough stock when
their turn comes and whose next item `item` does not (the product holds less
than `item.quantity` once the quantities `pre` asked of it are deducted), in a
run where the calls for these items get through.  Then the placement is answered
500 with the insufficient-stock message for `item`; the order database is
unchanged; the ledger is the ledger before with the stock of every product
lowered by the total quantity the items `pre` ask of it, nothing else changed.
When the request names every product once, this says: the stock of each item of
`pre` has dropped by its quantity, and the stock of `item` and of every later
item is unchanged. -/
theorem postOrder_insufficient_stock_keeps_earlier_decrements (env : Env) (L : Ledger)
    (db : OrderDB) (user_id : Int) (pre post : List OrderItemInput) (item : OrderItemInput)
    (p : Product) (huser : user_id ≠ 0) (hbegin : env.db .begin = false)
    (hget : ∀ i, i ≤ pre.length → env.get i = .delivered)
    (hpatch : ∀ i, i < pre.length → env.patch i = .delivered)
    (hpre : InStock L [] pre) (hp : L item.product_id = some p)
    (hshort : p.stock - requestedQty pre item.product_id < item.quantity) :
    (postOrder env L db ⟨some user_id, some (pre ++ item :: post)⟩).response =
        ⟨500, .error (processingError item.product_id (insufficientStockMessage p.name))⟩ ∧
      (postOrder env L db ⟨some user_id, some (pre ++ item :: post)⟩).db = db ∧
      StockShift L (postOrder env L db ⟨some user_id, some (pre ++ item :: post)⟩).ledger
        (fun id => -requestedQty pre id) ∧
      (((pre ++ item :: post).map (fun it => it.product_id)).Nodup →
        (∀ it ∈ pre, ∃ q, L it.product_id = some q ∧
          (postOrder env L db ⟨some user_id, some (pre ++ item :: post)⟩).ledger it.product_id =
            some { q with stock := q.stock - it.quantity }) ∧
        (∀ it ∈ item :: post,
          (postOrder env L db ⟨some user_id, some (pre ++ item :: post)⟩).ledger it.product_id =
            L it.product_id)) := by
  obtain ⟨total2, acc2, w2, hrun, hshift⟩ := processItems_inStock env L pre [] (item :: post) 0 0 []
    ⟨L, []⟩ (fun i hi => by
      rw [Nat.zero_add]; exact ⟨hget i (le_of_lt hi), hpatch i hi⟩)
    ((StockShift.refl L).congr (by intro id; simp [requestedQty])) hpre
  simp only [List.nil_append, Nat.zero_add] at hrun hshift
  have hw : w2.ledger item.product_id =
      some { p with stock := p.stock + -requestedQty pre item.product_id } := by
    rw [hshift item.product_id, hp]; rfl
  have hfail := processItems_insufficient post total2 acc2 (hget pre.length le_rfl) hw
    (by simp only; omega)
  rw [hfail] at hrun
  have hguard : (userIdMissing (some user_id) ||
      itemsMissing (some (pre ++ item :: post))) = false := by
    simp [userIdMissing, itemsMissing, huser]
  have hresult : postOrder env L db ⟨some user_id, some (pre ++ item :: post)⟩ =
      ⟨⟨500, .error (processingError item.product_id (insufficientStockMessage p.name))⟩,
        w2.ledger, db, w2.calls ++ [.get item.product_id]⟩ := by
    unfold postOrder
    simp only [hguard, hbegin, Bool.false_eq_true, if_false, Option.getD_some, hrun]
  rw [hresult]
  refine ⟨rfl, rfl, hshift, ?_⟩
  intro hnd
  simp only [List.map_append, List.map_cons] at hnd
  have hnd2 := List.nodup_append.mp hnd
  constructor
  · intro it hit
    obtain ⟨q, hq⟩ := hpre.product_exists hit
    refine ⟨q, hq, ?_⟩
    have hqty := requestedQty_of_mem_nodup pre it hnd2.1 hit
    simp only
    rw [hshift it.product_id, hq]
    simp only [Option.map_some', hqty]
    rfl
  · intro it hit
    apply hshift.zero_at
    have hnot : it.product_id ∉ pre.map (fun it => it.product_id) := by
      intro hmem
      exact hnd2.2.2 hmem (by
        rcases List.mem_cons.mp hit with rfl | hit2
        · simp
        · exact List.mem_cons_of_mem _ (List.mem_map_of_mem (fun it => it.product_id) hit2))
    simp [requestedQty_of_not_mem pre _ hnot]

/-- Witness of C2 (amended): three of `P1` (stock 5), then nine of `P2` (stock 4). -/
theorem postOrder_insufficient_stock_keeps_earlier_decrements_witness :
    (postOrder quietEnv (twoProducts 5 4) emptyDB
        ⟨some 1, some ([⟨"P1", 3⟩] ++ ⟨"P2", 9⟩ :: [])⟩).response =
      ⟨500, .error (processingError "P2" (insufficientStockMessage "Gadget"))⟩ ∧
    (postOrder quietEnv (twoProducts 5 4) emptyDB
        ⟨some 1, some ([⟨"P1", 3⟩] ++ ⟨"P2", 9⟩ :: [])⟩).db = emptyDB :=
  have h := postOrder_insufficient_stock_keeps_earlier_decrements quietEnv (twoProducts 5 4)
    emptyDB 1 [⟨"P1", 3⟩] [] ⟨"P2", 9⟩ ⟨"Gadget", "A gadget", 5, "tools", 4⟩ (by decide) rfl
    (fun _ _ => rfl) (fun _ _ => rfl)
    ⟨⟨⟨"Widget", "A widget", 1999 / 100, "tools", 5⟩, rfl, by decide⟩, trivial⟩ rfl (by decide)
  ⟨h.1, h.2.1⟩

/-- Counterexample to C2 as stated: three of `P1` and then six of `P1`, stock 5.
Item 2 is the first whose stock (5 at the start, 2 when it is read) is below
its quantity; the placement fails, and the stock of item 2's product is 2, not
the 5 it was. -/
theorem postOrder_repeated_product_failing_item_changed :
    (postOrder quietEnv (oneProduct 4 5) emptyDB
        ⟨some 1, some [⟨"P1", 3⟩, ⟨"P1", 6⟩]⟩).response =
      ⟨500, .error "Error processing product P1: Insufficient stock for product: Widget"⟩ ∧
    ((postOrder quietEnv (oneProduct 4 5) emptyDB
        ⟨some 1, some [⟨"P1", 3⟩, ⟨"P1", 6⟩]⟩).ledger "P1").map (fun p => p.stock) = some 2 ∧
    (oneProduct 4 5 "P1").map (fun p => p.stock) = some 5 := by
  refine ⟨by decide!, by decide!, by decide!⟩

/-- C3: when the item loop of a request goes through for every item and the
transaction that follows fails (an `INSERT` or the `COMMIT` errors), the
placement is answered 500, both tables hold exactly the rows they held before,
and the ledger is the ledger before with the stock of every product lowered by
the total quantity the request asks of it. -/
theorem postOrder_store_failure_keeps_decrements (env : Env) (L : Ledger) (db : OrderDB)
    (user_id : Int) (items : List OrderItemInput) (total : ℚ) (lines : List LineItem)
    (e : PgError) (huser : user_id ≠ 0) (hitems : items ≠ [])
    (hbegin : env.db .begin = false)
    (hloop : (processItems env 0 items 0 [] ⟨L, []⟩).1 = .ok (total, lines))
    (hfail : (persistOrder env db user_id total lines).1 = .error e) :
    (postOrder env L db ⟨some user_id, some items⟩).response =
        ⟨500, .error (env.pgMessage e)⟩ ∧
      (postOrder env L db ⟨some user_id, some items⟩).db.orders = db.orders ∧
      (postOrder env L db ⟨some user_id, some items⟩).db.order_items = db.order_items ∧
      StockShift L (postOrder env L db ⟨some user_id, some items⟩).ledger
        (fun id => -requestedQty items id) := by
  have hguard : (userIdMissing (some user_id) || itemsMissing (some items)) = false := by
    cases items with
    | nil => exact absurd rfl hitems
    | cons a rest => simp [userIdMissing, itemsMissing, huser]
  rcases hrun : processItems env 0 items 0 [] ⟨L, []⟩ with ⟨r1, w⟩
  simp only [hrun] at hloop
  subst hloop
  rcases hp : persistOrder env db user_id total lines with ⟨r2, tx⟩
  simp only [hp] at hfail
  subst hfail
  obtain ⟨-, -, -, -, hshift⟩ := processItems_ok _ _ _ _ _ _ _ _ _ hrun
  have hresult : postOrder env L db ⟨some user_id, some items⟩ =
      ⟨⟨500, .error (env.pgMessage e)⟩, w.ledger, rollback db tx, w.calls⟩ := by
    unfold postOrder
    simp only [hguard, hbegin, Bool.false_eq_true, if_false, Option.getD_some, hrun, hp]
  rw [hresult]
  exact ⟨rfl, rfl, rfl, hshift⟩

/-- Witness of C3: two of `P1` and one of `P2`, and the `COMMIT` fails. -/
theorem postOrder_store_failure_keeps_decrements_witness :
    (postOrder (failingAt .commit) (twoProducts 5 4) emptyDB
        ⟨some 1, some [⟨"P1", 2⟩, ⟨"P2", 1⟩]⟩).db.orders = [] ∧
    StockShift (twoProducts 5 4)
      (postOrder (failingAt .commit) (twoProducts 5 4) emptyDB
        ⟨some 1, some [⟨"P1", 2⟩, ⟨"P2", 1⟩]⟩).ledger
      (fun id => -requestedQty [⟨"P1", 2⟩, ⟨"P2", 1⟩] id) :=
  have h := postOrder_store_failure_keeps_decrements (failingAt .commit) (twoProducts 5 4)
    emptyDB 1 [⟨"P1", 2⟩, ⟨"P2", 1⟩] (4498 / 100)
    [⟨"P1", "Widget", 2, 1999 / 100⟩, ⟨"P2", "Gadget", 1, 5⟩] .unavailable
    (by decide) (by decide) (by decide) (by decide!) (by decide!)
  ⟨h.2.1, h.2.2.2⟩

/-- C4, the run that breaks it: two of `P1` are placed, the `COMMIT` succeeds
and the first `SELECT` of the re-read fails.  The response is a 500 without an
order, yet table `orders` has gained the order and `order_items` its item. -/
theorem postOrder_reread_failure_leaves_order :
    (postOrder (failingAt .selectOrder) (oneProduct 4 5) emptyDB
        ⟨some 1, some [⟨"P1", 2⟩]⟩).response = ⟨500, .error "connection terminated"⟩ ∧
    (postOrder (failingAt .selectOrder) (oneProduct 4 5) emptyDB
        ⟨some 1, some [⟨"P1", 2⟩]⟩).db.orders = [⟨1, 1, 8, "pending"⟩] ∧
    (postOrder (failingAt .selectOrder) (oneProduct 4 5) emptyDB
        ⟨some 1, some [⟨"P1", 2⟩]⟩).db.order_items = [⟨1, 1, "P1", "Widget", 2, 4⟩] ∧
    emptyDB.orders = [] := by
  refine ⟨by decide!, by decide!, by decide!, rfl⟩

/-! ## A placement of one item -/

theorem toInteger_of_inRange {n : Int} (h : InIntegerRange n) : toInteger n = .ok n := by
  unfold toInteger
  unfold InIntegerRange at h
  rw [if_pos h]

theorem toDecimal10_2_of_twoDecimals {x : ℚ} (h : TwoDecimals x) (hx : |x| < 100000000) :
    toDecimal10_2 x = .ok x := by
  unfold toDecimal10_2
  rw [roundScale2_of_twoDecimals h, if_pos hx]

theorem toVarchar255_of_short {s : String} (h : s.length ≤ 255) : toVarchar255 s = .ok s := by
  unfold toVarchar255
  rw [if_pos h]

theorem placeOne_created (pgMessage : PgError → String) (L : Ledger) (db : OrderDB)
    (user_id : Int) (pid : String) (q : Int) (p : Product)
    (hp : L pid = some p) (hqs : q ≤ p.stock) (huser : user_id ≠ 0)
    (hrange : InIntegerRange user_id ∧ InIntegerRange q)
    (hlen : pid.length ≤ 255 ∧ p.name.length ≤ 255)
    (hprice : TwoDecimals p.price)
    (hfit : |p.price| < 100000000 ∧ |p.price * q| < 100000000)
    (hfk : ForeignKeyValid db) (hseq : SequencesAhead db) :
    placeOne (Env.healthy pgMessage) L db user_id pid q =
      ⟨⟨201, .data (some ⟨⟨db.orders_id_seq + 1, user_id, p.price * q, "pending"⟩,
          [⟨db.order_items_id_seq + 1, db.orders_id_seq + 1, pid, p.name, q, p.price⟩]⟩)⟩,
        save L pid { p with stock := p.stock + -q },
        ⟨db.orders ++ [⟨db.orders_id_seq + 1, user_id, p.price * q, "pending"⟩],
          db.order_items ++
            [⟨db.order_items_id_seq + 1, db.orders_id_seq + 1, pid, p.name, q, p.price⟩],
          db.orders_id_seq + 1, db.order_items_id_seq + 1⟩,
        [.get pid, .patch pid (-q)]⟩ := by
  have hguard : (userIdMissing (some user_id) ||
      itemsMissing (some [(⟨pid, q⟩ : OrderItemInput)])) = false := by
    simp [userIdMissing, itemsMissing, huser]
  have hloop : processItems (Env.healthy pgMessage) 0 [(⟨pid, q⟩ : OrderItemInput)] 0 []
      ⟨L, []⟩ = (.ok (p.price * q, [⟨pid, p.name, q, p.price⟩]),
        ⟨save L pid { p with stock := p.stock + -q }, [.get pid, .patch pid (-q)]⟩) := by
    rw [@processItems_turn _ _ ⟨pid, q⟩ [] 0 [] _ _ rfl rfl hp (by simp only; omega)]
    simp [processItems, snapshot]
  have hfresh1 : ¬ (db.orders.any (fun o => o.id = db.orders_id_seq + 1)) = true := by
    simp only [List.any_eq_true, decide_eq_true_eq, not_exists, not_and]
    intro o ho heq
    have := hseq.1 o ho
    omega
  have hfresh2 : ¬ (db.order_items.any (fun r => r.id = db.order_items_id_seq + 1)) = true := by
    simp only [List.any_eq_true, decide_eq_true_eq, not_exists, not_and]
    intro r hr heq
    have := hseq.2 r hr
    omega
  have htotal : TwoDecimals (p.price * q) := hprice.mul_int q
  have hpersist : persistOrder (Env.healthy pgMessage) db user_id (p.price * q)
      [⟨pid, p.name, q, p.price⟩] =
      (.ok ⟨db.orders_id_seq + 1, user_id, p.price * q, "pending"⟩,
        ⟨db.orders ++ [⟨db.orders_id_seq + 1, user_id, p.price * q, "pending"⟩],
          db.order_items ++
            [⟨db.order_items_id_seq + 1, db.orders_id_seq + 1, pid, p.name, q, p.price⟩],
          db.orders_id_seq + 1, db.order_items_id_seq + 1⟩) := by
    unfold persistOrder insertOrder
    simp only [Env.healthy, Bool.false_eq_true, if_false, toInteger_of_inRange hrange.1,
      toDecimal10_2_of_twoDecimals htotal hfit.2, hfresh1]
    unfold insertItems insertItem
    simp only [Bool.false_eq_true, if_false, toVarchar255_of_short hlen.1,
      toVarchar255_of_short hlen.2, toInteger_of_inRange hrange.2,
      toDecimal10_2_of_twoDecimals hprice hfit.1, hfresh2, insertItems]
  have hread := @getOrderById_fresh (Env.healthy pgMessage) db
    (⟨db.orders ++ [⟨db.orders_id_seq + 1, user_id, p.price * q, "pending"⟩],
          db.order_items ++
            [⟨db.order_items_id_seq + 1, db.orders_id_seq + 1, pid, p.name, q, p.price⟩],
          db.orders_id_seq + 1, db.order_items_id_seq + 1⟩)
    (⟨db.orders_id_seq + 1, user_id, p.price * q, "pending"⟩)
    ([⟨db.order_items_id_seq + 1, db.orders_id_seq + 1, pid, p.name, q, p.price⟩])
    hfk (by
      intro o ho heq
      have := hseq.1 o ho
      simp only at heq
      omega) (by simp) rfl rfl
  simp only [Env.healthy, Bool.false_eq_true, if_false] at hread
  unfold placeOne postOrder
  simp only [hguard, Bool.false_eq_true, if_false, Option.getD_some, hloop, hpersist]
  simp only [Env.healthy, Bool.false_eq_true, if_false] at hread ⊢
  rw [hread]

theorem placeOne_insufficient (env : Env) (L : Ledger) (db : OrderDB) (user_id : Int)
    (pid : String) (q : Int) (p : Product) (hbegin : env.db .begin = false)
    (hget : env.get 0 = .delivered) (hp : L pid = some p) (hq : p.stock < q)
    (huser : user_id ≠ 0) :
    placeOne env L db user_id pid q =
      ⟨⟨500, .error (processingError pid (insufficientStockMessage p.name))⟩, L, db,
        [.get pid]⟩ := by
  have hguard : (userIdMissing (some user_id) ||
      itemsMissing (some [(⟨pid, q⟩ : OrderItemInput)])) = false := by
    simp [userIdMissing, itemsMissing, huser]
  have hloop := @processItems_insufficient env 0 ⟨pid, q⟩ [] 0 [] ⟨L, []⟩ p hget hp hq
  unfold placeOne postOrder
  simp only [hguard, hbegin, Bool.false_eq_true, if_false, Option.getD_some, hloop,
    List.nil_append]

/-- C7 (amended): let product `pid` have stock `s`, a price `p` of at most two
decimals and a name and identifier of at most 255 characters, let `q ≤ s`, and
let the user identifier, `q`, `p` and `p * q` fit their columns.  Without
faults and on a database that received its identifiers from the sequences, the
placement of `(pid, q)` is answered 201 with an order of total `p * q` holding
the one item, and leaves the stock at `s - q`; a following placement of
`(pid, q2)` with `q2 > s - q` is answered 500 with the message `Error processing
product pid: Insufficient stock for product: name` (which carries the product,
not the two quantities) and changes neither the ledger nor the database. -/
theorem placeOne_then_insufficient (pgMessage : PgError → String) (L : Ledger) (db : OrderDB)
    (user_id user_id2 : Int) (pid : String) (q q2 : Int) (p : Product)
    (hp : L pid = some p) (hqs : q ≤ p.stock) (hq2 : p.stock - q < q2)
    (huser : user_id ≠ 0) (huser2 : user_id2 ≠ 0)
    (hrange : InIntegerRange user_id ∧ InIntegerRange q)
    (hlen : pid.length ≤ 255 ∧ p.name.length ≤ 255)
    (hprice : TwoDecimals p.price)
    (hfit : |p.price| < 100000000 ∧ |p.price * q| < 100000000)
    (hfk : ForeignKeyValid db) (hseq : SequencesAhead db) :
    (placeOne (Env.healthy pgMessage) L db user_id pid q).response =
        ⟨201, .data (some ⟨⟨db.orders_id_seq + 1, user_id, p.price * q, "pending"⟩,
          [⟨db.order_items_id_seq + 1, db.orders_id_seq + 1, pid, p.name, q, p.price⟩]⟩)⟩ ∧
      (placeOne (Env.healthy pgMessage) L db user_id pid q).ledger pid =
        some { p with stock := p.stock - q } ∧
      (placeOne (Env.healthy pgMessage)
          (placeOne (Env.healthy pgMessage) L db user_id pid q).ledger
          (placeOne (Env.healthy pgMessage) L db user_id pid q).db user_id2 pid q2).response =
        ⟨500, .error (processingError pid (insufficientStockMessage p.name))⟩ ∧
      (placeOne (Env.healthy pgMessage)
          (placeOne (Env.healthy pgMessage) L db user_id pid q).ledger
          (placeOne (Env.healthy pgMessage) L db user_id pid q).db user_id2 pid q2).ledger =
        (placeOne (Env.healthy pgMessage) L db user_id pid q).ledger ∧
      (placeOne (Env.healthy pgMessage)
          (placeOne (Env.healthy pgMessage) L db user_id pid q).ledger
          (placeOne (Env.healthy pgMessage) L db user_id pid q).db user_id2 pid q2).db =
        (placeOne (Env.healthy pgMessage) L db user_id pid q).db := by
  rw [placeOne_created pgMessage L db user_id pid q p hp hqs huser hrange hlen hprice hfit
    hfk hseq]
  have hleft : save L pid { p with stock := p.stock + -q } pid =
      some { p with stock := p.stock - q } := by
    simp [save, sub_eq_add_neg]
  rw [placeOne_insufficient (Env.healthy pgMessage) _ _ user_id2 pid q2
    { p with stock := p.stock - q } rfl rfl hleft (by simpa using hq2) huser2]
  exact ⟨rfl, hleft, rfl, rfl, rfl⟩

/-- Witness of C7 (amended), the scenario of the specification: stock 5, three
units placed, then three more asked. -/
theorem placeOne_then_insufficient_witness :
    (placeOne quietEnv (oneProduct (1999 / 100) 5) emptyDB 1 "P1" 3).response =
        ⟨201, .data (some ⟨⟨1, 1, 1999 / 100 * ((3 : Int) : ℚ), "pending"⟩,
          [⟨1, 1, "P1", "Widget", 3, 1999 / 100⟩]⟩)⟩ ∧
      (placeOne quietEnv (oneProduct (1999 / 100) 5) emptyDB 1 "P1" 3).ledger "P1" =
        some ⟨"Widget", "A widget", 1999 / 100, "tools", 2⟩ ∧
      (placeOne quietEnv
          (placeOne quietEnv (oneProduct (1999 / 100) 5) emptyDB 1 "P1" 3).ledger
          (placeOne quietEnv (oneProduct (1999 / 100) 5) emptyDB 1 "P1" 3).db 1 "P1" 3).response =
        ⟨500, .error (processingError "P1" (insufficientStockMessage "Widget"))⟩ :=
  have h := placeOne_then_insufficient quietEnv.pgMessage (oneProduct (1999 / 100) 5) emptyDB
    1 1 "P1" 3 3 ⟨"Widget", "A widget", 1999 / 100, "tools", 5⟩ rfl (by decide) (by decide)
    (by decide) (by decide) ⟨⟨by decide, by decide⟩, ⟨by decide, by decide⟩⟩ (by decide)
    ⟨1999, by norm_num⟩
    (by constructor <;> norm_num [abs_lt])
    (by simp [ForeignKeyValid, emptyDB]) (by simp [SequencesAhead, emptyDB])
  ⟨h.1, h.2.1, h.2.2.1⟩

/-- Counterexample to C7 as stated.  With stock 5 and a price of 100000000, the
placement of three units does not succeed: the total overflows `DECIMAL(10,2)`,
the answer is 500, and the stock has dropped to 2 all the same.  And the
failure for insufficient stock reports neither quantity: three units asked of a
stock of 2 and four asked of a stock of 1 get the same response. -/
theorem placeOne_overflow_and_silent_failure :
    (placeOne quietEnv (oneProduct 100000000 5) emptyDB 1 "P1" 3).response =
        ⟨500, .error "numeric field overflow"⟩ ∧
      ((placeOne quietEnv (oneProduct 100000000 5) emptyDB 1 "P1" 3).ledger "P1").map
        (fun p => p.stock) = some 2 ∧
      (placeOne quietEnv (oneProduct 4 2) emptyDB 1 "P1" 3).response =
        ⟨500, .error "Error processing product P1: Insufficient stock for product: Widget"⟩ ∧
      (placeOne quietEnv (oneProduct 4 1) emptyDB 1 "P1" 4).response =
        ⟨500, .error "Error processing product P1: Insufficient stock for product: Widget"⟩ := by
  refine ⟨by decide!, by decide!, by decide!, by decide!⟩

/-- C8: in a run without faults, a request of two items whose first product
exists with enough stock and whose second product is not in the ledger is
answered 500 with the message of the failed `GET` for the second product, whose
status is 404 or 500: 404 (`Product not found`) when the identifier has the form
of an `ObjectId`, 500 (the `CastError` of `findById`) when it is a plain text
that has not.  The order service sent the `GET` and the `PATCH` for the first
product and the `GET` for the second; the first product keeps its stock lowered
by the quantity asked, no other product changes, and the order database is
unchanged. -/
theorem postOrder_second_product_missing (pgMessage : PgError → String) (L : Ledger)
    (db : OrderDB) (user_id : Int) (first second : OrderItemInput) (p : Product)
    (huser : user_id ≠ 0) (hp : L first.product_id = some p)
    (hq : first.quantity ≤ p.stock) (hmissing : L second.product_id = none) :
    (∃ status,
        (postOrder (Env.healthy pgMessage) L db ⟨some user_id, some [first, second]⟩).response =
          ⟨500, .error (processingError second.product_id (axiosStatusMessage status))⟩ ∧
        (status = 404 ∨ status = 500) ∧
        (isObjectIdText second.product_id = true → status = 404) ∧
        (isObjectIdText second.product_id = false → isPlainText second.product_id = true →
          second.product_id.length ≠ 12 → status = 500)) ∧
      (postOrder (Env.healthy pgMessage) L db ⟨some user_id, some [first, second]⟩).calls =
        [.get first.product_id, .patch first.product_id (-first.quantity),
          .get second.product_id] ∧
      (postOrder (Env.healthy pgMessage) L db ⟨some user_id, some [first, second]⟩).ledger
          first.product_id = some { p with stock := p.stock - first.quantity } ∧
      (∀ id, id ≠ first.product_id →
        (postOrder (Env.healthy pgMessage) L db ⟨some user_id, some [first, second]⟩).ledger id
          = L id) ∧
      (postOrder (Env.healthy pgMessage) L db ⟨some user_id, some [first, second]⟩).db = db := by
  have hguard : (userIdMissing (some user_id) || itemsMissing (some [first, second])) = false := by
    simp [userIdMissing, itemsMissing, huser]
  have hne : second.product_id ≠ first.product_id := by
    intro e; rw [e, hp] at hmissing; simp at hmissing
  have hloop : processItems (Env.healthy pgMessage) 0 [first, second] 0 [] ⟨L, []⟩ =
      (.error (processingError second.product_id
          (axiosStatusMessage (if isObjectIdText second.product_id then 404 else 500))),
        ⟨save L first.product_id { p with stock := p.stock + -first.quantity },
          [.get first.product_id, .patch first.product_id (-first.quantity),
            .get second.product_id]⟩) := by
    rw [processItems_turn [second] 0 [] rfl rfl hp (by omega)]
    rw [processItems_missing [] _ _ rfl (by simp [save, hne, hmissing])]
    rfl
  have hresult : postOrder (Env.healthy pgMessage) L db ⟨some user_id, some [first, second]⟩ =
      ⟨⟨500, .error (processingError second.product_id
          (axiosStatusMessage (if isObjectIdText second.product_id then 404 else 500)))⟩,
        save L first.product_id { p with stock := p.stock + -first.quantity }, db,
        [.get first.product_id, .patch first.product_id (-first.quantity),
            .get second.product_id]⟩ := by
    unfold postOrder
    simp only [hguard, Bool.false_eq_true, if_false, Option.getD_some, hloop]
    simp [Env.healthy]
  rw [hresult]
  refine ⟨⟨_, rfl, ?_, ?_, ?_⟩, rfl, by simp [save, sub_eq_add_neg], ?_, rfl⟩
  · by_cases hx : isObjectIdText second.product_id = true <;> simp [hx]
  · intro hx; simp [hx]
  · intro hx _ _; simp [hx]
  · intro id hid
    simp [save, hid]

/-- Witness of C8: three of `P1` (stock 5), then one of a product the ledger
does not hold: under an identifier of the form of an `ObjectId` the lookup is
answered 404, under the text `P9` it is answered 500. -/
theorem postOrder_second_product_missing_witness :
    ((postOrder quietEnv (oneProduct 4 5) emptyDB
        ⟨some 1, some [⟨"P1", 3⟩, ⟨"65f1c0ffee0ddba11ad0beef", 1⟩]⟩).response =
      ⟨500, .error (processingError "65f1c0ffee0ddba11ad0beef" (axiosStatusMessage 404))⟩ ∧
    (postOrder quietEnv (oneProduct 4 5) emptyDB
        ⟨some 1, some [⟨"P1", 3⟩, ⟨"65f1c0ffee0ddba11ad0beef", 1⟩]⟩).ledger "P1" =
      some ⟨"Widget", "A widget", 4, "tools", 2⟩) ∧
    ((postOrder quietEnv (oneProduct 4 5) emptyDB
        ⟨some 1, some [⟨"P1", 3⟩, ⟨"P9", 1⟩]⟩).response =
      ⟨500, .error (processingError "P9" (axiosStatusMessage 500))⟩ ∧
    (postOrder quietEnv (oneProduct 4 5) emptyDB
        ⟨some 1, some [⟨"P1", 3⟩, ⟨"P9", 1⟩]⟩).db = emptyDB) := by
  have h1 := postOrder_second_product_missing quietEnv.pgMessage (oneProduct 4 5) emptyDB 1
    ⟨"P1", 3⟩ ⟨"65f1c0ffee0ddba11ad0beef", 1⟩ ⟨"Widget", "A widget", 4, "tools", 5⟩
    (by decide) rfl (by decide) rfl
  have h2 := postOrder_second_product_missing quietEnv.pgMessage (oneProduct 4 5) emptyDB 1
    ⟨"P1", 3⟩ ⟨"P9", 1⟩ ⟨"Widget", "A widget", 4, "tools", 5⟩ (by decide) rfl (by decide) rfl
  obtain ⟨⟨s1, r1, -, e1, -⟩, -, l1, -, -⟩ := h1
  obtain ⟨⟨s2, r2, -, -, e2⟩, -, -, -, d2⟩ := h2
  rw [e1 (by decide)] at r1
  rw [e2 (by decide) (by decide) (by decide)] at r2
  exact ⟨⟨r1, l1⟩, ⟨r2, d2⟩⟩

/-! ## Status update -/

theorem updateStatus_filter (id : Int) (status : String) (l : List OrderRow) :
    (l.map (fun o => if o.id = id then { o with status := status } else o)).filter
        (fun o => o.id = id) =
      (l.filter (fun o => o.id = id)).map (fun o => { o with status := status }) := by
  induction l with
  | nil => rfl
  | cons a rest ih =>
    by_cases ha : a.id = id
    · simp [List.filter_cons, ha, ih]
    · simp [List.filter_cons, ha, ih]

theorem acceptsId_updated (db : OrderDB) (id id2 : Int) (status : String) :
    acceptsId
        { db with
          orders := db.orders.map (fun o => if o.id = id2 then { o with status := status } else o) }
        id =
      acceptsId db id := by
  unfold acceptsId
  congr 1
  simp only [List.any_map]
  congr 1
  funext o
  simp only [Function.comp]
  split <;> rfl

theorem patchOrderStatus_eq (env : Env) (db : OrderDB) (id : Int) (status : String) :
    patchOrderStatus env db id status =
      if !validStatuses.contains status then (⟨400, .error "Invalid status"⟩, db)
      else if env.db .updateStatus then (⟨500, .error (env.pgMessage .unavailable)⟩, db)
      else if acceptsId db id then
        if (db.orders.filter (fun o => o.id = id)).length == 0 then
          (⟨404, .error "Order not found"⟩, (updateStatus db status id).2)
        else
          match getOrderById env (updateStatus db status id).2 id with
          | .error e => (⟨500, .error (env.pgMessage e)⟩, (updateStatus db status id).2)
          | .ok order => (⟨200, .data order⟩, (updateStatus db status id).2)
      else (⟨500, .error (env.pgMessage .integerOutOfRange)⟩, db) := by
  unfold patchOrderStatus updateStatus
  by_cases ha : acceptsId db id = true <;> simp [ha]

theorem updateStatus_db (db : OrderDB) (id : Int) (status : String)
    (ha : acceptsId db id = true) :
    (updateStatus db status id).2 =
      { db with
        orders := db.orders.map (fun o => if o.id = id then { o with status := status } else o) } := by
  simp [updateStatus, ha]

theorem patchOrderStatus_db_cases (env : Env) (db : OrderDB) (id : Int) (status : String) :
    (patchOrderStatus env db id status).2 = db ∨
      (patchOrderStatus env db id status).2 =
        { db with
          orders := db.orders.map (fun o => if o.id = id then { o with status := status } else o) } := by
  rw [patchOrderStatus_eq]
  split
  · exact Or.inl rfl
  · split
    · exact Or.inl rfl
    · split
      · rename_i ha
        rw [updateStatus_db db id status ha]
        split
        · exact Or.inr rfl
        · split <;> exact Or.inr rfl
      · exact Or.inl rfl

/-- C9 (amended): the status handler answers 400 `Invalid status` exactly when
the status is not one of `pending`, `processing`, `shipped`, `delivered`,
`cancelled`, and then leaves the database as it was.  For a valid status, with
the database available: when no order has the identifier, it answers 404
`Order not found` if the identifier lies within the range of `integer`, and 500
with the error of the `UPDATE` if it does not, and changes nothing in either
case; when an order has the identifier it answers 200 with that order, its
status set to the requested one, and its items, and no other order changes. -/
theorem patchOrderStatus_spec (env : Env) (db : OrderDB) (id : Int) (status : String) :
    ((patchOrderStatus env db id status).1 = ⟨400, .error "Invalid status"⟩ ↔
        status ∉ ["pending", "processing", "shipped", "delivered", "cancelled"]) ∧
      (status ∉ validStatuses → (patchOrderStatus env db id status).2 = db) ∧
      (status ∈ validStatuses → env.db .updateStatus = false →
        (∀ o ∈ db.orders, o.id ≠ id) →
        patchOrderStatus env db id status =
          (if -2147483648 ≤ id ∧ id ≤ 2147483647 then ⟨404, .error "Order not found"⟩
            else ⟨500, .error (env.pgMessage .integerOutOfRange)⟩, db)) ∧
      (status ∈ validStatuses → env.db .updateStatus = false →
        env.db .selectOrder = false → env.db .selectItems = false →
        ∀ o rest, db.orders.filter (fun o => o.id = id) = o :: rest →
          (patchOrderStatus env db id status).1 =
            ⟨200, .data (some ⟨{ o with status := status },
              db.order_items.filter (fun r => r.order_id = id)⟩)⟩ ∧
          (patchOrderStatus env db id status).2.orders =
            db.orders.map (fun o => if o.id = id then { o with status := status } else o) ∧
          (patchOrderStatus env db id status).2.order_items = db.order_items) := by
  rw [patchOrderStatus_eq]
  refine ⟨?_, ?_, ?_, ?_⟩
  · constructor
    · intro h hvalid
      have hv : validStatuses.contains status = true := by
        simpa [validStatuses] using hvalid
      simp only [hv, Bool.not_true, Bool.false_eq_true, if_false] at h
      split at h
      · simp at h
      · split at h
        · split at h
          · simp at h
          · split at h <;> simp at h
        · simp at h
    · intro hinvalid
      have hnot : status ∉ validStatuses := hinvalid
      simp [hnot]
  · intro hnot
    simp [hnot]
  · intro hvalid hup hnone
    have hfilter : db.orders.filter (fun o => o.id = id) = [] := by
      rw [List.filter_eq_nil_iff]
      intro o ho
      simpa using hnone o ho
    have hsame : db.orders.map
        (fun o => if o.id = id then { o with status := status } else o) = db.orders := by
      conv_rhs => rw [← List.map_id db.orders]
      apply List.map_congr_left
      intro o ho
      simp [hnone o ho]
    have hany : db.orders.any (fun o => o.id = id) = false := by
      rw [List.any_eq_false]
      intro o ho
      simpa using hnone o ho
    by_cases hr : -2147483648 ≤ id ∧ id ≤ 2147483647
    · have ha : acceptsId db id = true := by simp [acceptsId, hr]
      simp [hvalid, hup, ha, hfilter, updateStatus_db db id status ha, hsame, hr]
    · have ha : acceptsId db id = false := by simp [acceptsId, hr, hany]
      simp [hvalid, hup, ha, hr]
  · intro hvalid hup hsel1 hsel2 o rest hfilter
    have ha : acceptsId db id = true := acceptsId_of_filter hfilter
    rw [getOrderById_eq, updateStatus_db db id status ha, acceptsId_updated]
    simp [hvalid, hup, hsel1, hsel2, hfilter, updateStatus_filter, ha]

/-- Witness of C9 (amended): in a database with orders 1 and 2, order 3 is not
found and order 1 is set to `shipped`. -/
theorem patchOrderStatus_spec_witness :
    patchOrderStatus quietEnv
        ⟨[⟨1, 7, 8, "pending"⟩, ⟨2, 7, 5, "pending"⟩], [⟨1, 1, "P1", "Widget", 2, 4⟩], 2, 1⟩
        3 "shipped" = (⟨404, .error "Order not found"⟩,
        ⟨[⟨1, 7, 8, "pending"⟩, ⟨2, 7, 5, "pending"⟩], [⟨1, 1, "P1", "Widget", 2, 4⟩], 2, 1⟩) ∧
    (patchOrderStatus quietEnv
        ⟨[⟨1, 7, 8, "pending"⟩, ⟨2, 7, 5, "pending"⟩], [⟨1, 1, "P1", "Widget", 2, 4⟩], 2, 1⟩
        1 "shipped").1 =
      ⟨200, .data (some ⟨⟨1, 7, 8, "shipped"⟩, [⟨1, 1, "P1", "Widget", 2, 4⟩]⟩)⟩ :=
  ⟨(patchOrderStatus_spec quietEnv
      ⟨[⟨1, 7, 8, "pending"⟩, ⟨2, 7, 5, "pending"⟩], [⟨1, 1, "P1", "Widget", 2, 4⟩], 2, 1⟩
      3 "shipped").2.2.1 (by decide) rfl (by decide),
   ((patchOrderStatus_spec quietEnv
      ⟨[⟨1, 7, 8, "pending"⟩, ⟨2, 7, 5, "pending"⟩], [⟨1, 1, "P1", "Widget", 2, 4⟩], 2, 1⟩
      1 "shipped").2.2.2 (by decide) rfl rfl rfl ⟨1, 7, 8, "pending"⟩ [] (by decide!)).1⟩

/-- Counterexample to C9 as stated: the status `shipped` is valid and no order
has the identifier 2147483648, yet the handler does not answer 404: the
`UPDATE` fails, because the parameter is no `integer`, and the answer is 500;
nothing changes. -/
theorem patchOrderStatus_id_out_of_range :
    "shipped" ∈ validStatuses ∧
      (∀ o ∈ ([⟨1, 7, 8, "pending"⟩, ⟨2, 7, 5, "pending"⟩] : List OrderRow),
        o.id ≠ 2147483648) ∧
      patchOrderStatus quietEnv
          ⟨[⟨1, 7, 8, "pending"⟩, ⟨2, 7, 5, "pending"⟩], [⟨1, 1, "P1", "Widget", 2, 4⟩], 2, 1⟩
          2147483648 "shipped" =
        (⟨500, .error (quietEnv.pgMessage .integerOutOfRange)⟩,
          ⟨[⟨1, 7, 8, "pending"⟩, ⟨2, 7, 5, "pending"⟩], [⟨1, 1, "P1", "Widget", 2, 4⟩], 2, 1⟩) ∧
      (patchOrderStatus quietEnv
          ⟨[⟨1, 7, 8, "pending"⟩, ⟨2, 7, 5, "pending"⟩], [⟨1, 1, "P1", "Widget", 2, 4⟩], 2, 1⟩
          2147483648 "shipped").1.status ≠ 404 := by
  refine ⟨by decide, by decide, by decide!, by decide!⟩

/-! ## Two placements at once -/

theorem stepPlacement_start_found (pgMessage : PgError → String) (r : Placement) (s : Shared)
    (p : Product) (huser : r.user_id ≠ 0) (hp : s.ledger r.product_id = some p) :
    stepPlacement pgMessage r .start s =
      if p.stock < r.quantity then
        (.finished ⟨500, .error (processingError r.product_id
          (insufficientStockMessage p.name))⟩, s)
      else (.gotProduct p, s) := by
  simp [stepPlacement, userIdMissing, huser, getProduct_found hp, validateStatus]

theorem stepPlacement_start_missing (pgMessage : PgError → String) (r : Placement) (s : Shared)
    (huser : r.user_id ≠ 0) (hp : s.ledger r.product_id = none) :
    stepPlacement pgMessage r .start s =
      (.finished ⟨500, .error (processingError r.product_id
        (axiosStatusMessage (if isObjectIdText r.product_id then 404 else 500)))⟩, s) := by
  by_cases hx : isObjectIdText r.product_id = true <;>
    simp [stepPlacement, userIdMissing, huser, getProduct_missing hp, hx, validateStatus]

theorem stepPlacement_gotProduct_found (pgMessage : PgError → String) (r : Placement)
    (s : Shared) (product p : Product) (hp : s.ledger r.product_id = some p) :
    stepPlacement pgMessage r (.gotProduct product) s =
      if p.stock + -r.quantity < 0 then
        (.finished ⟨500, .error (processingError r.product_id (axiosStatusMessage 400))⟩, s)
      else (.adjusting product { p with stock := p.stock + -r.quantity }, s) := by
  by_cases hneg : p.stock + -r.quantity < 0 <;>
    simp [stepPlacement, findAndDecide_found _ hp, hneg, validateStatus]

theorem runAlone_finished (pgMessage : PgError → String) (r : Placement)
    (response : HttpResponse (Option OrderView)) (s : Shared) :
    ∀ n, runAlone pgMessage r n (.finished response, s) = (.finished response, s) := by
  intro n
  induction n with
  | zero => rfl
  | succ n ih => simpa [runAlone, stepPlacement] using ih

theorem runAlone_eq_placeOne (pgMessage : PgError → String) (r : Placement) (L : Ledger)
    (db : OrderDB) :
    runAlone pgMessage r 4 (.start, ⟨L, db⟩) =
      (.finished (placeOne (Env.healthy pgMessage) L db r.user_id r.product_id
          r.quantity).response,
        ⟨(placeOne (Env.healthy pgMessage) L db r.user_id r.product_id r.quantity).ledger,
          (placeOne (Env.healthy pgMessage) L db r.user_id r.product_id r.quantity).db⟩) := by
  have hitems : itemsMissing (some [(⟨r.product_id, r.quantity⟩ : OrderItemInput)]) = false := by
    simp [itemsMissing]
  by_cases huser : r.user_id = 0
  · have hstart : stepPlacement pgMessage r .start ⟨L, db⟩ =
        (.finished ⟨400, .error "User ID and items required"⟩, ⟨L, db⟩) := by
      simp [stepPlacement, userIdMissing, huser]
    rw [runAlone, hstart, runAlone_finished]
    simp [placeOne, postOrder, userIdMissing, huser]
  · have hguard : (userIdMissing (some r.user_id) ||
        itemsMissing (some [(⟨r.product_id, r.quantity⟩ : OrderItemInput)])) = false := by
      simp [userIdMissing, itemsMissing, huser]
    cases hp : L r.product_id with
    | none =>
      rw [runAlone, stepPlacement_start_missing pgMessage r ⟨L, db⟩ huser hp, runAlone_finished]
      have hloop := @processItems_missing (Env.healthy pgMessage) 0
        ⟨r.product_id, r.quantity⟩ [] 0 [] ⟨L, []⟩ rfl hp
      unfold placeOne postOrder
      simp only [hguard, Bool.false_eq_true, if_false, Option.getD_some, hloop]
      simp [Env.healthy]
    | some p =>
      rw [runAlone, stepPlacement_start_found pgMessage r ⟨L, db⟩ p huser hp]
      by_cases hq : p.stock < r.quantity
      · rw [if_pos hq, runAlone_finished,
          placeOne_insufficient (Env.healthy pgMessage) L db r.user_id r.product_id r.quantity p
            rfl rfl hp hq huser]
      · have hq2 : ¬ p.stock + -r.quantity < 0 := by omega
        rw [if_neg hq, runAlone, stepPlacement_gotProduct_found pgMessage r ⟨L, db⟩ p p hp,
          if_neg hq2]
        simp only [runAlone, stepPlacement]
        have hloop : processItems (Env.healthy pgMessage) 0
            [(⟨r.product_id, r.quantity⟩ : OrderItemInput)] 0 [] ⟨L, []⟩ =
            (.ok (0 + p.price * r.quantity,
                [] ++ [⟨r.product_id, p.name, r.quantity, p.price⟩]),
              ⟨save L r.product_id { p with stock := p.stock + -r.quantity },
                [.get r.product_id, .patch r.product_id (-r.quantity)]⟩) := by
          rw [@processItems_turn _ _ ⟨r.product_id, r.quantity⟩ [] 0 [] _ _ rfl rfl hp hq]
          simp [processItems, snapshot]
        unfold placeOne postOrder
        simp only [hguard, Bool.false_eq_true, if_false, Option.getD_some, hloop]
        have hbegin : (Env.healthy pgMessage).db .begin = false := rfl
        simp only [hbegin, Bool.false_eq_true, if_false]
        split
        · rfl
        · split <;> rfl

theorem runInFlight_firstThenSecond (pgMessage : PgError → String) (r1 r2 : Placement)
    (L : Ledger) (db : OrderDB) :
    runInFlight pgMessage r1 r2 L db (oneAfterTheOther false) =
      ⟨(runAlone pgMessage r1 4 (.start, ⟨L, db⟩)).1,
        (runAlone pgMessage r2 4 (.start, (runAlone pgMessage r1 4 (.start, ⟨L, db⟩)).2)).1,
        (runAlone pgMessage r2 4 (.start, (runAlone pgMessage r1 4 (.start, ⟨L, db⟩)).2)).2⟩ :=
  rfl

theorem runInFlight_secondThenFirst (pgMessage : PgError → String) (r1 r2 : Placement)
    (L : Ledger) (db : OrderDB) :
    runInFlight pgMessage r1 r2 L db (oneAfterTheOther true) =
      ⟨(runAlone pgMessage r1 4 (.start, (runAlone pgMessage r2 4 (.start, ⟨L, db⟩)).2)).1,
        (runAlone pgMessage r2 4 (.start, ⟨L, db⟩)).1,
        (runAlone pgMessage r1 4 (.start, (runAlone pgMessage r2 4 (.start, ⟨L, db⟩)).2)).2⟩ :=
  rfl

theorem runAlone_twice (pgMessage : PgError → String) (ra rb : Placement) (L : Ledger)
    (db : OrderDB) (p : Product) (hsame : rb.product_id = ra.product_id)
    (hp : L ra.product_id = some p) (hqa : ra.quantity ≤ p.stock)
    (hsum : p.stock < ra.quantity + rb.quantity) (hfit : FitsColumns ra p)
    (huser : rb.user_id ≠ 0) (hfk : ForeignKeyValid db) (hseq : SequencesAhead db) :
    (∃ view, (runAlone pgMessage ra 4 (.start, ⟨L, db⟩)).1 =
        .finished ⟨201, .data (some view)⟩) ∧
      (runAlone pgMessage rb 4 (.start, (runAlone pgMessage ra 4 (.start, ⟨L, db⟩)).2)).1 =
        .finished ⟨500, .error (processingError rb.product_id
          (insufficientStockMessage p.name))⟩ ∧
      (runAlone pgMessage rb 4
          (.start, (runAlone pgMessage ra 4 (.start, ⟨L, db⟩)).2)).2.ledger ra.product_id =
        some { p with stock := p.stock - ra.quantity } := by
  obtain ⟨hu, hrange, hlen, hprice, hfits⟩ := hfit
  have hleft : save L ra.product_id { p with stock := p.stock + -ra.quantity } rb.product_id =
      some { p with stock := p.stock - ra.quantity } := by
    simp [save, hsame, sub_eq_add_neg]
  rw [runAlone_eq_placeOne pgMessage ra L db,
    placeOne_created pgMessage L db ra.user_id ra.product_id ra.quantity p hp hqa hu hrange hlen
      hprice hfits hfk hseq]
  simp only
  rw [runAlone_eq_placeOne pgMessage rb,
    placeOne_insufficient (Env.healthy pgMessage) _ _ rb.user_id rb.product_id rb.quantity
      { p with stock := p.stock - ra.quantity } rfl rfl hleft (by simp only; omega) huser]
  refine ⟨⟨_, rfl⟩, rfl, ?_⟩
  simp [save, sub_eq_add_neg]

/-! ## What every placement keeps of the order database -/

theorem insertOrder_effect (env : Env) (tx : OrderDB) (user_id : Int) (total : ℚ) :
    (insertOrder env tx user_id total).2.order_items = tx.order_items ∧
      (insertOrder env tx user_id total).2.order_items_id_seq = tx.order_items_id_seq ∧
      tx.orders_id_seq ≤ (insertOrder env tx user_id total).2.orders_id_seq ∧
      ((insertOrder env tx user_id total).2.orders = tx.orders ∨
        ∃ order, (insertOrder env tx user_id total).1 = .ok order ∧
          order.id = tx.orders_id_seq + 1 ∧
          (insertOrder env tx user_id total).2.orders_id_seq = tx.orders_id_seq + 1 ∧
          (insertOrder env tx user_id total).2.orders = tx.orders ++ [order]) := by
  unfold insertOrder
  split
  · simp
  · simp only
    split
    · simp
    · simp
    · split
      · simp
      · refine ⟨?_, ?_, ?_, Or.inr ⟨_, rfl, ?_, ?_, ?_⟩⟩ <;> simp

theorem insertItem_effect (env : Env) (k : Nat) (tx : OrderDB) (order_id : Int)
    (item : LineItem) :
    (insertItem env k tx order_id item).2.orders = tx.orders ∧
      (insertItem env k tx order_id item).2.orders_id_seq = tx.orders_id_seq ∧
      tx.order_items_id_seq ≤ (insertItem env k tx order_id item).2.order_items_id_seq ∧
      ((insertItem env k tx order_id item).2.order_items = tx.order_items ∨
        ∃ r, r.order_id = order_id ∧ r.id = tx.order_items_id_seq + 1 ∧
          (insertItem env k tx order_id item).2.order_items_id_seq =
            tx.order_items_id_seq + 1 ∧
          (insertItem env k tx order_id item).2.order_items = tx.order_items ++ [r]) := by
  unfold insertItem
  split
  · simp
  · simp only
    split
    · simp
    · simp
    · simp
    · simp
    · split
      · simp
      · refine ⟨rfl, rfl, by simp, Or.inr ⟨_, rfl, rfl, rfl, rfl⟩⟩

theorem insertItems_effect (env : Env) (order_id : Int) (lines : List LineItem) :
    ∀ (k : Nat) (tx : OrderDB),
      (insertItems env order_id k lines tx).2.orders = tx.orders ∧
        (insertItems env order_id k lines tx).2.orders_id_seq = tx.orders_id_seq ∧
        tx.order_items_id_seq ≤ (insertItems env order_id k lines tx).2.order_items_id_seq ∧
        ∀ r ∈ (insertItems env order_id k lines tx).2.order_items,
          r ∈ tx.order_items ∨
            (r.order_id = order_id ∧
              r.id ≤ (insertItems env order_id k lines tx).2.order_items_id_seq) := by
  induction lines with
  | nil =>
    intro k tx
    exact ⟨rfl, rfl, le_rfl, fun r hr => Or.inl hr⟩
  | cons l rest ih =>
    intro k tx
    obtain ⟨h1, h2, h3, h4⟩ := insertItem_effect env k tx order_id l
    rw [insertItems]
    split
    · rename_i e tx1 hone
      rw [hone] at h1 h2 h3 h4
      refine ⟨h1, h2, h3, ?_⟩
      intro r hr
      rcases h4 with h4 | ⟨r2, hr2, hid, hseq, hrows⟩
      · simp only at h4 hr; rw [h4] at hr; exact Or.inl hr
      · simp only at hrows hr hseq
        rw [hrows] at hr
        rcases List.mem_append.mp hr with hr | hr
        · exact Or.inl hr
        · simp only [List.mem_singleton] at hr
          subst hr
          exact Or.inr ⟨hr2, by simp only; omega⟩
    · rename_i u tx1 hone
      rw [hone] at h1 h2 h3 h4
      simp only at h1 h2 h3 h4
      obtain ⟨i1, i2, i3, i4⟩ := ih (k + 1) tx1
      refine ⟨i1.trans h1, i2.trans h2, le_trans h3 i3, ?_⟩
      intro r hr
      rcases i4 r hr with hold | hnew
      · rcases h4 with h4 | ⟨r2, hr2, hid, hseq, hrows⟩
        · rw [h4] at hold; exact Or.inl hold
        · rw [hrows] at hold
          rcases List.mem_append.mp hold with hold | hold
          · exact Or.inl hold
          · simp only [List.mem_singleton] at hold
            subst hold
            exact Or.inr ⟨hr2, by omega⟩
      · exact Or.inr hnew

theorem persistOrder_effect (env : Env) (db : OrderDB) (user_id : Int) (total : ℚ)
    (lines : List LineItem) :
    db.orders_id_seq ≤ (persistOrder env db user_id total lines).2.orders_id_seq ∧
      db.order_items_id_seq ≤ (persistOrder env db user_id total lines).2.order_items_id_seq := by
  obtain ⟨a1, a2, a3, a4⟩ := insertOrder_effect env db user_id total
  unfold persistOrder
  split
  · rename_i e tx hins
    rw [hins] at a2 a3
    exact ⟨a3, le_of_eq a2.symm⟩
  · rename_i order tx hins
    rw [hins] at a2 a3
    obtain ⟨b1, b2, b3, b4⟩ := insertItems_effect env order.id lines 0 tx
    simp only at a2 a3
    split
    · rename_i e tx1 hitems
      rw [hitems] at b2 b3
      simp only at b2 b3 ⊢
      exact ⟨by omega, by omega⟩
    · rename_i u tx1 hitems
      rw [hitems] at b2 b3
      simp only at b2 b3
      split <;> exact ⟨by simp only; omega, by simp only; omega⟩

theorem persistOrder_keeps_consistent {env : Env} {db tx : OrderDB} {user_id : Int} {total : ℚ}
    {lines : List LineItem} {order : OrderRow} (hfk : ForeignKeyValid db)
    (hseq : SequencesAhead db)
    (h : persistOrder env db user_id total lines = (.ok order, tx)) :
    ForeignKeyValid tx ∧ SequencesAhead tx := by
  obtain ⟨horder, hfresh, ho, rows, hrows, hi⟩ := persistOrder_ok h
  have heff := persistOrder_effect env db user_id total lines
  rw [h] at heff
  simp only at heff
  unfold persistOrder at h
  split at h
  · simp at h
  · rename_i order1 tx1 hins
    obtain ⟨a1, a2, a3, a4⟩ := insertOrder_effect env db user_id total
    obtain ⟨horder1, -, htx1⟩ := insertOrder_ok hins
    rw [hins] at a1 a2 a3 a4
    simp only at a1 a2 a3 a4
    split at h
    · simp at h
    · rename_i u tx2 hitems
      obtain ⟨b1, b2, b3, b4⟩ := insertItems_effect env order1.id lines 0 tx1
      rw [hitems] at b1 b2 b3 b4
      simp only at b1 b2 b3 b4
      split at h
      · simp at h
      · simp only [Prod.mk.injEq, Except.ok.injEq] at h
        obtain ⟨rfl, rfl⟩ := h
        have hoseq : tx2.orders_id_seq = db.orders_id_seq + 1 := by
          rw [b2, htx1]
        constructor
        · intro r hr
          rcases b4 r hr with hold | ⟨hnew, -⟩
          · rw [a1] at hold
            obtain ⟨o, ho2, hoid⟩ := hfk r hold
            exact ⟨o, by rw [ho]; exact List.mem_append_left _ ho2, hoid⟩
          · exact ⟨order1, by rw [ho]; simp, hnew.symm⟩
        · constructor
          · intro o ho2
            rw [ho] at ho2
            rcases List.mem_append.mp ho2 with hold | hnew
            · have := hseq.1 o hold; omega
            · simp only [List.mem_singleton] at hnew
              subst hnew
              rw [horder1, hoseq]
          · intro r hr
            rcases b4 r hr with hold | ⟨-, hnew⟩
            · rw [a1] at hold
              have := hseq.2 r hold
              rw [a2] at b3
              omega
            · exact hnew

/-- Every placement, whatever its outcome, leaves an order database that
respects the foreign key and whose identifiers lie behind the sequences, when
it found one. -/
theorem postOrder_keeps_consistent (env : Env) (L : Ledger) (db : OrderDB)
    (body : OrderRequest) (hfk : ForeignKeyValid db) (hseq : SequencesAhead db) :
    ForeignKeyValid (postOrder env L db body).db ∧ SequencesAhead (postOrder env L db body).db := by
  unfold postOrder
  split
  · exact ⟨hfk, hseq⟩
  · split
    · exact ⟨hfk, hseq⟩
    · split
      · exact ⟨hfk, hseq⟩
      · rename_i total lines w hloop
        split
        · rename_i e tx hpersist
          have heff := persistOrder_effect env db (body.user_id.getD 0) total lines
          rw [hpersist] at heff
          simp only at heff
          refine ⟨hfk, ?_, ?_⟩
          · intro o ho
            have := hseq.1 o ho
            simp only [rollback]
            omega
          · intro r hr
            have := hseq.2 r hr
            simp only [rollback]
            omega
        · rename_i order tx hpersist
          have := persistOrder_keeps_consistent hfk hseq hpersist
          split <;> exact this

/-- A status update keeps the foreign key and the sequences ahead. -/
theorem patchOrderStatus_keeps_consistent (env : Env) (db : OrderDB) (id : Int)
    (status : String) (hfk : ForeignKeyValid db) (hseq : SequencesAhead db) :
    ForeignKeyValid (patchOrderStatus env db id status).2 ∧
      SequencesAhead (patchOrderStatus env db id status).2 := by
  rcases patchOrderStatus_db_cases env db id status with h | h
  · rw [h]; exact ⟨hfk, hseq⟩
  · rw [h]
    constructor
    · intro r hr
      obtain ⟨o, ho, hoid⟩ := hfk r hr
      refine ⟨if o.id = id then { o with status := status } else o, ?_, ?_⟩
      · simp only [List.mem_map]
        exact ⟨o, ho, rfl⟩
      · split <;> exact hoid
    · constructor
      · intro o ho
        simp only [List.mem_map] at ho
        obtain ⟨o2, ho2, rfl⟩ := ho
        have := hseq.1 o2 ho2
        split <;> exact this
      · exact hseq.2

/-- The failures of a placement that leave both tables as they were: all of
them but a failure of the re-read, which comes after the commit. -/
theorem postOrder_failure_rows (env : Env) (L : Ledger) (db : OrderDB) (body : OrderRequest)
    (h : (postOrder env L db body).response.status ≠ 201) :
    ((postOrder env L db body).db.orders = db.orders ∧
        (postOrder env L db body).db.order_items = db.order_items) ∨
      ∃ order e, getOrderById env (postOrder env L db body).db order.id = .error e ∧
        (postOrder env L db body).db.orders = db.orders ++ [order] := by
  unfold postOrder at h ⊢
  by_cases hguard : (userIdMissing body.user_id || itemsMissing body.items) = true
  · rw [if_pos hguard]; exact Or.inl ⟨rfl, rfl⟩
  · rw [if_neg hguard] at h ⊢
    by_cases hbegin : env.db .begin = true
    · rw [if_pos hbegin]; exact Or.inl ⟨rfl, rfl⟩
    · rw [if_neg hbegin] at h ⊢
      rcases hloop : processItems env 0 (body.items.getD []) 0 [] ⟨L, []⟩ with ⟨r, w⟩
      rw [hloop] at h
      cases r with
      | error msg => exact Or.inl ⟨rfl, rfl⟩
      | ok pair =>
        obtain ⟨total, lines⟩ := pair
        simp only at h ⊢
        rcases hpersist : persistOrder env db (body.user_id.getD 0) total lines with ⟨r2, tx⟩
        rw [hpersist] at h
        cases r2 with
        | error e => exact Or.inl ⟨rfl, rfl⟩
        | ok order =>
          obtain ⟨-, -, ho, -⟩ := persistOrder_ok hpersist
          simp only at h ⊢
          cases hread : getOrderById env tx order.id with
          | error e =>
            simp only
            exact Or.inr ⟨order, e, hread, ho⟩
          | ok v =>
            rw [hread] at h
            simp at h

/-! ## Reading an order back -/

theorem getOrderById_ok {env : Env} {db : OrderDB} {id : Int} {v : Option OrderView}
    (h : getOrderById env db id = .ok v) : v = readOrder db id := by
  rw [getOrderById_eq] at h
  unfold readOrder
  split at h
  · simp at h
  · split at h
    · split at h
      · simpa using h.symm
      · split at h
        · simp at h
        · simpa using h.symm
    · simp at h

theorem getOrderById_found {env : Env} (db : OrderDB) (id : Int) (view : OrderView)
    (h1 : env.db .selectOrder = false) (h2 : env.db .selectItems = false)
    (h : readOrder db id = some view) : getOrderById env db id = .ok (some view) := by
  unfold readOrder at h
  cases hf : db.orders.filter (fun o => o.id = id) with
  | nil => simp [hf] at h
  | cons o rest =>
    have ha := acceptsId_of_filter hf
    rw [hf] at h
    simp only [Option.some.injEq] at h
    rw [getOrderById_eq]
    simp [h1, h2, ha, hf, h]

theorem getOrder_available {env : Env} (db : OrderDB) (id : Int) (view : OrderView)
    (h1 : env.db .selectOrder = false) (h2 : env.db .selectItems = false)
    (h : readOrder db id = some view) : getOrder env db id = ⟨200, .data view⟩ := by
  rw [getOrder_eq, getOrderById_found db id view h1 h2 h]

theorem readOrder_id {db : OrderDB} {id : Int} {view : OrderView}
    (h : readOrder db id = some view) : view.order.id = id := by
  unfold readOrder at h
  split at h
  · simp at h
  · rename_i order rest hcons
    have hmem : order ∈ db.orders.filter (fun o => o.id = id) := by
      rw [hcons]; exact List.mem_cons_self _ _
    simp only [Option.some.injEq] at h
    subst h
    simpa using (List.mem_filter.mp hmem).2

theorem postOrder_db_shape (env : Env) (L : Ledger) (db : OrderDB) (body : OrderRequest) :
    ((postOrder env L db body).db.orders = db.orders ∧
        (postOrder env L db body).db.order_items = db.order_items) ∨
      ∃ order rows, (∀ o ∈ db.orders, o.id ≠ order.id) ∧ order.status = "pending" ∧
        rows ≠ [] ∧ (∀ r ∈ rows, r.order_id = order.id) ∧
        (postOrder env L db body).db.orders = db.orders ++ [order] ∧
        (postOrder env L db body).db.order_items = db.order_items ++ rows := by
  unfold postOrder
  by_cases hguard : (userIdMissing body.user_id || itemsMissing body.items) = true
  · rw [if_pos hguard]; exact Or.inl ⟨rfl, rfl⟩
  · rw [if_neg hguard]
    by_cases hbegin : env.db .begin = true
    · rw [if_pos hbegin]; exact Or.inl ⟨rfl, rfl⟩
    · rw [if_neg hbegin]
      rcases hloop : processItems env 0 (body.items.getD []) 0 [] ⟨L, []⟩ with ⟨r, w⟩
      cases r with
      | error msg => exact Or.inl ⟨rfl, rfl⟩
      | ok pair =>
        obtain ⟨total, lines⟩ := pair
        simp only
        rcases hpersist : persistOrder env db (body.user_id.getD 0) total lines with ⟨r2, tx⟩
        cases r2 with
        | error e => exact Or.inl ⟨rfl, rfl⟩
        | ok order =>
          obtain ⟨horder, hfresh, ho, rows, hrows, hi⟩ := persistOrder_ok hpersist
          obtain ⟨lines2, hacc, -, hsnap, -⟩ := processItems_ok _ _ _ _ _ _ _ _ _ hloop
          simp only [List.nil_append] at hacc
          subst hacc
          have hitems : body.items.getD [] ≠ [] := by
            intro he
            apply hguard
            cases hb : body.items with
            | none => simp [itemsMissing]
            | some l =>
              rw [hb] at he
              simp only [Option.getD_some] at he
              simp [itemsMissing, he]
          have hlen : rows.length = (body.items.getD []).length := by
            rw [← hrows.length_eq, ← hsnap.length_eq]
          have hne : rows ≠ [] := by
            intro he
            rw [he] at hlen
            exact hitems (List.length_eq_zero.mp hlen.symm)
          have hshape : ∃ order2 rows2, (∀ o ∈ db.orders, o.id ≠ order2.id) ∧
              order2.status = "pending" ∧ rows2 ≠ [] ∧ (∀ r ∈ rows2, r.order_id = order2.id) ∧
              tx.orders = db.orders ++ [order2] ∧ tx.order_items = db.order_items ++ rows2 :=
            ⟨order, rows, hfresh, by rw [horder], hne, RowOf.order_id_eq hrows, ho, hi⟩
          simp only
          split <;> exact Or.inr hshape

theorem postOrder_created_reread {env : Env} {L : Ledger} {db : OrderDB} {body : OrderRequest}
    {completeOrder : Option OrderView}
    (h : (postOrder env L db body).response = ⟨201, .data completeOrder⟩) :
    ∃ view, completeOrder = some view ∧ view.order ∈ (postOrder env L db body).db.orders ∧
      view.order.status = "pending" ∧
      readOrder (postOrder env L db body).db view.order.id = some view := by
  obtain ⟨user_id, items, total, lines, w, order, -, -, -, -, hpersist, hread, -, -⟩ :=
    postOrder_created_inv h
  obtain ⟨horder, hfresh, ho, -, -, -⟩ := persistOrder_ok hpersist
  have hv := getOrderById_ok hread
  have hfilter : (postOrder env L db body).db.orders.filter (fun o => o.id = order.id) =
      [order] := by
    rw [ho, List.filter_append]
    have : db.orders.filter (fun o => o.id = order.id) = [] := by
      rw [List.filter_eq_nil_iff]
      intro o hmem
      simpa using hfresh o hmem
    simp [this]
  have hview : readOrder (postOrder env L db body).db order.id =
      some ⟨order, (postOrder env L db body).db.order_items.filter
        (fun r => r.order_id = order.id)⟩ := by
    unfold readOrder
    rw [hfilter]
  rw [hview] at hv
  refine ⟨_, hv, ?_, ?_, ?_⟩
  · rw [ho]; simp
  · rw [horder]
  · exact hview

/-- C11: for every placement answered 201, the order in the response (row and
items) is what `getOrderById`, and so `GET /api/orders/:id`, returns for that
order's identifier from the database the placement left, whenever the two
`SELECT` statements go through. -/
theorem postOrder_response_is_getOrder (env : Env) (L : Ledger) (db : OrderDB)
    (body : OrderRequest) (completeOrder : Option OrderView)
    (h : (postOrder env L db body).response = ⟨201, .data completeOrder⟩) :
    ∃ view, completeOrder = some view ∧
      ∀ env2 : Env, env2.db .selectOrder = false → env2.db .selectItems = false →
        getOrderById env2 (postOrder env L db body).db view.order.id = .ok (some view) ∧
        getOrder env2 (postOrder env L db body).db view.order.id = ⟨200, .data view⟩ := by
  obtain ⟨view, hv, -, -, hread⟩ := postOrder_created_reread h
  refine ⟨view, hv, ?_⟩
  intro env2 h1 h2
  exact ⟨getOrderById_found _ _ view h1 h2 hread,
    getOrder_available _ _ view h1 h2 hread⟩

/-- Witness of C11: two units of `P1` placed on an empty database, then read back. -/
theorem postOrder_response_is_getOrder_witness :
    ∃ view, some (⟨⟨1, 1, 8, "pending"⟩, [⟨1, 1, "P1", "Widget", 2, 4⟩]⟩ : OrderView) = some view ∧
      ∀ env2 : Env, env2.db .selectOrder = false → env2.db .selectItems = false →
        getOrderById env2
            (postOrder quietEnv (oneProduct 4 5) emptyDB ⟨some 1, some [⟨"P1", 2⟩]⟩).db
            view.order.id = .ok (some view) ∧
        getOrder env2
            (postOrder quietEnv (oneProduct 4 5) emptyDB ⟨some 1, some [⟨"P1", 2⟩]⟩).db
            view.order.id = ⟨200, .data view⟩ :=
  postOrder_response_is_getOrder quietEnv (oneProduct 4 5) emptyDB ⟨some 1, some [⟨"P1", 2⟩]⟩
    _ (by decide!)

theorem getOrder_ok_inv {env : Env} {db : OrderDB} {id : Int} {view : OrderView}
    (h : getOrder env db id = ⟨200, .data view⟩) : readOrder db id = some view := by
  rw [getOrder_eq] at h
  split at h
  · simp at h
  · simp at h
  · rename_i order hread
    simp only [HttpResponse.mk.injEq, Body.data.injEq, true_and] at h
    subst h
    exact (getOrderById_ok hread).symm

theorem runEvents_getOrders (s : System) (events : List Event)
    (h : ∀ e ∈ events, e.isGetOrder = true) : runEvents s events = s := by
  induction events generalizing s with
  | nil => rfl
  | cons e rest ih =>
    have he := h e (List.mem_cons_self _ _)
    have hrest : ∀ e2 ∈ rest, e2.isGetOrder = true :=
      fun e2 h2 => h e2 (List.mem_cons_of_mem _ h2)
    cases e with
    | getOrder env id =>
      simp only [runEvents, List.foldl_cons, applyEvent_getOrder]
      exact ih s hrest
    | placeOrder env body => simp [Event.isGetOrder] at he
    | setStatus env id status => simp [Event.isGetOrder] at he
    | adjustStock id q => simp [Event.isGetOrder] at he
    | changeCatalog L => simp [Event.isGetOrder] at he

/-- C12: in every state and for every identifier, `GET /api/orders/:id` sends
the database `SELECT` statements only (one on `orders`, then at most one on
`order_items`) and sends the product service nothing; so the order database it
leaves is the one it found, the ledger is unchanged, and the same holds after
any number of such requests.  Hence such a request gets the same response
whether or not lookups came before it; two lookups of one identifier that are
answered 200 return the same order; and after a placement answered 201 every
lookup of the new order that gets its two statements through returns that
order, items and total included, however many lookups came before it. -/
theorem getOrder_changes_nothing (s : System) :
    (∀ env id,
        (∀ step ∈ (getOrderSession env s.db id).sent,
          step = .selectOrder ∨ step = .selectItems) ∧
        (getOrderSession env s.db id).calls = [] ∧
        (getOrderSession env s.db id).db = s.db ∧
        (applyEvent s (.getOrder env id)).db = s.db ∧
        (applyEvent s (.getOrder env id)).ledger = s.ledger) ∧
      (∀ events, (∀ e ∈ events, e.isGetOrder = true) →
        (runEvents s events).db = s.db ∧ (runEvents s events).ledger = s.ledger ∧
        ∀ env id, getOrder env (runEvents s events).db id = getOrder env s.db id) ∧
      (∀ env1 env2 id v1 v2, getOrder env1 s.db id = ⟨200, .data v1⟩ →
        getOrder env2 s.db id = ⟨200, .data v2⟩ → v1 = v2) ∧
      (∀ env body view,
        (postOrder env s.ledger s.db body).response = ⟨201, .data (some view)⟩ →
        ∀ events, (∀ e ∈ events, e.isGetOrder = true) →
        ∀ env2 : Env, env2.db .selectOrder = false → env2.db .selectItems = false →
          getOrder env2 (runEvents (applyEvent s (.placeOrder env body)) events).db
            view.order.id = ⟨200, .data view⟩) := by
  refine ⟨?_, ?_, ?_, ?_⟩
  · intro env id
    obtain ⟨h1, h2, h3⟩ := getOrderSession_effect env s.db id
    refine ⟨h3, h2, h1, ?_, ?_⟩
    · rw [applyEvent_getOrder]
    · rw [applyEvent_getOrder]
  · intro events hgets
    rw [runEvents_getOrders s events hgets]
    exact ⟨rfl, rfl, fun _ _ => rfl⟩
  · intro env1 env2 id v1 v2 h1 h2
    have e1 := getOrder_ok_inv h1
    have e2 := getOrder_ok_inv h2
    rw [e1] at e2
    exact Option.some.inj e2
  · intro env body view h events hgets env2 h1 h2
    rw [runEvents_getOrders _ events hgets]
    obtain ⟨view2, hv, -, -, hread⟩ := postOrder_created_reread h
    simp only [Option.some.injEq] at hv
    subst hv
    exact getOrder_available _ _ _ h1 h2 hread

/-- Witness of C12: after two units of `P1` are placed, three lookups in a row
leave the state alone and the fourth returns the order as created. -/
theorem getOrder_changes_nothing_witness :
    getOrder quietEnv
        (runEvents (applyEvent ⟨oneProduct 4 5, emptyDB⟩
          (.placeOrder quietEnv ⟨some 1, some [⟨"P1", 2⟩]⟩))
          [.getOrder quietEnv 1, .getOrder quietEnv 7, .getOrder quietEnv 1]).db
        1 = ⟨200, .data ⟨⟨1, 1, 8, "pending"⟩, [⟨1, 1, "P1", "Widget", 2, 4⟩]⟩⟩ :=
  (getOrder_changes_nothing ⟨oneProduct 4 5, emptyDB⟩).2.2.2 quietEnv
    ⟨some 1, some [⟨"P1", 2⟩]⟩ ⟨⟨1, 1, 8, "pending"⟩, [⟨1, 1, "P1", "Widget", 2, 4⟩]⟩
    (by decide!) [.getOrder quietEnv 1, .getOrder quietEnv 7, .getOrder quietEnv 1]
    (by simp [Event.isGetOrder]) quietEnv rfl rfl

/-! ## Orders and their items over time -/

theorem patchOrderStatus_db (env : Env) (db : OrderDB) (id : Int) (status : String) :
    (patchOrderStatus env db id status).2.order_items = db.order_items ∧
      ((patchOrderStatus env db id status).2.orders = db.orders ∨
        (patchOrderStatus env db id status).2.orders =
          db.orders.map (fun o => if o.id = id then { o with status := status } else o)) := by
  rcases patchOrderStatus_db_cases env db id status with h | h
  · rw [h]; exact ⟨rfl, Or.inl rfl⟩
  · rw [h]; exact ⟨rfl, Or.inr rfl⟩

theorem postOrder_keeps_items (env : Env) (L : Ledger) (db : OrderDB) (body : OrderRequest)
    (h : EveryOrderHasItem db) : EveryOrderHasItem (postOrder env L db body).db := by
  rcases postOrder_db_shape env L db body with ⟨ho, hi⟩ | ⟨order, rows, -, -, hne, hrows, ho, hi⟩
  · intro o hmem
    rw [ho] at hmem
    rw [hi]
    exact h o hmem
  · intro o hmem
    rw [ho] at hmem
    rw [hi]
    rcases List.mem_append.mp hmem with hold | hnew
    · obtain ⟨r, hr, hid⟩ := h o hold
      exact ⟨r, List.mem_append_left _ hr, hid⟩
    · simp only [List.mem_singleton] at hnew
      subst hnew
      obtain ⟨r, hr⟩ := List.exists_mem_of_ne_nil rows hne
      exact ⟨r, List.mem_append_right _ hr, hrows r hr⟩

theorem patchOrderStatus_keeps_items (env : Env) (db : OrderDB) (id : Int) (status : String)
    (h : EveryOrderHasItem db) : EveryOrderHasItem (patchOrderStatus env db id status).2 := by
  obtain ⟨hi, ho | ho⟩ := patchOrderStatus_db env db id status
  · intro o hmem
    rw [ho] at hmem
    rw [hi]
    exact h o hmem
  · intro o hmem
    rw [ho] at hmem
    rw [hi]
    simp only [List.mem_map] at hmem
    obtain ⟨o2, ho2, rfl⟩ := hmem
    obtain ⟨r, hr, hid⟩ := h o2 ho2
    refine ⟨r, hr, ?_⟩
    split <;> exact hid

theorem applyEvent_keeps_items (s : System) (e : Event) (h : EveryOrderHasItem s.db) :
    EveryOrderHasItem (applyEvent s e).db := by
  cases e with
  | placeOrder env body => exact postOrder_keeps_items env s.ledger s.db body h
  | setStatus env id status => exact patchOrderStatus_keeps_items env s.db id status h
  | getOrder env id => rw [applyEvent_getOrder]; exact h
  | adjustStock id q => exact h
  | changeCatalog L => exact h

theorem runEvents_keeps_items (events : List Event) :
    ∀ s : System, EveryOrderHasItem s.db → EveryOrderHasItem (runEvents s events).db := by
  induction events with
  | nil => intro s h; exact h
  | cons e rest ih =>
    intro s h
    simp only [runEvents, List.foldl_cons]
    exact ih (applyEvent s e) (applyEvent_keeps_items s e h)

/-- C13: in every state reached from the empty order database by any sequence
of placements and status updates (lookups, stock adjustments and catalog
changes may come in between, the ledger may be anything), every order row has
at least one item row; a placement run in such a state either adds no order
row or adds exactly one, of status `pending`, with at least one item row; and
the order a placement returns with its 201 has status `pending`. -/
theorem runEvents_orders_have_items (L0 : Ledger) (events : List Event) :
    EveryOrderHasItem (runEvents ⟨L0, emptyDB⟩ events).db ∧
      (∀ env body,
        ((applyEvent (runEvents ⟨L0, emptyDB⟩ events) (.placeOrder env body)).db.orders =
            (runEvents ⟨L0, emptyDB⟩ events).db.orders) ∨
          ∃ order, order.status = "pending" ∧
            (applyEvent (runEvents ⟨L0, emptyDB⟩ events) (.placeOrder env body)).db.orders =
              (runEvents ⟨L0, emptyDB⟩ events).db.orders ++ [order] ∧
            ∃ r ∈ (applyEvent (runEvents ⟨L0, emptyDB⟩ events)
                (.placeOrder env body)).db.order_items, r.order_id = order.id) ∧
      ∀ env body view,
        (postOrder env (runEvents ⟨L0, emptyDB⟩ events).ledger
            (runEvents ⟨L0, emptyDB⟩ events).db body).response = ⟨201, .data (some view)⟩ →
          view.order.status = "pending" := by
  refine ⟨?_, ?_, ?_⟩
  · apply runEvents_keeps_items
    intro o ho
    simp [emptyDB] at ho
  rotate_left
  · intro env body view h
    obtain ⟨view2, hv, -, hstatus, -⟩ := postOrder_created_reread h
    simp only [Option.some.injEq] at hv
    subst hv
    exact hstatus
  · intro env body
    simp only [applyEvent]
    rcases postOrder_db_shape env (runEvents ⟨L0, emptyDB⟩ events).ledger
        (runEvents ⟨L0, emptyDB⟩ events).db body with
      ⟨ho, -⟩ | ⟨order, rows, -, hstatus, hne, hrows, ho, hi⟩
    · exact Or.inl ho
    · refine Or.inr ⟨order, hstatus, ho, ?_⟩
      obtain ⟨r, hr⟩ := List.exists_mem_of_ne_nil rows hne
      exact ⟨r, by rw [hi]; exact List.mem_append_right _ hr, hrows r hr⟩

/-- Witness of C13: two placements (the second fails for lack of stock), a
status update and a third placement from the empty database; the two orders
stored each have an item row. -/
theorem runEvents_orders_have_items_witness :
    EveryOrderHasItem (runEvents ⟨oneProduct 4 5, emptyDB⟩
        [.placeOrder quietEnv ⟨some 1, some [⟨"P1", 2⟩]⟩,
          .placeOrder quietEnv ⟨some 2, some [⟨"P1", 9⟩]⟩,
          .setStatus quietEnv 1 "shipped",
          .placeOrder quietEnv ⟨some 3, some [⟨"P1", 1⟩, ⟨"P1", 1⟩]⟩]).db ∧
      (runEvents ⟨oneProduct 4 5, emptyDB⟩
        [.placeOrder quietEnv ⟨some 1, some [⟨"P1", 2⟩]⟩,
          .placeOrder quietEnv ⟨some 2, some [⟨"P1", 9⟩]⟩,
          .setStatus quietEnv 1 "shipped",
          .placeOrder quietEnv ⟨some 3, some [⟨"P1", 1⟩, ⟨"P1", 1⟩]⟩]).db.orders =
        [⟨1, 1, 8, "shipped"⟩, ⟨2, 3, 8, "pending"⟩] :=
  ⟨(runEvents_orders_have_items (oneProduct 4 5)
      [.placeOrder quietEnv ⟨some 1, some [⟨"P1", 2⟩]⟩,
        .placeOrder quietEnv ⟨some 2, some [⟨"P1", 9⟩]⟩,
        .setStatus quietEnv 1 "shipped",
        .placeOrder quietEnv ⟨some 3, some [⟨"P1", 1⟩, ⟨"P1", 1⟩]⟩]).1, by decide!⟩

/-! ## An order after later requests -/

theorem orderKept_refl (id : Int) (db : OrderDB) : OrderKept id db db := ⟨rfl, rfl⟩

theorem orderKept_trans {id : Int} {db1 db2 db3 : OrderDB} (h12 : OrderKept id db1 db2)
    (h23 : OrderKept id db2 db3) : OrderKept id db1 db3 :=
  ⟨h23.1.trans h12.1, h23.2.trans h12.2⟩

theorem orderKept_nonempty {id : Int} {db1 db2 : OrderDB} (h : OrderKept id db1 db2)
    (hne : db1.orders.filter (fun o => o.id = id) ≠ []) :
    db2.orders.filter (fun o => o.id = id) ≠ [] := by
  intro he
  have hlen := congrArg List.length h.1
  simp only [List.length_map, he, List.length_nil] at hlen
  exact hne (List.length_eq_zero.mp hlen.symm)

theorem postOrder_keeps_order (env : Env) (L : Ledger) (db : OrderDB) (body : OrderRequest)
    (id : Int) (hne : db.orders.filter (fun o => o.id = id) ≠ []) :
    OrderKept id db (postOrder env L db body).db := by
  rcases postOrder_db_shape env L db body with ⟨ho, hi⟩ | ⟨order, rows, hfresh, -, -, hrows, ho, hi⟩
  · exact ⟨by rw [ho], by rw [hi]⟩
  · obtain ⟨o, hmem⟩ := List.exists_mem_of_ne_nil _ hne
    have ho2 := List.mem_filter.mp hmem
    have hid : o.id = id := by simpa using ho2.2
    have hneq : ¬ order.id = id := by
      intro e
      exact hfresh o ho2.1 (hid.trans e.symm)
    constructor
    · rw [ho, List.filter_append]
      simp [List.filter_cons, hneq]
    · rw [hi, List.filter_append]
      have : rows.filter (fun r => r.order_id = id) = [] := by
        rw [List.filter_eq_nil_iff]
        intro r hr
        simpa [hrows r hr] using hneq
      simp [this]

theorem filter_map_keeps_id (f : OrderRow → OrderRow) (hf : ∀ o, (f o).id = o.id)
    (id : Int) (l : List OrderRow) :
    (l.map f).filter (fun o => o.id = id) = (l.filter (fun o => o.id = id)).map f := by
  induction l with
  | nil => rfl
  | cons a rest ih =>
    by_cases ha : a.id = id
    · simp [List.filter_cons, hf, ha, ih]
    · simp [List.filter_cons, hf, ha, ih]

theorem patchOrderStatus_keeps_order (env : Env) (db : OrderDB) (id2 : Int) (status : String)
    (id : Int) : OrderKept id db (patchOrderStatus env db id2 status).2 := by
  obtain ⟨hi, ho | ho⟩ := patchOrderStatus_db env db id2 status
  · exact ⟨by rw [ho], by rw [hi]⟩
  · refine ⟨?_, by rw [hi]⟩
    rw [ho, filter_map_keeps_id _ (fun o => by split <;> rfl), List.map_map]
    apply List.map_congr_left
    intro o _
    simp only [Function.comp]
    split <;> rfl

theorem applyEvent_keeps_order (s : System) (e : Event) (id : Int)
    (hne : s.db.orders.filter (fun o => o.id = id) ≠ []) :
    OrderKept id s.db (applyEvent s e).db := by
  cases e with
  | placeOrder env body => exact postOrder_keeps_order env s.ledger s.db body id hne
  | setStatus env id2 status => exact patchOrderStatus_keeps_order env s.db id2 status id
  | getOrder env id2 => rw [applyEvent_getOrder]; exact orderKept_refl id s.db
  | adjustStock id2 q => exact orderKept_refl id s.db
  | changeCatalog L => exact orderKept_refl id s.db

theorem runEvents_keeps_order (events : List Event) (id : Int) :
    ∀ s : System, s.db.orders.filter (fun o => o.id = id) ≠ [] →
      OrderKept id s.db (runEvents s events).db := by
  induction events with
  | nil => intro s _; exact orderKept_refl id s.db
  | cons e rest ih =>
    intro s hne
    simp only [runEvents, List.foldl_cons]
    have h1 := applyEvent_keeps_order s e id hne
    exact orderKept_trans h1 (ih (applyEvent s e) (orderKept_nonempty h1 hne))

theorem orderKept_readOrder {id : Int} {db1 db2 : OrderDB} (h : OrderKept id db1 db2)
    {view : OrderView} (hread : readOrder db1 id = some view) :
    ∃ view2, readOrder db2 id = some view2 ∧ view2.items = view.items ∧
      view2.order.id = view.order.id ∧ view2.order.user_id = view.order.user_id ∧
      view2.order.total_amount = view.order.total_amount := by
  obtain ⟨h1, h2⟩ := h
  unfold readOrder at hread ⊢
  cases hf1 : db1.orders.filter (fun o => o.id = id) with
  | nil => simp [hf1] at hread
  | cons o1 rest1 =>
    rw [hf1] at hread h1
    simp only [Option.some.injEq] at hread
    subst hread
    cases hf2 : db2.orders.filter (fun o => o.id = id) with
    | nil => simp [hf2] at h1
    | cons o2 rest2 =>
      rw [hf2] at h1
      simp only [List.map_cons, List.cons.injEq, Prod.mk.injEq] at h1
      exact ⟨_, rfl, h2, h1.1.1, h1.1.2.1, h1.1.2.2⟩

/-- C14: take an order created by a placement answered 201 and any sequence of
later requests: changes to the catalog of any kind, stock adjustments, further
placements, status updates, lookups.  Afterwards `GET /api/orders/:id`, its two
statements going through, returns for that order the same item rows (product
identifier, product name, unit price, quantity) and the same identifier, owner
and `total_amount` as the placement returned. -/
theorem getOrder_after_later_events (env : Env) (L : Ledger) (db : OrderDB)
    (body : OrderRequest) (view : OrderView) (events : List Event)
    (h : (postOrder env L db body).response = ⟨201, .data (some view)⟩) :
    ∀ env2 : Env, env2.db .selectOrder = false → env2.db .selectItems = false →
      ∃ view2,
        getOrder env2 (runEvents (applyEvent ⟨L, db⟩ (.placeOrder env body)) events).db
          view.order.id = ⟨200, .data view2⟩ ∧
        view2.items = view.items ∧ view2.order.id = view.order.id ∧
        view2.order.user_id = view.order.user_id ∧
        view2.order.total_amount = view.order.total_amount := by
  intro env2 h1 h2
  obtain ⟨view1, hv, hmem, -, hread⟩ := postOrder_created_reread h
  simp only [Option.some.injEq] at hv
  subst hv
  have hne : (applyEvent ⟨L, db⟩ (.placeOrder env body)).db.orders.filter
      (fun o => o.id = view.order.id) ≠ [] := by
    intro he
    have : view.order ∈ (applyEvent ⟨L, db⟩ (.placeOrder env body)).db.orders.filter
        (fun o => o.id = view.order.id) :=
      List.mem_filter.mpr ⟨hmem, by simp⟩
    rw [he] at this
    simp at this
  have hkept := runEvents_keeps_order events view.order.id
    (applyEvent ⟨L, db⟩ (.placeOrder env body)) hne
  obtain ⟨view2, hread2, hrest⟩ := orderKept_readOrder hkept hread
  exact ⟨view2, getOrder_available _ _ view2 h1 h2 hread2, hrest⟩

/-- Witness of C14: two units of `P1` at price 4 are placed; then the catalog
is replaced by one where `P1` costs 9, stock is added, another order is placed
and the first is shipped.  The first order still reads price 4 and total 8. -/
theorem getOrder_after_later_events_witness :
    ∃ view2,
      getOrder quietEnv (runEvents (applyEvent ⟨oneProduct 4 5, emptyDB⟩
          (.placeOrder quietEnv ⟨some 1, some [⟨"P1", 2⟩]⟩))
          [.changeCatalog (oneProduct 9 1), .adjustStock "P1" 10,
            .placeOrder quietEnv ⟨some 2, some [⟨"P1", 3⟩]⟩, .setStatus quietEnv 1 "shipped"]).db
        (⟨⟨1, 1, 8, "pending"⟩, [⟨1, 1, "P1", "Widget", 2, 4⟩]⟩ : OrderView).order.id =
          ⟨200, .data view2⟩ ∧
      view2.items = [⟨1, 1, "P1", "Widget", 2, 4⟩] ∧ view2.order.id = 1 ∧
      view2.order.user_id = 1 ∧ view2.order.total_amount = 8 :=
  getOrder_after_later_events quietEnv (oneProduct 4 5) emptyDB ⟨some 1, some [⟨"P1", 2⟩]⟩
    ⟨⟨1, 1, 8, "pending"⟩, [⟨1, 1, "P1", "Widget", 2, 4⟩]⟩
    [.changeCatalog (oneProduct 9 1), .adjustStock "P1" 10,
      .placeOrder quietEnv ⟨some 2, some [⟨"P1", 3⟩]⟩, .setStatus quietEnv 1 "shipped"]
    (by decide!) quietEnv rfl rfl

/-! ## Stocks never rise under a placement of positive quantities -/

theorem notRaised_refl (L : Ledger) : NotRaised L L := by
  intro id
  refine ⟨0, le_rfl, ?_⟩
  cases L id <;> simp

theorem notRaised_trans {L1 L2 L3 : Ledger} (h12 : NotRaised L1 L2) (h23 : NotRaised L2 L3) :
    NotRaised L1 L3 := by
  intro id
  obtain ⟨d1, hd1, e1⟩ := h12 id
  obtain ⟨d2, hd2, e2⟩ := h23 id
  refine ⟨d1 + d2, by omega, ?_⟩
  rw [e2, e1]
  cases L1 id with
  | none => rfl
  | some p => simp [sub_sub]

theorem patchProductStock_not_raised (L : Ledger) (id : String) (q : Int) (hq : 0 ≤ q) :
    NotRaised L (patchProductStock L id (-q)).2 := by
  cases hL : L id with
  | none => rw [patchProductStock_missing L id _ hL]; exact notRaised_refl L
  | some p =>
    rw [patchProductStock_found L id _ p hL]
    split
    · exact notRaised_refl L
    · intro k
      by_cases hk : k = id
      · subst hk
        exact ⟨q, hq, by simp [save, hL, sub_eq_add_neg]⟩
      · refine ⟨0, le_rfl, ?_⟩
        simp only [save, hk, if_false]
        cases L k <;> simp

theorem axiosGet_ledger (env : Env) (k : Nat) (w : World) (id : String) :
    (axiosGet env k w id).2.ledger = w.ledger := by
  unfold axiosGet
  simp only
  split
  · rfl
  · rfl
  · split <;> rfl

theorem axiosPatch_not_raised (env : Env) (k : Nat) (w : World) (id : String) (q : Int)
    (hq : 0 ≤ q) : NotRaised w.ledger (axiosPatch env k w id (-q)).2.ledger := by
  unfold axiosPatch
  simp only
  split
  · exact notRaised_refl _
  · exact patchProductStock_not_raised _ _ _ hq
  · split <;> exact patchProductStock_not_raised _ _ _ hq

theorem processItems_not_raised (env : Env) (items : List OrderItemInput) :
    (∀ it ∈ items, 0 ≤ it.quantity) →
    ∀ (k : Nat) (total : ℚ) (acc : List LineItem) (w : World),
      NotRaised w.ledger (processItems env k items total acc w).2.ledger := by
  induction items with
  | nil => intro _ k total acc w; exact notRaised_refl _
  | cons item rest ih =>
    intro hq k total acc w
    have hq0 := hq item (List.mem_cons_self _ _)
    have hqrest : ∀ it ∈ rest, 0 ≤ it.quantity := fun it h => hq it (List.mem_cons_of_mem _ h)
    have hget := axiosGet_ledger env k w item.product_id
    rw [processItems]
    split
    · rename_i msg w1 hg
      rw [hg] at hget
      simp only at hget ⊢
      rw [hget]; exact notRaised_refl _
    · rename_i msg w1 hg
      rw [hg] at hget
      simp only at hget ⊢
      rw [hget]; exact notRaised_refl _
    · rename_i product w1 hg
      rw [hg] at hget
      simp only at hget
      split
      · simp only
        rw [hget]; exact notRaised_refl _
      · have hpatch := axiosPatch_not_raised env k w1 item.product_id item.quantity hq0
        rw [hget] at hpatch
        simp only
        split
        · rename_i msg w2 hp
          rw [hp] at hpatch
          exact hpatch
        · rename_i b w2 hp
          rw [hp] at hpatch
          simp only at hpatch
          exact notRaised_trans hpatch (ih hqrest _ _ _ _)

theorem postOrder_ledger (env : Env) (L : Ledger) (db : OrderDB) (body : OrderRequest) :
    (postOrder env L db body).ledger = L ∨
      (postOrder env L db body).ledger =
        (processItems env 0 (body.items.getD []) 0 [] ⟨L, []⟩).2.ledger := by
  unfold postOrder
  split
  · exact Or.inl rfl
  · split
    · exact Or.inl rfl
    · split
      · rename_i msg w hloop
        rw [hloop]; exact Or.inr rfl
      · rename_i total lines w hloop
        rw [hloop]
        simp only
        split
        · exact Or.inr rfl
        · split <;> exact Or.inr rfl

/-- C15: for every ledger and every placement whose quantities are all at
least 1, handled without another request in between, whatever the faults: no
product's stock is higher afterwards than before, whether the placement
succeeds or fails; when it is answered 201, the stock of every product has
dropped by exactly the sum of the quantities requested of it; and once the
availability check of an item has passed, the stock handler accepts the
adjustment (it answers 200 with the lowered stock) and the loop goes on to the
next item. -/
theorem postOrder_stock_never_raised (env : Env) (L : Ledger) (db : OrderDB)
    (user_id : Option Int) (items : List OrderItemInput)
    (hq : ∀ it ∈ items, 1 ≤ it.quantity) :
    (∀ id p, L id = some p →
        ∃ p2, (postOrder env L db ⟨user_id, some items⟩).ledger id = some p2 ∧
          p2.stock ≤ p.stock) ∧
      (∀ v, (postOrder env L db ⟨user_id, some items⟩).response = ⟨201, .data v⟩ →
        StockShift L (postOrder env L db ⟨user_id, some items⟩).ledger
          (fun id => -requestedQty items id)) ∧
      (∀ (L2 : Ledger) (item : OrderItemInput) (p : Product),
        L2 item.product_id = some p → ¬ p.stock < item.quantity →
          (patchProductStock L2 item.product_id (-item.quantity)).1 =
            ⟨200, .data { p with stock := p.stock - item.quantity }⟩) ∧
      (∀ (k : Nat) (item : OrderItemInput) (rest : List OrderItemInput) (total : ℚ)
          (acc : List LineItem) (w : World) (p : Product),
        env.get k = .delivered → env.patch k = .delivered →
        w.ledger item.product_id = some p → ¬ p.stock < item.quantity →
          processItems env k (item :: rest) total acc w =
            processItems env (k + 1) rest (total + p.price * item.quantity)
              (acc ++ [snapshot item p])
              ⟨save w.ledger item.product_id { p with stock := p.stock + -item.quantity },
                w.calls ++ [.get item.product_id] ++
                  [.patch item.product_id (-item.quantity)]⟩) := by
  refine ⟨?_, ?_, ?_, ?_⟩
  · have hraised : NotRaised L (postOrder env L db ⟨user_id, some items⟩).ledger := by
      rcases postOrder_ledger env L db ⟨user_id, some items⟩ with h | h
      · rw [h]; exact notRaised_refl L
      · rw [h]
        exact processItems_not_raised env items (fun it hit => by have := hq it hit; omega)
          0 0 [] ⟨L, []⟩
    intro id p hp
    obtain ⟨d, hd, e⟩ := hraised id
    rw [hp] at e
    exact ⟨_, e, by simp only; omega⟩
  · intro v h
    obtain ⟨uid, items2, total, lines, w, order, -, hitems, -, hloop, -, -, hledger, -⟩ :=
      postOrder_created_inv h
    simp only [Option.some.injEq] at hitems
    subst hitems
    obtain ⟨-, -, -, -, hshift⟩ := processItems_ok _ _ _ _ _ _ _ _ _ hloop
    rw [hledger]
    exact hshift
  · intro L2 item p hp hcheck
    rw [patchProductStock_found L2 _ _ p hp, if_neg (by omega)]
    simp [sub_eq_add_neg]
  · intro k item rest total acc w p hg hpt hp hcheck
    exact processItems_turn rest total acc hg hpt hp hcheck

/-- Witness of C15: two of `P1` and one of `P2` from stocks 5 and 4. -/
theorem postOrder_stock_never_raised_witness :
    (∃ p2, (postOrder quietEnv (twoProducts 5 4) emptyDB
          ⟨some 1, some [⟨"P1", 2⟩, ⟨"P2", 1⟩]⟩).ledger "P2" = some p2 ∧ p2.stock ≤ 4) ∧
      StockShift (twoProducts 5 4)
        (postOrder quietEnv (twoProducts 5 4) emptyDB
          ⟨some 1, some [⟨"P1", 2⟩, ⟨"P2", 1⟩]⟩).ledger
        (fun id => -requestedQty [⟨"P1", 2⟩, ⟨"P2", 1⟩] id) :=
  have h := postOrder_stock_never_raised quietEnv (twoProducts 5 4) emptyDB (some 1)
    [⟨"P1", 2⟩, ⟨"P2", 1⟩] (by decide)
  ⟨h.1 "P2" ⟨"Gadget", "A gadget", 5, "tools", 4⟩ rfl,
    h.2.1 (some ⟨⟨1, 1, 4498 / 100, "pending"⟩,
      [⟨1, 1, "P1", "Widget", 2, 1999 / 100⟩, ⟨2, 1, "P2", "Gadget", 1, 5⟩]⟩) (by decide!)⟩

/-! ## Negative quantities -/

/-- C16: the order service does not check quantities.  For a product with
non-negative stock `s` and positive price `p` and a quantity `q < 0` (values
fitting the columns, no fault), the availability check `s < q` is false, so the
placement goes on: it is answered 201, the stock handler is asked to add `-q`
and the stock becomes `s - q`, above `s`, and the order is stored with item
quantity `q` and `total_amount` `p * q`, both negative. -/
theorem placeOne_negative_quantity (pgMessage : PgError → String) (L : Ledger) (db : OrderDB)
    (user_id : Int) (pid : String) (q : Int) (p : Product)
    (hp : L pid = some p) (hstock : 0 ≤ p.stock) (hq : q < 0) (hpos : 0 < p.price)
    (huser : user_id ≠ 0) (hrange : InIntegerRange user_id ∧ InIntegerRange q)
    (hlen : pid.length ≤ 255 ∧ p.name.length ≤ 255) (hprice : TwoDecimals p.price)
    (hfit : |p.price| < 100000000 ∧ |p.price * q| < 100000000)
    (hfk : ForeignKeyValid db) (hseq : SequencesAhead db) :
    ¬ p.stock < q ∧
      (placeOne (Env.healthy pgMessage) L db user_id pid q).response =
        ⟨201, .data (some ⟨⟨db.orders_id_seq + 1, user_id, p.price * q, "pending"⟩,
          [⟨db.order_items_id_seq + 1, db.orders_id_seq + 1, pid, p.name, q, p.price⟩]⟩)⟩ ∧
      p.price * q < 0 ∧
      (placeOne (Env.healthy pgMessage) L db user_id pid q).calls =
        [.get pid, .patch pid (-q)] ∧
      (placeOne (Env.healthy pgMessage) L db user_id pid q).ledger pid =
        some { p with stock := p.stock - q } ∧
      p.stock < p.stock - q ∧
      (placeOne (Env.healthy pgMessage) L db user_id pid q).db.orders =
        db.orders ++ [⟨db.orders_id_seq + 1, user_id, p.price * q, "pending"⟩] ∧
      (placeOne (Env.healthy pgMessage) L db user_id pid q).db.order_items =
        db.order_items ++
          [⟨db.order_items_id_seq + 1, db.orders_id_seq + 1, pid, p.name, q, p.price⟩] := by
  rw [placeOne_created pgMessage L db user_id pid q p hp (by omega) huser hrange hlen hprice
    hfit hfk hseq]
  have hneg : p.price * q < 0 :=
    mul_neg_of_pos_of_neg hpos (by exact_mod_cast hq)
  refine ⟨by omega, rfl, hneg, rfl, ?_, by omega, rfl, rfl⟩
  simp [save, sub_eq_add_neg]

/-- Witness of C16: one item of quantity -3 for a product of stock 5 and price
4: the order is stored with quantity -3 and total -12, and the stock is 8. -/
theorem placeOne_negative_quantity_witness :
    (placeOne quietEnv (oneProduct 4 5) emptyDB 1 "P1" (-3)).response =
        ⟨201, .data (some ⟨⟨1, 1, 4 * ((-3 : Int) : ℚ), "pending"⟩,
          [⟨1, 1, "P1", "Widget", -3, 4⟩]⟩)⟩ ∧
      (placeOne quietEnv (oneProduct 4 5) emptyDB 1 "P1" (-3)).calls =
        [.get "P1", .patch "P1" 3] ∧
      (placeOne quietEnv (oneProduct 4 5) emptyDB 1 "P1" (-3)).ledger "P1" =
        some ⟨"Widget", "A widget", 4, "tools", 8⟩ :=
  have h := placeOne_negative_quantity quietEnv.pgMessage (oneProduct 4 5) emptyDB 1 "P1" (-3)
    ⟨"Widget", "A widget", 4, "tools", 5⟩ rfl (by decide) (by decide) (by norm_num)
    (by decide) ⟨⟨by decide, by decide⟩, ⟨by decide, by decide⟩⟩ (by decide)
    ⟨400, by norm_num⟩ (by constructor <;> norm_num [abs_lt])
    (by simp [ForeignKeyValid, emptyDB]) (by simp [SequencesAhead, emptyDB])
  ⟨h.2.1, h.2.2.2.1, h.2.2.2.2.1⟩

/-! ## Two placements under every schedule -/

theorem persistOne_healthy (pgMessage : PgError → String) (db : OrderDB) (user_id : Int)
    (pid name : String) (q : Int) (price : ℚ)
    (hrange : InIntegerRange user_id ∧ InIntegerRange q)
    (hlen : pid.length ≤ 255 ∧ name.length ≤ 255) (hprice : TwoDecimals price)
    (hfit : |price| < 100000000 ∧ |price * q| < 100000000) (hseq : SequencesAhead db) :
    persistOrder (Env.healthy pgMessage) db user_id (price * q) [⟨pid, name, q, price⟩] =
      (.ok ⟨db.orders_id_seq + 1, user_id, price * q, "pending"⟩,
        ⟨db.orders ++ [⟨db.orders_id_seq + 1, user_id, price * q, "pending"⟩],
          db.order_items ++
            [⟨db.order_items_id_seq + 1, db.orders_id_seq + 1, pid, name, q, price⟩],
          db.orders_id_seq + 1, db.order_items_id_seq + 1⟩) := by
  have hfresh1 : ¬ (db.orders.any (fun o => o.id = db.orders_id_seq + 1)) = true := by
    simp only [List.any_eq_true, decide_eq_true_eq, not_exists, not_and]
    intro o ho heq
    have := hseq.1 o ho
    omega
  have hfresh2 : ¬ (db.order_items.any (fun r => r.id = db.order_items_id_seq + 1)) = true := by
    simp only [List.any_eq_true, decide_eq_true_eq, not_exists, not_and]
    intro r hr heq
    have := hseq.2 r hr
    omega
  have htotal : TwoDecimals (price * q) := hprice.mul_int q
  unfold persistOrder insertOrder
  simp only [Env.healthy, Bool.false_eq_true, if_false, toInteger_of_inRange hrange.1,
    toDecimal10_2_of_twoDecimals htotal hfit.2, hfresh1]
  unfold insertItems insertItem
  simp only [Bool.false_eq_true, if_false, toVarchar255_of_short hlen.1,
    toVarchar255_of_short hlen.2, toInteger_of_inRange hrange.2,
    toDecimal10_2_of_twoDecimals hprice hfit.1, hfresh2, insertItems]

theorem stepPlacement_adjusted_ok (pgMessage : PgError → String) (r : Placement) (s : Shared)
    (product p : Product) (hname : product.name = p.name) (hprice : product.price = p.price)
    (hfit : FitsColumns r p) (hfk : ForeignKeyValid s.db) (hseq : SequencesAhead s.db) :
    ∃ view tx, stepPlacement pgMessage r (.adjusted product) s =
        (.finished ⟨201, .data (some view)⟩, ⟨s.ledger, tx⟩) ∧
      ForeignKeyValid tx ∧ SequencesAhead tx := by
  obtain ⟨-, hrange, hlen, htwo, hfits⟩ := hfit
  have hpersist := persistOne_healthy pgMessage s.db r.user_id r.product_id p.name r.quantity
    p.price hrange hlen htwo hfits hseq
  have hcons := persistOrder_keeps_consistent hfk hseq hpersist
  have hread := @getOrderById_fresh (Env.healthy pgMessage) s.db
    (⟨s.db.orders ++ [⟨s.db.orders_id_seq + 1, r.user_id, p.price * r.quantity, "pending"⟩],
          s.db.order_items ++
            [⟨s.db.order_items_id_seq + 1, s.db.orders_id_seq + 1, r.product_id, p.name,
              r.quantity, p.price⟩],
          s.db.orders_id_seq + 1, s.db.order_items_id_seq + 1⟩)
    (⟨s.db.orders_id_seq + 1, r.user_id, p.price * r.quantity, "pending"⟩)
    ([⟨s.db.order_items_id_seq + 1, s.db.orders_id_seq + 1, r.product_id, p.name, r.quantity,
      p.price⟩])
    hfk (by
      intro o ho heq
      have := hseq.1 o ho
      simp only at heq
      omega) (by simp) rfl rfl
  simp only [Env.healthy, Bool.false_eq_true, if_false] at hread
  refine ⟨⟨⟨s.db.orders_id_seq + 1, r.user_id, p.price * r.quantity, "pending"⟩,
      [⟨s.db.order_items_id_seq + 1, s.db.orders_id_seq + 1, r.product_id, p.name, r.quantity,
        p.price⟩]⟩, _, ?_, hcons⟩
  simp only [stepPlacement, zero_add, List.nil_append, hname, hprice, hpersist]
  simp only [Env.healthy] at hread ⊢
  rw [hread]

theorem stageOk_mono {r : Placement} {p : Product} {stage : Stage}
    (h : StageOk r p false stage) : StageOk r p true stage := by
  cases stage with
  | start => exact h
  | gotProduct product => exact h
  | adjusting product updated => exact h
  | adjusted product => exact h
  | finished response =>
    rcases h with h | ⟨hf, -⟩
    · exact Or.inl h
    · simp at hf

theorem ledgerOk_swap {L0 L : Ledger} {pid : String} {p : Product} {q1 q2 : Int}
    {a b : Bool} (h : LedgerOk L0 pid p q1 q2 a b L) : LedgerOk L0 pid p q2 q1 b a L := by
  obtain ⟨h1, h2⟩ := h
  refine ⟨h1, ?_⟩
  rcases h2 with ⟨hL, ha, hb⟩ | h2 | h2
  · exact Or.inl ⟨hL, hb, ha⟩
  · exact Or.inr (Or.inr h2)
  · exact Or.inr (Or.inl h2)

theorem stepPlacement_keeps (pgMessage : PgError → String) (L0 : Ledger) (r other : Placement)
    (p : Product) (hfit : FitsColumns r p) (hq : r.quantity ≤ p.stock)
    (hsum : p.stock < r.quantity + other.quantity) (stage otherStage : Stage) (s : Shared)
    (hstage : StageOk r p otherStage.saved stage)
    (hother : StageOk other p stage.saved otherStage)
    (hdb : ForeignKeyValid s.db ∧ SequencesAhead s.db)
    (hledger : LedgerOk L0 r.product_id p r.quantity other.quantity stage.saved
      otherStage.saved s.ledger) :
    StageOk r p otherStage.saved (stepPlacement pgMessage r stage s).1 ∧
      StageOk other p (stepPlacement pgMessage r stage s).1.saved otherStage ∧
      (ForeignKeyValid (stepPlacement pgMessage r stage s).2.db ∧
        SequencesAhead (stepPlacement pgMessage r stage s).2.db) ∧
      LedgerOk L0 r.product_id p r.quantity other.quantity
        (stepPlacement pgMessage r stage s).1.saved otherStage.saved
        (stepPlacement pgMessage r stage s).2.ledger := by
  cases stage with
  | start =>
    obtain ⟨hrest, hcases⟩ := hledger
    rcases hcases with ⟨hL, hs1, hs2⟩ | ⟨hL, hs1⟩ | ⟨hL, hs2⟩
    · rw [stepPlacement_start_found pgMessage r s p hfit.1 hL, if_neg (not_lt.mpr hq)]
      exact ⟨⟨rfl, rfl⟩, hother, hdb, hrest, Or.inl ⟨hL, rfl, hs2⟩⟩
    · simp [Stage.saved] at hs1
    · rw [stepPlacement_start_found pgMessage r s _ hfit.1 hL,
        if_pos (by simp only; omega)]
      exact ⟨Or.inr ⟨hs2, Or.inl rfl⟩, hother, hdb, hrest, Or.inr (Or.inr ⟨hL, hs2⟩)⟩
  | gotProduct product =>
    obtain ⟨hrest, hcases⟩ := hledger
    rcases hcases with ⟨hL, hs1, hs2⟩ | ⟨hL, hs1⟩ | ⟨hL, hs2⟩
    · rw [stepPlacement_gotProduct_found pgMessage r s product p hL,
        if_neg (by omega)]
      exact ⟨⟨hstage, by simp [sub_eq_add_neg]⟩, hother, hdb, hrest, Or.inl ⟨hL, rfl, hs2⟩⟩
    · simp [Stage.saved] at hs1
    · rw [stepPlacement_gotProduct_found pgMessage r s product _ hL,
        if_pos (by simp only; omega)]
      exact ⟨Or.inr ⟨hs2, Or.inr rfl⟩, hother, hdb, hrest, Or.inr (Or.inr ⟨hL, hs2⟩)⟩
  | adjusting product updated =>
    obtain ⟨hrest, -⟩ := hledger
    have hstep : stepPlacement pgMessage r (.adjusting product updated) s =
        (.adjusted product, ⟨save s.ledger r.product_id updated, s.db⟩) := rfl
    rw [hstep]
    refine ⟨hstage.1, stageOk_mono hother, hdb, ?_, Or.inr (Or.inl ⟨?_, rfl⟩)⟩
    · intro k hk
      simp only [save, hk, if_false]
      exact hrest k hk
    · simp [save, hstage.2]
  | adjusted product =>
    obtain ⟨view, tx, hstep, hfk2, hseq2⟩ := stepPlacement_adjusted_ok pgMessage r s product p
      hstage.1 hstage.2 hfit hdb.1 hdb.2
    rw [hstep]
    exact ⟨Or.inl ⟨view, rfl⟩, hother, ⟨hfk2, hseq2⟩, hledger⟩
  | finished response =>
    have hstep : stepPlacement pgMessage r (.finished response) s = (.finished response, s) :=
      rfl
    rw [hstep]
    exact ⟨hstage, hother, hdb, hledger⟩

theorem stepInFlight_keeps (pgMessage : PgError → String) (L0 : Ledger) (r1 r2 : Placement)
    (p : Product) (hsame : r2.product_id = r1.product_id) (hq1 : r1.quantity ≤ p.stock)
    (hq2 : r2.quantity ≤ p.stock) (hsum : p.stock < r1.quantity + r2.quantity)
    (hfit1 : FitsColumns r1 p) (hfit2 : FitsColumns r2 p) (who : Bool) (st : InFlight)
    (h : InFlightOk L0 r1 r2 p st) :
    InFlightOk L0 r1 r2 p (stepInFlight pgMessage r1 r2 who st) := by
  obtain ⟨h1, h2, hdb, hledger⟩ := h
  cases who with
  | false =>
    obtain ⟨a, b, c, d⟩ := stepPlacement_keeps pgMessage L0 r1 r2 p hfit1 hq1 hsum st.first
      st.second st.shared h1 h2 hdb hledger
    exact ⟨a, b, c, d⟩
  | true =>
    have hledger2 : LedgerOk L0 r2.product_id p r2.quantity r1.quantity st.second.saved
        st.first.saved st.shared.ledger := by
      rw [hsame]; exact ledgerOk_swap hledger
    obtain ⟨a, b, c, d⟩ := stepPlacement_keeps pgMessage L0 r2 r1 p hfit2 hq2 (by omega)
      st.second st.first st.shared h2 h1 hdb hledger2
    rw [hsame] at d
    exact ⟨b, a, c, ledgerOk_swap d⟩

theorem runInFlight_keeps (pgMessage : PgError → String) (L0 : Ledger) (r1 r2 : Placement)
    (p : Product) (hsame : r2.product_id = r1.product_id) (hq1 : r1.quantity ≤ p.stock)
    (hq2 : r2.quantity ≤ p.stock) (hsum : p.stock < r1.quantity + r2.quantity)
    (hfit1 : FitsColumns r1 p) (hfit2 : FitsColumns r2 p) (schedule : List Bool) :
    ∀ st : InFlight, InFlightOk L0 r1 r2 p st →
      InFlightOk L0 r1 r2 p
        (schedule.foldl (fun st who => stepInFlight pgMessage r1 r2 who st) st) := by
  induction schedule with
  | nil => intro st h; exact h
  | cons who rest ih =>
    intro st h
    simp only [List.foldl_cons]
    exact ih _ (stepInFlight_keeps pgMessage L0 r1 r2 p hsame hq1 hq2 hsum hfit1 hfit2 who st h)

theorem stepPlacement_rank (pgMessage : PgError → String) (r : Placement) (stage : Stage)
    (s : Shared) : min 4 (stage.rank + 1) ≤ (stepPlacement pgMessage r stage s).1.rank := by
  cases stage with
  | start =>
    simp only [stepPlacement]
    split
    · simp [Stage.rank]
    · split
      · split
        · simp [Stage.rank]
        · split <;> simp [Stage.rank]
      · simp [Stage.rank]
  | gotProduct product =>
    simp only [stepPlacement]
    split
    · split <;> simp [Stage.rank]
    · simp [Stage.rank]
  | adjusting product updated => simp [stepPlacement, Stage.rank]
  | adjusted product =>
    simp only [stepPlacement]
    split
    · simp [Stage.rank]
    · split <;> simp [Stage.rank]
  | finished response => simp [stepPlacement, Stage.rank]

theorem runInFlight_rank (pgMessage : PgError → String) (r1 r2 : Placement)
    (schedule : List Bool) :
    ∀ st : InFlight,
      min 4 (st.first.rank + schedule.count false) ≤
          (schedule.foldl (fun st who => stepInFlight pgMessage r1 r2 who st) st).first.rank ∧
        min 4 (st.second.rank + schedule.count true) ≤
          (schedule.foldl (fun st who => stepInFlight pgMessage r1 r2 who st) st).second.rank := by
  induction schedule with
  | nil => intro st; simp
  | cons who rest ih =>
    intro st
    simp only [List.foldl_cons]
    obtain ⟨ih1, ih2⟩ := ih (stepInFlight pgMessage r1 r2 who st)
    cases who with
    | false =>
      have hstep := stepPlacement_rank pgMessage r1 st.first st.shared
      simp only [stepInFlight, Bool.false_eq_true, if_false] at ih1 ih2 ⊢
      simp only [List.count_cons_self, List.count_cons_of_ne (by decide : (true : Bool) ≠ false)]
      constructor
      · omega
      · exact ih2
    | true =>
      have hstep := stepPlacement_rank pgMessage r2 st.second st.shared
      simp only [stepInFlight, if_true] at ih1 ih2 ⊢
      simp only [List.count_cons_self, List.count_cons_of_ne (by decide : (false : Bool) ≠ true)]
      constructor
      · exact ih1
      · omega

theorem Stage.finished_of_rank {stage : Stage} (h : 4 ≤ stage.rank) :
    ∃ response, stage = .finished response := by
  cases stage with
  | finished response => exact ⟨response, rfl⟩
  | start => simp [Stage.rank] at h
  | gotProduct _ => simp [Stage.rank] at h
  | adjusting _ _ => simp [Stage.rank] at h
  | adjusted _ => simp [Stage.rank] at h

/-- C10 (amended): two placements of one product with stock `s`, quantities
`q1, q2 ≤ s` and `q1 + q2 > s` (values that fit the columns of the order
tables, no faults), their steps interleaved by any schedule.  At every moment
the stock is `s`, `s - q1` or `s - q2`, so never negative, and no other product
changes.  A placement has answered once it had four turns.  Once both have
answered: at least one was answered 201; one that failed was answered 500 with
the insufficient-stock message of the order service or with the message of the
stock handler's 400, never anything else; when exactly one was answered 201 the
stock is `s` minus its quantity; when both were, the stock is `s - q1` or
`s - q2`, one of the two decrements being lost.  When one placement runs
entirely before the other, the first is answered 201, the other is answered 500
with the insufficient-stock message, and the stock ends at `s` minus the
quantity of the first. -/
theorem runInFlight_every_schedule (pgMessage : PgError → String) (r1 r2 : Placement)
    (L : Ledger) (db : OrderDB) (p : Product) (hsame : r2.product_id = r1.product_id)
    (hp : L r1.product_id = some p) (hq1 : r1.quantity ≤ p.stock) (hq2 : r2.quantity ≤ p.stock)
    (hsum : p.stock < r1.quantity + r2.quantity) (hfit1 : FitsColumns r1 p)
    (hfit2 : FitsColumns r2 p) (hfk : ForeignKeyValid db) (hseq : SequencesAhead db) :
    (∀ schedule : List Bool,
      (∃ v, 0 ≤ v ∧
        (v = p.stock ∨ v = p.stock - r1.quantity ∨ v = p.stock - r2.quantity) ∧
        (runInFlight pgMessage r1 r2 L db schedule).shared.ledger r1.product_id =
          some { p with stock := v }) ∧
      (∀ k, k ≠ r1.product_id →
        (runInFlight pgMessage r1 r2 L db schedule).shared.ledger k = L k) ∧
      (4 ≤ schedule.count false →
        ∃ a, (runInFlight pgMessage r1 r2 L db schedule).first = .finished a) ∧
      (4 ≤ schedule.count true →
        ∃ b, (runInFlight pgMessage r1 r2 L db schedule).second = .finished b) ∧
      (∀ a b, (runInFlight pgMessage r1 r2 L db schedule).first = .finished a →
        (runInFlight pgMessage r1 r2 L db schedule).second = .finished b →
        (a.status = 201 ∨ b.status = 201) ∧
        ((∃ view, a = ⟨201, .data (some view)⟩) ∨
          a = ⟨500, .error (processingError r1.product_id (insufficientStockMessage p.name))⟩ ∨
          a = ⟨500, .error (processingError r1.product_id (axiosStatusMessage 400))⟩) ∧
        ((∃ view, b = ⟨201, .data (some view)⟩) ∨
          b = ⟨500, .error (processingError r2.product_id (insufficientStockMessage p.name))⟩ ∨
          b = ⟨500, .error (processingError r2.product_id (axiosStatusMessage 400))⟩) ∧
        (a.status = 201 → b.status ≠ 201 →
          (runInFlight pgMessage r1 r2 L db schedule).shared.ledger r1.product_id =
            some { p with stock := p.stock - r1.quantity }) ∧
        (b.status = 201 → a.status ≠ 201 →
          (runInFlight pgMessage r1 r2 L db schedule).shared.ledger r1.product_id =
            some { p with stock := p.stock - r2.quantity }) ∧
        (a.status = 201 → b.status = 201 →
          (runInFlight pgMessage r1 r2 L db schedule).shared.ledger r1.product_id =
              some { p with stock := p.stock - r1.quantity } ∨
            (runInFlight pgMessage r1 r2 L db schedule).shared.ledger r1.product_id =
              some { p with stock := p.stock - r2.quantity }))) ∧
      ((∃ view, (runInFlight pgMessage r1 r2 L db (oneAfterTheOther false)).first =
          .finished ⟨201, .data (some view)⟩) ∧
        (runInFlight pgMessage r1 r2 L db (oneAfterTheOther false)).second =
          .finished ⟨500, .error (processingError r2.product_id
            (insufficientStockMessage p.name))⟩ ∧
        (runInFlight pgMessage r1 r2 L db (oneAfterTheOther false)).shared.ledger r1.product_id =
          some { p with stock := p.stock - r1.quantity }) ∧
      ((∃ view, (runInFlight pgMessage r1 r2 L db (oneAfterTheOther true)).second =
          .finished ⟨201, .data (some view)⟩) ∧
        (runInFlight pgMessage r1 r2 L db (oneAfterTheOther true)).first =
          .finished ⟨500, .error (processingError r1.product_id
            (insufficientStockMessage p.name))⟩ ∧
        (runInFlight pgMessage r1 r2 L db (oneAfterTheOther true)).shared.ledger r1.product_id =
          some { p with stock := p.stock - r2.quantity }) := by
  refine ⟨?_, ?_, ?_⟩
  · intro schedule
    have hstart : InFlightOk L r1 r2 p ⟨.start, .start, ⟨L, db⟩⟩ :=
      ⟨trivial, trivial, ⟨hfk, hseq⟩, fun _ _ => rfl, Or.inl ⟨hp, rfl, rfl⟩⟩
    have hinv : InFlightOk L r1 r2 p (runInFlight pgMessage r1 r2 L db schedule) :=
      runInFlight_keeps pgMessage L r1 r2 p hsame hq1 hq2 hsum hfit1 hfit2 schedule _ hstart
    have hrank : min 4 (0 + schedule.count false) ≤
          (runInFlight pgMessage r1 r2 L db schedule).first.rank ∧
        min 4 (0 + schedule.count true) ≤
          (runInFlight pgMessage r1 r2 L db schedule).second.rank :=
      runInFlight_rank pgMessage r1 r2 schedule ⟨.start, .start, ⟨L, db⟩⟩
    obtain ⟨hr1, hr2⟩ := hrank
    obtain ⟨h1, h2, -, hrest, hcases⟩ := hinv
    refine ⟨?_, hrest, ?_, ?_, ?_⟩
    · rcases hcases with ⟨hL, -, -⟩ | ⟨hL, -⟩ | ⟨hL, -⟩
      · exact ⟨p.stock, by omega, Or.inl rfl, hL⟩
      · exact ⟨p.stock - r1.quantity, by omega, Or.inr (Or.inl rfl), hL⟩
      · exact ⟨p.stock - r2.quantity, by omega, Or.inr (Or.inr rfl), hL⟩
    · intro hc
      exact Stage.finished_of_rank (by omega)
    · intro hc
      exact Stage.finished_of_rank (by omega)
    · intro a b ha hb
      rw [ha, hb] at h1 h2 hcases
      simp only [StageOk, Stage.saved, beq_iff_eq] at h1 h2 hcases
      refine ⟨?_, ?_, ?_, ?_, ?_, ?_⟩
      · rcases h1 with ⟨view, rfl⟩ | ⟨hb201, -⟩
        · exact Or.inl rfl
        · exact Or.inr hb201
      · rcases h1 with h | ⟨-, h⟩
        · exact Or.inl h
        · exact Or.inr h
      · rcases h2 with h | ⟨-, h⟩
        · exact Or.inl h
        · exact Or.inr h
      · intro ha201 hb201
        rcases hcases with ⟨-, hx, -⟩ | ⟨hL, -⟩ | ⟨-, hx⟩
        · exact absurd ha201 (by simpa using hx)
        · exact hL
        · exact absurd hx hb201
      · intro hb201 ha201
        rcases hcases with ⟨-, -, hx⟩ | ⟨-, hx⟩ | ⟨hL, -⟩
        · exact absurd hb201 (by simpa using hx)
        · exact absurd hx ha201
        · exact hL
      · intro ha201 hb201
        rcases hcases with ⟨-, hx, -⟩ | ⟨hL, -⟩ | ⟨hL, -⟩
        · exact absurd ha201 (by simpa using hx)
        · exact Or.inl hL
        · exact Or.inr hL
  · rw [runInFlight_firstThenSecond]
    exact runAlone_twice pgMessage r1 r2 L db p hsame hp hq1 hsum hfit1 hfit2.1 hfk hseq
  · rw [runInFlight_secondThenFirst]
    have h := runAlone_twice pgMessage r2 r1 L db p hsame.symm (hsame ▸ hp) hq2
      (by omega) hfit2 hfit1.1 hfk hseq
    rw [hsame] at h
    exact h

/-- Witness of C10 (amended): stock 5, two placements of three units each.  Under
the schedule where the second reads the product before the first saves and
asks for its adjustment after: both have answered, the first is answered 201,
the second 500 after the stock handler's 400, and the stock is 2; when the
first runs entirely before the second, the second gets the insufficient-stock
message. -/
theorem runInFlight_every_schedule_witness :
    (runInFlight quietEnv.pgMessage ⟨1, "P1", 3⟩ ⟨2, "P1", 3⟩ (oneProduct 4 5) emptyDB
        [false, true, false, false, true, true, false, true]).second =
      .finished ⟨500, .error (processingError "P1" (axiosStatusMessage 400))⟩ ∧
    (runInFlight quietEnv.pgMessage ⟨1, "P1", 3⟩ ⟨2, "P1", 3⟩ (oneProduct 4 5) emptyDB
        [false, true, false, false, true, true, false, true]).shared.ledger "P1" =
      some ⟨"Widget", "A widget", 4, "tools", 2⟩ ∧
    (runInFlight quietEnv.pgMessage ⟨1, "P1", 3⟩ ⟨2, "P1", 3⟩ (oneProduct 4 5) emptyDB
        (oneAfterTheOther false)).second =
      .finished ⟨500, .error (processingError "P1" (insufficientStockMessage "Widget"))⟩ :=
  have h := runInFlight_every_schedule quietEnv.pgMessage ⟨1, "P1", 3⟩ ⟨2, "P1", 3⟩
    (oneProduct 4 5) emptyDB ⟨"Widget", "A widget", 4, "tools", 5⟩ rfl rfl (by decide)
    (by decide) (by decide)
    ⟨by decide, ⟨⟨by decide, by decide⟩, ⟨by decide, by decide⟩⟩, ⟨by decide, by decide⟩,
      ⟨400, by norm_num⟩, by constructor <;> norm_num [abs_lt]⟩
    ⟨by decide, ⟨⟨by decide, by decide⟩, ⟨by decide, by decide⟩⟩, ⟨by decide, by decide⟩,
      ⟨400, by norm_num⟩, by constructor <;> norm_num [abs_lt]⟩
    (by simp [ForeignKeyValid, emptyDB]) (by simp [SequencesAhead, emptyDB])
  have hboth := (h.1 [false, true, false, false, true, true, false, true]).2.2.2.2
    ⟨201, .data (some ⟨⟨1, 1, 12, "pending"⟩, [⟨1, 1, "P1", "Widget", 3, 4⟩]⟩)⟩
    ⟨500, .error (processingError "P1" (axiosStatusMessage 400))⟩ (by decide!) (by decide!)
  ⟨by decide!, hboth.2.2.2.1 rfl (by decide), h.2.1.2.1⟩

/-- Counterexample to C10 as stated: stock 5, two placements of three units
each, every step of the first followed by the same step of the second.  Both
read a stock of 5, both stock handlers read 5 and save 2: both placements are
answered 201 and the stock ends at 2. -/
theorem runInFlight_interleaved_both_succeed :
    (runInFlight quietEnv.pgMessage ⟨1, "P1", 3⟩ ⟨2, "P1", 3⟩ (oneProduct 4 5) emptyDB
        [false, true, false, true, false, true, false, true]).first =
      .finished ⟨201, .data (some ⟨⟨1, 1, 12, "pending"⟩, [⟨1, 1, "P1", "Widget", 3, 4⟩]⟩)⟩ ∧
    (runInFlight quietEnv.pgMessage ⟨1, "P1", 3⟩ ⟨2, "P1", 3⟩ (oneProduct 4 5) emptyDB
        [false, true, false, true, false, true, false, true]).second =
      .finished ⟨201, .data (some ⟨⟨2, 2, 12, "pending"⟩, [⟨2, 2, "P1", "Widget", 3, 4⟩]⟩)⟩ ∧
    ((runInFlight quietEnv.pgMessage ⟨1, "P1", 3⟩ ⟨2, "P1", 3⟩ (oneProduct 4 5) emptyDB
        [false, true, false, true, false, true, false, true]).shared.ledger "P1").map
      (fun p => p.stock) = some 2 := by
  refine ⟨by decide!, by decide!, by decide!⟩

end Shop
